import Mathlib

/-!
# meow-videos: metadata catalog and blob-resolution layer

A shallow embedding of the catalog/resolver core of the repository:

* `src/lib/schema.js`   (event codec: `createMetadataMessage`, `parseMetadataMessage`,
  `validateMetadata`)
* `src/scripts/sync.js` (reconciler: `parseMetadata`, `main`)
* `src/scripts/upload.js` (producer: `updateLocalDB`, `main`)
* `src/app/api/videos/route.js`, `src/app/api/video/[id]/route.js`,
  `src/app/api/resolve/[id]/route.js`, `src/app/api/thumb/[id]/route.js` (read paths)

## Modelling conventions

* JSON data is the inductive type `JVal`; a JavaScript value is `Option JVal`, where
  `none` is `undefined`.  Numbers are integers (`Int`): fractions, `NaN`, infinities and
  double rounding are outside the model.
* A thrown exception is a value of `Thrown`; code inside `try` is written in `Except Thrown`
  and the `catch` clause is the `.error` branch of a `match`.
* What the JavaScript engine supplies and the repository does not define is a parameter:
  `Engine.JSONparse` is `JSON.parse` (`none` when it throws `SyntaxError`) and
  `Engine.StringToNumber` is the engine's string-to-number conversion (`none` for `NaN`).
* `data/videos.json` is identified with what `JSON.parse` makes of its text (`FileState`);
  `writeFileSync(path, JSON.stringify(v))` leaves the file holding `v`.
* The clock (`Date.now()`), the environment (`process.env`) and the remote service are
  explicit arguments.
-/

namespace MeowVideos

/-! ## JavaScript values -/

/-- JSON values, as produced by `JSON.parse`. -/
inductive JVal where
  | null : JVal
  | bool (b : Bool) : JVal
  | num (n : Int) : JVal
  | str (s : String) : JVal
  | arr (items : List JVal) : JVal
  | obj (fields : List (String × JVal)) : JVal

/-- A JSON object, as its list of properties. -/
abbrev Obj := List (String × JVal)

mutual
/-- Decidable equality of JSON values (structural). -/
def JVal.decEq : (a b : JVal) → Decidable (a = b)
  | .null, .null => isTrue rfl
  | .bool a, .bool b =>
    if h : a = b then isTrue (by rw [h]) else isFalse (by intro e; cases e; exact h rfl)
  | .num a, .num b =>
    if h : a = b then isTrue (by rw [h]) else isFalse (by intro e; cases e; exact h rfl)
  | .str a, .str b =>
    if h : a = b then isTrue (by rw [h]) else isFalse (by intro e; cases e; exact h rfl)
  | .arr a, .arr b =>
    match JVal.decEqList a b with
    | isTrue h => isTrue (by rw [h])
    | isFalse h => isFalse (by intro e; cases e; exact h rfl)
  | .obj a, .obj b =>
    match JVal.decEqFields a b with
    | isTrue h => isTrue (by rw [h])
    | isFalse h => isFalse (by intro e; cases e; exact h rfl)
  | .null, .bool _ => isFalse (by intro e; cases e)
  | .null, .num _ => isFalse (by intro e; cases e)
  | .null, .str _ => isFalse (by intro e; cases e)
  | .null, .arr _ => isFalse (by intro e; cases e)
  | .null, .obj _ => isFalse (by intro e; cases e)
  | .bool _, .null => isFalse (by intro e; cases e)
  | .bool _, .num _ => isFalse (by intro e; cases e)
  | .bool _, .str _ => isFalse (by intro e; cases e)
  | .bool _, .arr _ => isFalse (by intro e; cases e)
  | .bool _, .obj _ => isFalse (by intro e; cases e)
  | .num _, .null => isFalse (by intro e; cases e)
  | .num _, .bool _ => isFalse (by intro e; cases e)
  | .num _, .str _ => isFalse (by intro e; cases e)
  | .num _, .arr _ => isFalse (by intro e; cases e)
  | .num _, .obj _ => isFalse (by intro e; cases e)
  | .str _, .null => isFalse (by intro e; cases e)
  | .str _, .bool _ => isFalse (by intro e; cases e)
  | .str _, .num _ => isFalse (by intro e; cases e)
  | .str _, .arr _ => isFalse (by intro e; cases e)
  | .str _, .obj _ => isFalse (by intro e; cases e)
  | .arr _, .null => isFalse (by intro e; cases e)
  | .arr _, .bool _ => isFalse (by intro e; cases e)
  | .arr _, .num _ => isFalse (by intro e; cases e)
  | .arr _, .str _ => isFalse (by intro e; cases e)
  | .arr _, .obj _ => isFalse (by intro e; cases e)
  | .obj _, .null => isFalse (by intro e; cases e)
  | .obj _, .bool _ => isFalse (by intro e; cases e)
  | .obj _, .num _ => isFalse (by intro e; cases e)
  | .obj _, .str _ => isFalse (by intro e; cases e)
  | .obj _, .arr _ => isFalse (by intro e; cases e)
/-- Decidable equality of lists of JSON values. -/
def JVal.decEqList : (a b : List JVal) → Decidable (a = b)
  | [], [] => isTrue rfl
  | [], _ :: _ => isFalse (by intro e; cases e)
  | _ :: _, [] => isFalse (by intro e; cases e)
  | x :: xs, y :: ys =>
    match JVal.decEq x y, JVal.decEqList xs ys with
    | isTrue h₁, isTrue h₂ => isTrue (by rw [h₁, h₂])
    | isFalse h, _ => isFalse (by intro e; cases e; exact h rfl)
    | _, isFalse h => isFalse (by intro e; cases e; exact h rfl)
/-- Decidable equality of property lists. -/
def JVal.decEqFields : (a b : List (String × JVal)) → Decidable (a = b)
  | [], [] => isTrue rfl
  | [], _ :: _ => isFalse (by intro e; cases e)
  | _ :: _, [] => isFalse (by intro e; cases e)
  | (k, x) :: xs, (l, y) :: ys =>
    if hk : k = l then
      match JVal.decEq x y, JVal.decEqFields xs ys with
      | isTrue h₁, isTrue h₂ => isTrue (by rw [hk, h₁, h₂])
      | isFalse h, _ => isFalse (by intro e; cases e; exact h rfl)
      | _, isFalse h => isFalse (by intro e; cases e; exact h rfl)
    else isFalse (by intro e; cases e; exact hk rfl)
end

instance : DecidableEq JVal := JVal.decEq

/-- An exception raised by the engine or by the program. -/
inductive Thrown where
  | typeError : Thrown
  | syntaxError : Thrown
  | failed (message : String) : Thrown
  deriving DecidableEq

/-- What the JavaScript engine supplies: `JSON.parse` (`none`: it throws `SyntaxError`) and
the conversion of a string to a number (`none`: `NaN`). -/
structure Engine where
  JSONparse : String → Option JVal
  StringToNumber : String → Option Int

/-- The `length` of a string counts UTF-16 code units. -/
def utf16Length (s : String) : Nat :=
  (s.toList.map (fun c => if c.toNat < 65536 then 1 else 2)).sum

/-- Property read `v.key`.  Reading a property of `undefined` or `null` throws `TypeError`.
Objects answer with their own property; strings and arrays have `length`.  Only the
property names the program reads are modelled (none of them is inherited). -/
def getProp (v : Option JVal) (key : String) : Except Thrown (Option JVal) :=
  match v with
  | none => .error .typeError
  | some .null => .error .typeError
  | some (.obj fields) => .ok (fields.lookup key)
  | some (.str s) => .ok (if key = "length" then some (.num (utf16Length s)) else none)
  | some (.arr items) => .ok (if key = "length" then some (.num items.length) else none)
  | some (.bool _) => .ok none
  | some (.num _) => .ok none

/-- JavaScript truthiness (`ToBoolean`). -/
def truthy : Option JVal → Bool
  | none => false
  | some .null => false
  | some (.bool b) => b
  | some (.num n) => n != 0
  | some (.str s) => s != ""
  | some (.arr _) => true
  | some (.obj _) => true

/-- The expression `a || b` with a defined right operand. -/
def jsOr (a : Option JVal) (b : JVal) : JVal :=
  match a with
  | some v => if truthy (some v) then v else b
  | none => b

mutual
/-- The string conversion `String(v)` of a JSON value. -/
def jsString : JVal → String
  | .null => "null"
  | .bool b => if b then "true" else "false"
  | .num n => toString n
  | .str s => s
  | .arr items => jsJoin items
  | .obj _ => "[object Object]"
termination_by structural v => v
/-- The array conversion `items.join(",")`: `null` elements print as the empty string. -/
def jsJoin : List JVal → String
  | [] => ""
  | x :: rest =>
    (match x with
     | .null => ""
     | v => jsString v) ++ (match rest with | [] => "" | _ :: _ => "," ++ jsJoin rest)
termination_by structural l => l
end

/-- The conversion `String(v)` of a JavaScript value. -/
def toStr : Option JVal → String
  | none => "undefined"
  | some v => jsString v

/-- Strict equality `a === b` (also the key comparison of `Map`).  Primitives compare by
value; arrays and objects compare by identity, and every comparison the program makes has a
primitive or a freshly parsed value on one side, so they compare unequal. -/
def strictEq : Option JVal → Option JVal → Bool
  | none, none => true
  | some .null, some .null => true
  | some (.bool a), some (.bool b) => a == b
  | some (.num a), some (.num b) => a == b
  | some (.str a), some (.str b) => a == b
  | _, _ => false

/-- Number conversion `ToNumber(v)`; `none` is `NaN`.  Arrays and objects convert through
their string form. -/
def toNumber (js : Engine) : Option JVal → Option Int
  | none => none
  | some .null => some 0
  | some (.bool b) => some (if b then 1 else 0)
  | some (.num n) => some n
  | some (.str s) => js.StringToNumber s
  | some (.arr items) => js.StringToNumber (jsString (.arr items))
  | some (.obj fields) => js.StringToNumber (jsString (.obj fields))

/-- The comparison `v > 0`. -/
def gtZero (js : Engine) (v : Option JVal) : Bool :=
  match toNumber js v with
  | some n => decide (0 < n)
  | none => false

/-! ## `src/lib/schema.js` -/

/-- Message type identifier in the channel. -/
def MESSAGE_TYPE : String := "video_meta"

/-- Schema version. -/
def SCHEMA_VERSION : Int := 1

/-- The argument object of `createMetadataMessage`. -/
structure MetadataParams where
  video_msg_id : Option JVal
  file_id : Option JVal
  thumb_file_id : Option JVal
  title : Option JVal
  description : Option JVal
  duration : Option JVal

/-- The function `createMetadataMessage`; `now` is `Math.floor(Date.now() / 1000)`.  The
parameter defaults (`description = ''`, `duration = 0`) apply to `undefined` only. -/
def createMetadataMessage (now : Int) (p : MetadataParams) : List (String × Option JVal) :=
  [("type", some (.str MESSAGE_TYPE)),
   ("schema_version", some (.num SCHEMA_VERSION)),
   ("video_msg_id", p.video_msg_id),
   ("file_id", p.file_id),
   ("thumb_file_id", p.thumb_file_id),
   ("title", p.title),
   ("description", some (p.description.getD (.str ""))),
   ("duration", some (p.duration.getD (.num 0))),
   ("uploaded_at", some (.num now))]

/-- The JSON value that a serialization of a JavaScript object denotes: `JSON.stringify`
leaves out the properties whose value is `undefined`. -/
def jsonOf (o : List (String × Option JVal)) : JVal :=
  .obj (o.filterMap (fun kv => kv.2.map (fun v => (kv.1, v))))

/-- The `try` block of `parseMetadataMessage`; `.ok none` is the returned `null`. -/
def parseMetadataMessageBody (js : Engine) (text : String) : Except Thrown (Option Obj) :=
  match js.JSONparse text with
  | none => .error .syntaxError
  | some data => do
    let type ← getProp (some data) "type"
    if !strictEq type (some (.str MESSAGE_TYPE)) then
      return none
    let video_msg_id ← getProp (some data) "video_msg_id"
    let title ← getProp (some data) "title"
    let description ← getProp (some data) "description"
    let file_id ← getProp (some data) "file_id"
    let thumb_file_id ← getProp (some data) "thumb_file_id"
    let duration ← getProp (some data) "duration"
    let uploaded_at ← getProp (some data) "uploaded_at"
    return some
      [("id", .str (toStr video_msg_id)),
       ("title", jsOr title (.str "Untitled")),
       ("description", jsOr description (.str "")),
       ("file_id", jsOr file_id (.str "")),
       ("thumb_file_id", jsOr thumb_file_id (.str "")),
       ("duration", jsOr duration (.num 0)),
       ("uploaded_at", jsOr uploaded_at (.num 0))]

/-- The function `parseMetadataMessage`: the `catch` clause returns `null`. -/
def parseMetadataMessage (js : Engine) (text : String) : Option Obj :=
  match parseMetadataMessageBody js text with
  | .ok r => r
  | .error _ => none

/-! ## The catalog file and generic helpers -/

/-- The state of `data/videos.json`: missing, holding text that `JSON.parse` rejects, or
holding a serialization of the JSON value `v`. -/
inductive FileState where
  | absent : FileState
  | corrupt : FileState
  | holds (v : JVal) : FileState
  deriving DecidableEq

/-- The expression `JSON.parse(fs.readFileSync(path, 'utf-8'))`. -/
def readJSON : FileState → Except Thrown JVal
  | .absent => .error (.failed "ENOENT")
  | .corrupt => .error .syntaxError
  | .holds v => .ok v

/-- Calling an array method (`filter`, `find`, `forEach`, ...) on `v`: anything but an
array has no such method, and the call throws `TypeError`. -/
def asArray : Option JVal → Except Thrown (List JVal)
  | some (.arr items) => .ok items
  | _ => .error .typeError

/-- The method `Array.prototype.filter` with a callback that may throw. -/
def filterE {α : Type} (p : α → Except Thrown Bool) : List α → Except Thrown (List α)
  | [] => .ok []
  | x :: xs =>
    match p x with
    | .error e => .error e
    | .ok keep =>
      match filterE p xs with
      | .error e => .error e
      | .ok rest => .ok (if keep then x :: rest else rest)

/-- The method `Array.prototype.map` with a callback that may throw. -/
def mapE {α β : Type} (f : α → Except Thrown β) : List α → Except Thrown (List β)
  | [] => .ok []
  | x :: xs =>
    match f x with
    | .error e => .error e
    | .ok y =>
      match mapE f xs with
      | .error e => .error e
      | .ok rest => .ok (y :: rest)

/-- The method `Array.prototype.find` with the callback `(v) => v.id === id`. -/
def findById (id : Option JVal) : List JVal → Except Thrown (Option JVal)
  | [] => .ok none
  | v :: rest =>
    match getProp (some v) "id" with
    | .error e => .error e
    | .ok vid => if strictEq vid id then .ok (some v) else findById id rest

/-- The test `v.file_id && v.file_id.length > 0`, as a truth value. -/
def hasFileId (js : Engine) (v : JVal) : Except Thrown Bool := do
  let file_id ← getProp (some v) "file_id"
  if truthy file_id then
    let len ← getProp file_id "length"
    return gtZero js len
  else
    return false

/-- The test `v.id !== 'demo'`. -/
def notDemo (v : JVal) : Except Thrown Bool := do
  let id ← getProp (some v) "id"
  return !strictEq id (some (.str "demo"))

/-- An HTTP response of a route handler.  `json status body headers` is
`NextResponse.json(body, init)` with the body as serialized; `failure status label cause`
is the `catch` clause's `NextResponse.json(\x7b error: label, message: error.message \x7d)`;
`redirect url status` is `NextResponse.redirect(url, status)` with `url` as passed in. -/
inductive Response where
  | json (status : Nat) (body : JVal) (headers : List (String × String)) : Response
  | failure (status : Nat) (label : String) (cause : Thrown) : Response
  | redirect (url : String) (status : Nat) : Response
  deriving DecidableEq

/-- The HTTP status of a response. -/
def Response.status : Response → Nat
  | .json status _ _ => status
  | .failure status _ _ => status
  | .redirect _ status => status

/-- The constant `TELEGRAM_API`; an unset `BOT_TOKEN` prints as `undefined`. -/
def TELEGRAM_API (botToken : Option String) : String :=
  "https://api.telegram.org/bot" ++ botToken.getD "undefined"

/-- The constant `TELEGRAM_FILE_API`. -/
def TELEGRAM_FILE_API (botToken : Option String) : String :=
  "https://api.telegram.org/file/bot" ++ botToken.getD "undefined"

/-! ## `src/app/api/videos/route.js` -/

/-- The filter callback of the list endpoint: `hasFileId && notDemo`. -/
def isListed (js : Engine) (v : JVal) : Except Thrown Bool := do
  let hasFile ← hasFileId js v
  let noDemo ← notDemo v
  return hasFile && noDemo

/-- The map callback of the list endpoint. -/
def formatVideo (v : JVal) : Except Thrown JVal := do
  let id ← getProp (some v) "id"
  let title ← getProp (some v) "title"
  let description ← getProp (some v) "description"
  let duration ← getProp (some v) "duration"
  let thumb_file_id ← getProp (some v) "thumb_file_id"
  let uploaded_at ← getProp (some v) "uploaded_at"
  return jsonOf
    [("id", id),
     ("title", title),
     ("description", description),
     ("duration", duration),
     ("thumbnail_url",
        some (.str (if truthy thumb_file_id then "/api/thumb/" ++ toStr id
                    else "/placeholder-thumb.svg"))),
     ("uploaded_at", uploaded_at)]

/-- The `try` block of the list endpoint once the file exists: the formatted videos. -/
def listVideos (js : Engine) (file : FileState) : Except Thrown (List JVal) := do
  let videos ← readJSON file
  let _ ← getProp (some videos) "length"
  let items ← asArray (some videos)
  let kept ← filterE (isListed js) items
  mapE formatVideo kept

/-- The handler `GET /api/videos`. -/
def videosGET (js : Engine) (file : FileState) : Response :=
  match file with
  | .absent => .json 200 (.obj [("videos", .arr []), ("message", .str "No videos yet")]) []
  | _ =>
    match listVideos js file with
    | .ok formattedVideos =>
      .json 200 (.obj [("videos", .arr formattedVideos),
                       ("total", .num formattedVideos.length)]) []
    | .error e => .failure 500 "Failed to fetch videos" e

/-! ## `src/app/api/resolve/[id]/route.js` -/

/-- What a handler did: its response and the URLs it fetched from the remote service. -/
structure Outcome where
  response : Response
  requests : List String
  deriving DecidableEq

/-- The remote service: the outcome of `fetch(url)` followed by `.json()`. -/
abbrev Remote := String → Except Thrown JVal

/-- HTTP whitespace: tab, line feed, carriage return, space. -/
def isHttpWhitespace (c : Char) : Bool :=
  c.toNat == 9 || c.toNat == 10 || c.toNat == 13 || c.toNat == 32

/-- The check that `NextResponse.json` makes on a value of `init.headers` when it builds the
`Headers` of the response, as the Fetch standard states it: the value is converted to a byte
string (a character above U+00FF throws `TypeError`), leading and trailing HTTP whitespace
is removed, and what remains must contain no NUL, line feed or carriage return (otherwise
`TypeError` is thrown). -/
def validHeaderValue (s : String) : Bool :=
  s.toList.all (fun c => decide (c.toNat ≤ 255)) &&
  ((s.toList.dropWhile isHttpWhitespace).reverse.dropWhile isHttpWhitespace).all
    (fun c => c.toNat != 0 && c.toNat != 10 && c.toNat != 13)

/-- The value `tgData.parameters?.retry_after || 60`. -/
def retryAfter (tgData : JVal) : Except Thrown JVal := do
  let parameters ← getProp (some tgData) "parameters"
  let retry_after ←
    match parameters with
    | none => pure none
    | some .null => pure none
    | some p => getProp (some p) "retry_after"
  return jsOr retry_after (.num 60)

/-- The part of the resolve handler that follows the remote answer `tgData`.  In the 429
branch `NextResponse.json` throws when `String(retryAfter)` is not a header value; the
exception reaches the `catch` clause of the handler like any other. -/
def resolveAnswer (botToken : Option String) (tgData : JVal) : Except Thrown Response := do
  let ok ← getProp (some tgData) "ok"
  if !truthy ok then
    let error_code ← getProp (some tgData) "error_code"
    if strictEq error_code (some (.num 400)) then
      let description ← getProp (some tgData) "description"
      return .json 404 (jsonOf [("error", some (.str "File not found on Telegram")),
                                ("telegram_error", description)]) []
    if strictEq error_code (some (.num 429)) then
      let retry ← retryAfter tgData
      if !validHeaderValue (jsString retry) then
        throw .typeError
      return .json 429 (.obj [("error", .str "Rate limited, please try again later")])
        [("Retry-After", jsString retry)]
    let description ← getProp (some tgData) "description"
    return .json 502 (jsonOf [("error", some (.str "Telegram API error")),
                              ("details", description)]) []
  let result ← getProp (some tgData) "result"
  let filePath ← getProp result "file_path"
  return .redirect (TELEGRAM_FILE_API botToken ++ "/" ++ toStr filePath) 302

/-- Step 1 of the resolve handler: find the video in the catalog file.  The result is
`none` when `find` returns `undefined`, and `some video.file_id` for the record found. -/
def lookupFileId (file : FileState) (id : String) : Except Thrown (Option (Option JVal)) := do
  let videos ← readJSON file
  let items ← asArray (some videos)
  let video ← findById (some (.str id)) items
  match video with
  | none => return none
  | some v =>
    let file_id ← getProp (some v) "file_id"
    return some file_id

/-- The handler `GET /api/resolve/[id]`. -/
def resolveGET (botToken : Option String) (remote : Remote) (file : FileState)
    (id : String) : Outcome :=
  match file with
  | .absent => ⟨.json 404 (.obj [("error", .str "No videos database found")]) [], []⟩
  | _ =>
    match lookupFileId file id with
    | .error e => ⟨.failure 500 "Internal server error" e, []⟩
    | .ok none =>
      ⟨.json 404 (.obj [("error", .str "Video not found"), ("id", .str id)]) [], []⟩
    | .ok (some file_id) =>
      if !truthy file_id then
        ⟨.json 404 (.obj [("error", .str "Video file_id missing"), ("id", .str id)]) [], []⟩
      else
        match file_id with
        | some (.str handle) =>
          let url := TELEGRAM_API botToken ++ "/getFile?file_id=" ++ handle
          match remote url with
          | .error e => ⟨.failure 500 "Internal server error" e, [url]⟩
          | .ok tgData =>
            match resolveAnswer botToken tgData with
            | .ok response => ⟨response, [url]⟩
            | .error e => ⟨.failure 500 "Internal server error" e, [url]⟩
        | _ =>
          -- `video.file_id.substring` is not a function: the log line throws before the fetch
          ⟨.failure 500 "Internal server error" .typeError, []⟩

/-! ## `src/scripts/upload.js` -/

/-- The filter callback of `updateLocalDB`:
`v.id !== 'demo' && v.file_id && v.file_id.length > 0`. -/
def isValidEntry (js : Engine) (v : JVal) : Except Thrown Bool := do
  let noDemo ← notDemo v
  if noDemo then hasFileId js v else return false

/-- The assignment `videos[existingIndex] = video` at the first index whose record has the
id `id`, or `videos.push(video)` when `findIndex` returns `-1`. -/
def replaceOrPush (id : Option JVal) (video : JVal) : List JVal → Except Thrown (List JVal)
  | [] => .ok [video]
  | v :: rest =>
    match getProp (some v) "id" with
    | .error e => .error e
    | .ok vid =>
      if strictEq vid id then .ok (video :: rest)
      else
        match replaceOrPush id video rest with
        | .error e => .error e
        | .ok rest' => .ok (v :: rest')

/-- The function `updateLocalDB`: the new state of `data/videos.json`, or the exception
that escapes to the caller (nothing is written then). -/
def updateLocalDB (js : Engine) (file : FileState) (video : Obj) : Except Thrown FileState := do
  let videos ←
    match file with
    | .absent => pure (JVal.arr [])
    | _ => readJSON file
  let items ← asArray (some videos)
  let valid ← filterE (isValidEntry js) items
  let id ← getProp (some (.obj video)) "id"
  let updated ← replaceOrPush id (.obj video) valid
  return .holds (.arr updated)

/-! ## `src/scripts/sync.js` -/

/-- The function `parseMetadata` of `sync.js` (its own copy of the decoder). -/
def parseMetadata (js : Engine) (text : String) : Option Obj :=
  match (match js.JSONparse text with
    | none => Except.error Thrown.syntaxError
    | some data => do
      let type ← getProp (some data) "type"
      if !strictEq type (some (.str "video_meta")) then
        return none
      let video_msg_id ← getProp (some data) "video_msg_id"
      let title ← getProp (some data) "title"
      let description ← getProp (some data) "description"
      let file_id ← getProp (some data) "file_id"
      let thumb_file_id ← getProp (some data) "thumb_file_id"
      let duration ← getProp (some data) "duration"
      let uploaded_at ← getProp (some data) "uploaded_at"
      return some
        [("id", JVal.str (toStr video_msg_id)),
         ("title", jsOr title (.str "Untitled")),
         ("description", jsOr description (.str "")),
         ("file_id", jsOr file_id (.str "")),
         ("thumb_file_id", jsOr thumb_file_id (.str "")),
         ("duration", jsOr duration (.num 0)),
         ("uploaded_at", jsOr uploaded_at (.num 0))]) with
  | .ok r => r
  | .error _ => none

/-- The function `fetchUpdates`, given the outcome of the `getUpdates` request. -/
def fetchUpdates (answer : Except Thrown JVal) : Except Thrown (Option JVal) := do
  let data ← answer
  let ok ← getProp (some data) "ok"
  if !truthy ok then
    let description ← getProp (some data) "description"
    throw (.failed ("Telegram error: " ++ toStr description))
  getProp (some data) "result"

/-- The first filter callback of `main`: `u.channel_post && u.channel_post.text`. -/
def hasChannelText (u : JVal) : Except Thrown Bool := do
  let channel_post ← getProp (some u) "channel_post"
  if truthy channel_post then
    let text ← getProp channel_post "text"
    return truthy text
  else
    return false

/-- The map callback of `main`: `parseMetadata(u.channel_post.text)`; `JSON.parse` reads
its argument through `String(...)`. -/
def decodeUpdate (js : Engine) (u : JVal) : Except Thrown (Option Obj) := do
  let channel_post ← getProp (some u) "channel_post"
  let text ← getProp channel_post "text"
  return parseMetadata js (toStr text)

/-- The list `metadataMessages` of `main`: the updates that are channel posts with text,
decoded, without the `null` results. -/
def decodeUpdates (js : Engine) (updates : Option JVal) : Except Thrown (List Obj) := do
  let _ ← getProp updates "length"
  let items ← asArray updates
  let posts ← filterE hasChannelText items
  let decoded ← mapE (decodeUpdate js) posts
  return decoded.filterMap id

/-- A `Map` in insertion order, as its list of entries. -/
abbrev VideoMap := List (Option JVal × JVal)

/-- The method `Map.prototype.set`: an existing key keeps its position and takes the new
value, a new key is appended. -/
def mapSet (m : VideoMap) (key : Option JVal) (value : JVal) : VideoMap :=
  match m with
  | [] => [(key, value)]
  | (k, v) :: rest =>
    if strictEq k key then (k, value) :: rest else (k, v) :: mapSet rest key value

/-- The method `Map.prototype.delete`. -/
def mapDelete (m : VideoMap) (key : Option JVal) : VideoMap :=
  m.filter (fun entry => !strictEq entry.1 key)

/-- The loop `list.forEach((v) => videoMap.set(v.id, v))`. -/
def setAll (m : VideoMap) : List JVal → Except Thrown VideoMap
  | [] => .ok m
  | v :: rest =>
    match getProp (some v) "id" with
    | .error e => .error e
    | .ok id => setAll (mapSet m id v) rest

/-- The property `v.uploaded_at` as a number, for a value that passed the `file_id`
filter (such a value is an object, so the read cannot throw); `none` is `NaN`. -/
def uploadedAt (js : Engine) (v : JVal) : Option Int :=
  match getProp (some v) "uploaded_at" with
  | .ok u => toNumber js u
  | .error _ => none

/-- The comparator `(a, b) => b.uploaded_at - a.uploaded_at`; `sort` reads `NaN` as `+0`. -/
def compareUploaded (js : Engine) (a b : JVal) : Int :=
  match uploadedAt js b, uploadedAt js a with
  | some x, some y => x - y
  | _, _ => 0

/-- The method `Array.prototype.sort(compare)`: the sort is stable, so for a consistent
comparator its result is the one computed here by insertion (an element goes before the
first element it does not have to follow). -/
def jsSort (compare : JVal → JVal → Int) (l : List JVal) : List JVal :=
  l.insertionSort (fun a b => compare a b ≤ 0)

/-- Lines 122-132 of `main`: merge by id, drop `demo`, keep the records with a `file_id`,
sort newest first. -/
def mergeVideos (js : Engine) (existingVideos : JVal) (metadataMessages : List Obj) :
    Except Thrown (List JVal) := do
  let items ← asArray (some existingVideos)
  let videoMap ← setAll [] items
  let videoMap ← setAll videoMap (metadataMessages.map JVal.obj)
  let videoMap := mapDelete videoMap (some (.str "demo"))
  let withFile ← filterE (hasFileId js) (videoMap.map Prod.snd)
  return jsSort (compareUploaded js) withFile

/-- The environment of the scripts. -/
structure Env where
  BOT_TOKEN : Option String
  CHANNEL_ID : Option String

/-- What a script run leaves behind: the catalog file and the exit code. -/
structure Run where
  file : FileState
  exitCode : Nat
  deriving DecidableEq

/-- Lines 106-111 of `main`: the status report when no metadata was found. -/
def reportCurrent (file : FileState) : Except Thrown Unit :=
  match file with
  | .absent => return ()
  | _ => do
    let current ← readJSON file
    let items ← asArray (some current)
    let realVideos ← filterE (fun v => do
      let file_id ← getProp (some v) "file_id"
      if truthy file_id then notDemo v else return false) items
    let _ ← getProp (some (.arr realVideos)) "length"
    return ()

/-- Lines 116-120 of `main`: the existing videos, `[]` when the file is missing. -/
def loadExisting (file : FileState) : Except Thrown JVal :=
  match file with
  | .absent => return .arr []
  | _ => do
    let existingVideos ← readJSON file
    let _ ← getProp (some existingVideos) "length"
    return existingVideos

/-- The `try` block of `main` in `sync.js`: the new state of the catalog file. -/
def syncBody (js : Engine) (answer : Except Thrown JVal) (file : FileState) :
    Except Thrown FileState := do
  let updates ← fetchUpdates answer
  let metadataMessages ← decodeUpdates js updates
  if metadataMessages.length == 0 then
    reportCurrent file
    return file
  let existingVideos ← loadExisting file
  let finalVideos ← mergeVideos js existingVideos metadataMessages
  return .holds (.arr finalVideos)

/-- The function `main` of `sync.js`; `answer` is the outcome of the `getUpdates` request.
An empty credential counts as missing. -/
def syncMain (js : Engine) (env : Env) (answer : Except Thrown JVal) (file : FileState) :
    Run :=
  if !truthy (env.BOT_TOKEN.map JVal.str) then ⟨file, 1⟩
  else if !truthy (env.CHANNEL_ID.map JVal.str) then ⟨file, 1⟩
  else
    match syncBody js answer file with
    | .ok file' => ⟨file', 0⟩
    | .error _ => ⟨file, 1⟩

/-! ## `src/lib/schema.js`: the validator -/

/-- The operator `typeof` on a JSON value or `undefined`. -/
def typeOf : Option JVal → String
  | none => "undefined"
  | some .null => "object"
  | some (.bool _) => "boolean"
  | some (.num _) => "number"
  | some (.str _) => "string"
  | some (.arr _) => "object"
  | some (.obj _) => "object"

/-- The comparison `v < 0`. -/
def ltZero (js : Engine) (v : Option JVal) : Bool :=
  match toNumber js v with
  | some n => decide (n < 0)
  | none => false

/-- The result of `validateMetadata`. -/
structure Validation where
  valid : Bool
  errors : List String
  deriving DecidableEq

/-- The function `validateMetadata`.  The operator `||` in the `duration` rule evaluates
`obj.duration < 0` only for a number. -/
def validateMetadata (js : Engine) (obj : Option JVal) : Except Thrown Validation :=
  if !truthy obj then
    .ok ⟨false, ["Object is null or undefined"]⟩
  else do
    let errors : List String := []
    let id ← getProp obj "id"
    let errors :=
      if typeOf id != "string" || !truthy id then errors ++ ["id must be a non-empty string"]
      else errors
    let title ← getProp obj "title"
    let errors :=
      if typeOf title != "string" || !truthy title then
        errors ++ ["title must be a non-empty string"]
      else errors
    let file_id ← getProp obj "file_id"
    let errors :=
      if typeOf file_id != "string" then errors ++ ["file_id must be a string"] else errors
    let duration ← getProp obj "duration"
    let errors :=
      if typeOf duration != "number" || ltZero js duration then
        errors ++ ["duration must be a non-negative number"]
      else errors
    return ⟨errors.length == 0, errors⟩

/-! ## `src/app/api/video/[id]/route.js` -/

/-- The body of the detail response for the record `v`. -/
def formatDetail (v : JVal) : Except Thrown JVal := do
  let id ← getProp (some v) "id"
  let title ← getProp (some v) "title"
  let description ← getProp (some v) "description"
  let duration ← getProp (some v) "duration"
  let thumb_file_id ← getProp (some v) "thumb_file_id"
  let uploaded_at ← getProp (some v) "uploaded_at"
  return jsonOf
    [("id", id),
     ("title", title),
     ("description", some (jsOr description (.str ""))),
     ("duration", duration),
     ("video_url", some (.str ("/api/resolve/" ++ toStr id))),
     ("download_url", some (.str ("/api/resolve/" ++ toStr id))),
     ("thumbnail_url",
        some (.str (if truthy thumb_file_id then "/api/thumb/" ++ toStr id
                    else "/placeholder-thumb.svg"))),
     ("uploaded_at", uploaded_at)]

/-- The `try` block of the detail handler once the file exists. -/
def videoDetail (file : FileState) (id : String) : Except Thrown Response := do
  let videos ← readJSON file
  let items ← asArray (some videos)
  let video ← findById (some (.str id)) items
  match video with
  | none => return .json 404 (.obj [("error", .str "Video not found"), ("id", .str id)]) []
  | some v =>
    let body ← formatDetail v
    return .json 200 body []

/-- The handler `GET /api/video/[id]`. -/
def videoGET (file : FileState) (id : String) : Response :=
  match file with
  | .absent => .json 404 (.obj [("error", .str "No videos database found")]) []
  | _ =>
    match videoDetail file id with
    | .ok response => response
    | .error e => .failure 500 "Internal server error" e

/-! ## `src/app/api/thumb/[id]/route.js` -/

/-- The URL `new URL('/placeholder-thumb.svg', request.url)`: the path on the origin of the
request. -/
def placeholderUrl (origin : String) : String := origin ++ "/placeholder-thumb.svg"

/-- The redirect to the placeholder. -/
def placeholder (origin : String) : Response := .redirect (placeholderUrl origin) 302

/-- Step 1 of the thumbnail handler: find the video in the catalog file.  The result is
`none` when `find` returns `undefined`, and `some video.thumb_file_id` for the record found. -/
def lookupThumbId (file : FileState) (id : String) : Except Thrown (Option (Option JVal)) := do
  let videos ← readJSON file
  let items ← asArray (some videos)
  let video ← findById (some (.str id)) items
  match video with
  | none => return none
  | some v =>
    let thumb_file_id ← getProp (some v) "thumb_file_id"
    return some thumb_file_id

/-- The part of the thumbnail handler that follows the remote answer `tgData`. -/
def thumbAnswer (botToken : Option String) (origin : String) (tgData : JVal) :
    Except Thrown Response := do
  let ok ← getProp (some tgData) "ok"
  if !truthy ok then
    return placeholder origin
  let result ← getProp (some tgData) "result"
  let filePath ← getProp result "file_path"
  return .redirect (TELEGRAM_FILE_API botToken ++ "/" ++ toStr filePath) 302

/-- The handler `GET /api/thumb/[id]`; `origin` is the origin of `request.url`. -/
def thumbGET (botToken : Option String) (remote : Remote) (origin : String)
    (file : FileState) (id : String) : Outcome :=
  match file with
  | .absent => ⟨placeholder origin, []⟩
  | _ =>
    match lookupThumbId file id with
    | .error _ => ⟨placeholder origin, []⟩
    | .ok none => ⟨placeholder origin, []⟩
    | .ok (some thumb_file_id) =>
      if !truthy thumb_file_id then ⟨placeholder origin, []⟩
      else
        let url := TELEGRAM_API botToken ++ "/getFile?file_id=" ++ toStr thumb_file_id
        match remote url with
        | .error _ => ⟨placeholder origin, [url]⟩
        | .ok tgData =>
          match thumbAnswer botToken origin tgData with
          | .ok response => ⟨response, [url]⟩
          | .error _ => ⟨placeholder origin, [url]⟩

/-! ## `src/scripts/upload.js`: the publish pipeline -/

/-- The command line, as `parseArgs` reads it. -/
structure Args where
  video : Option String
  thumb : Option String
  title : Option String
  desc : Option String

/-- The local files: whether the video and the thumbnail exist, and the size of the video
in bytes. -/
structure Disk where
  videoExists : Bool
  videoSize : Nat
  thumbExists : Bool

/-- The remote service as the producer sees it: the outcome of `fetch` followed by
`.json()` for each request. -/
structure Telegram where
  sendVideo : Except Thrown JVal
  sendPhoto : Except Thrown JVal
  sendMessage : JVal → Except Thrown JVal

/-- What the producer does to the outside world, in order: the two upload requests, the
`sendMessage` request with the payload, and the write of the catalog file. -/
inductive Effect where
  | uploadVideo : Effect
  | uploadPhoto : Effect
  | publish (payload : JVal) : Effect
  | save (catalog : JVal) : Effect
  deriving DecidableEq

/-- What a producer run leaves behind. -/
structure UploadRun where
  file : FileState
  effects : List Effect
  exitCode : Nat
  deriving DecidableEq

/-- The functions `uploadFile` and `sendMetadata`, given the outcome of the request: a
response that is not `ok` is thrown, otherwise `data.result` is returned. -/
def uploadFile (answer : Except Thrown JVal) : Except Thrown (Option JVal) := do
  let data ← answer
  let ok ← getProp (some data) "ok"
  if !truthy ok then
    let description ← getProp (some data) "description"
    throw (.failed ("Telegram error: " ++ toStr description))
  getProp (some data) "result"

/-- The function `extractFileId`. -/
def extractFileId (result : Option JVal) : Except Thrown (Option JVal) := do
  let video ← getProp result "video"
  if truthy video then
    return ← getProp video "file_id"
  let document ← getProp result "document"
  if truthy document then
    return ← getProp document "file_id"
  let animation ← getProp result "animation"
  if truthy animation then
    return ← getProp animation "file_id"
  throw (.failed "Could not find file_id in Telegram response")

/-- The property key of a number. -/
def numberKey : Option Int → String
  | none => "NaN"
  | some n => toString n

/-- The expression `photo[photo.length - 1].file_id`.  An element of a string is a string
of one code unit, which has no such property. -/
def lastFileId (js : Engine) (photo : Option JVal) : Except Thrown (Option JVal) := do
  let len ← getProp photo "length"
  let index := (toNumber js len).map (fun n => n - 1)
  match photo with
  | some (.arr items) =>
    match index with
    | some n => getProp (if 0 ≤ n then items[n.toNat]? else none) "file_id"
    | none => getProp none "file_id"
  | some (.str s) =>
    match index with
    | some n => if 0 ≤ n ∧ n < utf16Length s then return none else getProp none "file_id"
    | none => getProp none "file_id"
  | some (.obj fields) => getProp (fields.lookup (numberKey index)) "file_id"
  | _ => getProp none "file_id"

/-- Step 2 of `main`: whether a thumbnail file is uploaded. -/
def usesThumbFile (args : Args) (disk : Disk) : Bool :=
  truthy (args.thumb.map JVal.str) && disk.thumbExists

/-- Step 2 of `main`: the thumbnail handle.  The uploaded photo when there is a thumbnail
file, else the thumbnail that came with the video, else `''`. -/
def thumbnailFileId (js : Engine) (args : Args) (disk : Disk) (tg : Telegram)
    (videoResult : Option JVal) : Except Thrown (Option JVal) := do
  if usesThumbFile args disk then
    let thumbResult ← uploadFile tg.sendPhoto
    let photo ← getProp thumbResult "photo"
    lastFileId js photo
  else
    let video ← getProp videoResult "video"
    let thumb ←
      match video with
      | none => pure none
      | some .null => pure none
      | some v => getProp (some v) "thumb"
    if truthy thumb then
      getProp thumb "file_id"
    else
      return some (.str "")

/-- The object `metadata` of `main`. -/
def uploadMetadata (args : Args) (videoMsgId fileId thumbFileId : Option JVal)
    (duration now : Int) : List (String × Option JVal) :=
  [("type", some (.str "video_meta")),
   ("video_msg_id", videoMsgId),
   ("file_id", fileId),
   ("thumb_file_id", thumbFileId),
   ("title", args.title.map JVal.str),
   ("description", some (jsOr (args.desc.map JVal.str) (.str ""))),
   ("duration", some (.num duration)),
   ("uploaded_at", some (.num now))]

/-- The object `localVideo` of `main`. -/
def localVideo (args : Args) (videoMsgId fileId thumbFileId : Option JVal)
    (duration now : Int) : List (String × Option JVal) :=
  [("id", some (.str (toStr videoMsgId))),
   ("title", args.title.map JVal.str),
   ("description", some (jsOr (args.desc.map JVal.str) (.str ""))),
   ("file_id", fileId),
   ("thumb_file_id", thumbFileId),
   ("duration", some (.num duration)),
   ("uploaded_at", some (.num now))]

/-- The properties of a JavaScript object that a serialization keeps. -/
def definedFields (o : List (String × Option JVal)) : Obj :=
  o.filterMap (fun kv => kv.2.map (fun v => (kv.1, v)))

/-- The write of the catalog file that left it in the state `written`. -/
def saving : FileState → List Effect
  | .holds catalog => [.save catalog]
  | _ => []

/-- The `try` block of `main` in `upload.js`.  `duration` is what `getVideoDuration`
returns, `now1` and `now2` are the two readings of the clock.  The published payload and the
saved catalog are recorded as the JSON values their texts denote. -/
def uploadTry (js : Engine) (args : Args) (disk : Disk) (tg : Telegram)
    (duration now1 now2 : Int) (file : FileState) : UploadRun :=
  match uploadFile tg.sendVideo with
  | .error _ => ⟨file, [.uploadVideo], 1⟩
  | .ok videoResult =>
    match (do
        let videoMsgId ← getProp videoResult "message_id"
        let fileId ← extractFileId videoResult
        pure (videoMsgId, fileId)) with
    | .error _ => ⟨file, [.uploadVideo], 1⟩
    | .ok (videoMsgId, fileId) =>
      let uploads : List Effect :=
        if usesThumbFile args disk then [.uploadVideo, .uploadPhoto] else [.uploadVideo]
      match thumbnailFileId js args disk tg videoResult with
      | .error _ => ⟨file, uploads, 1⟩
      | .ok thumbFileId =>
        let payload := jsonOf (uploadMetadata args videoMsgId fileId thumbFileId duration now1)
        match uploadFile (tg.sendMessage payload) with
        | .error _ => ⟨file, uploads ++ [.publish payload], 1⟩
        | .ok _ =>
          match updateLocalDB js file
              (definedFields (localVideo args videoMsgId fileId thumbFileId duration now2)) with
          | .error _ => ⟨file, uploads ++ [.publish payload], 1⟩
          | .ok written => ⟨written, uploads ++ [.publish payload] ++ saving written, 0⟩

/-- The per-file limit of the Bot API, in bytes: `sizeMB > 50` with
`sizeMB = stats.size / (1024 * 1024)`. -/
def SIZE_LIMIT : Nat := 50 * 1024 * 1024

/-- The function `main` of `upload.js`. -/
def uploadMain (js : Engine) (env : Env) (args : Args) (disk : Disk) (tg : Telegram)
    (duration now1 now2 : Int) (file : FileState) : UploadRun :=
  if !truthy (env.BOT_TOKEN.map JVal.str) || !truthy (env.CHANNEL_ID.map JVal.str) then
    ⟨file, [], 1⟩
  else if !truthy (args.video.map JVal.str) then ⟨file, [], 1⟩
  else if !truthy (args.title.map JVal.str) then ⟨file, [], 1⟩
  else if !disk.videoExists then ⟨file, [], 1⟩
  else if disk.videoSize > SIZE_LIMIT then ⟨file, [], 1⟩
  else uploadTry js args disk tg duration now1 now2 file

/-! ## Vocabulary of the statements

The definitions below are not code of the repository: they name what the theorems talk
about. -/

/-- A record is visible, in the words of the specification: its id is not the reserved
`demo` and its `file_id` is neither missing nor empty. -/
def isVisibleRecord (r : Obj) : Bool :=
  r.lookup "id" != some (.str "demo") && r.lookup "file_id" != none
    && r.lookup "file_id" != some (.str "")

/-- What the list endpoint shows of a catalog record. -/
def formatRecord (r : Obj) : JVal :=
  jsonOf
    [("id", r.lookup "id"),
     ("title", r.lookup "title"),
     ("description", r.lookup "description"),
     ("duration", r.lookup "duration"),
     ("thumbnail_url",
        some (.str (if truthy (r.lookup "thumb_file_id") then "/api/thumb/" ++ toStr (r.lookup "id")
                    else "/placeholder-thumb.svg"))),
     ("uploaded_at", r.lookup "uploaded_at")]

/-- The first record of the catalog whose id is the string `id`. -/
def findRecord (id : String) (recs : List Obj) : Option Obj :=
  recs.find? (fun r => decide (r.lookup "id" = some (.str id)))

/-- The property `v.id` of a catalog entry (`undefined` where the read would throw). -/
def keyOf (v : JVal) : Option JVal :=
  match getProp (some v) "id" with
  | .ok k => k
  | .error _ => none

/-- The map has an entry under the key `k`. -/
def hasKey (m : VideoMap) (k : Option JVal) : Bool := m.any (fun e => strictEq e.1 k)

/-- The last record of `E` whose id is `k`. -/
def lastWith (k : Option JVal) : List Obj → Option JVal
  | [] => none
  | r :: rest =>
    match lastWith k rest with
    | some x => some x
    | none => if strictEq (r.lookup "id") k then some (.obj r) else none

/-- No two entries of the map have the same key. -/
def DistinctKeys (m : VideoMap) : Prop := m.Pairwise (fun e e' => strictEq e.1 e'.1 = false)

/-- Every entry of the map is stored under the id of its value. -/
def KeyVal (m : VideoMap) : Prop := ∀ e ∈ m, getProp (some e.2) "id" = .ok e.1

/-- An entry after the records `E` have been set: its value is the last record of `E` with
its key, if there is one. -/
def eventual (E : List Obj) (e : Option JVal × JVal) : Option JVal × JVal :=
  (e.1, (lastWith e.1 E).getD e.2)

/-- The map entry that `videoMap.set(v.id, v)` creates for `v`. -/
def entryOf (v : JVal) : Option JVal × JVal := (keyOf v, v)

/-- A callback returned `true`. -/
def okTrue : Except Thrown Bool → Bool
  | .ok true => true
  | _ => false

/-- The values of the map that outlive `videoMap.delete('demo')` and the `file_id` filter. -/
def survivors (js : Engine) (m : VideoMap) : List JVal :=
  ((mapDelete m (some (.str "demo"))).map Prod.snd).filter (fun v => okTrue (hasFileId js v))

/-- What the detail endpoint shows of a catalog record. -/
def detailRecord (r : Obj) : JVal :=
  jsonOf
    [("id", r.lookup "id"),
     ("title", r.lookup "title"),
     ("description", some (jsOr (r.lookup "description") (.str ""))),
     ("duration", r.lookup "duration"),
     ("video_url", some (.str ("/api/resolve/" ++ toStr (r.lookup "id")))),
     ("download_url", some (.str ("/api/resolve/" ++ toStr (r.lookup "id")))),
     ("thumbnail_url",
        some (.str (if truthy (r.lookup "thumb_file_id") then "/api/thumb/" ++ toStr (r.lookup "id")
                    else "/placeholder-thumb.svg"))),
     ("uploaded_at", r.lookup "uploaded_at")]

/-- Replace-by-id with insert if absent, on a list of records: the first record with the id
`i` gives its place to `r`; without such a record `r` goes last. -/
def upsertInto (i : String) (r : Obj) : List Obj → List Obj
  | [] => [r]
  | v :: rest =>
    if v.lookup "id" = some (.str i) then r :: rest else v :: upsertInto i r rest

/-- The value is a non-empty string. -/
def isNonEmptyString : Option JVal → Bool
  | some (.str s) => s != ""
  | _ => false

/-- The value is a string. -/
def isString : Option JVal → Bool
  | some (.str _) => true
  | _ => false

/-- The value is a number that is not negative. -/
def isNonNegativeNumber : Option JVal → Bool
  | some (.num n) => decide (0 ≤ n)
  | _ => false

/-- The messages of the rules that the record violates, in the order of the rules. -/
def ruleErrors (r : Obj) : List String :=
  (if isNonEmptyString (r.lookup "id") then [] else ["id must be a non-empty string"])
  ++ (if isNonEmptyString (r.lookup "title") then [] else ["title must be a non-empty string"])
  ++ (if isString (r.lookup "file_id") then [] else ["file_id must be a string"])
  ++ (if isNonNegativeNumber (r.lookup "duration") then []
      else ["duration must be a non-negative number"])

/-- The value is a primitive (anything but an array or an object): `===` compares it by
value. -/
def isPrimitive : Option JVal → Bool
  | some (.arr _) => false
  | some (.obj _) => false
  | _ => true

/-- A text that is not a catalog event, in the words of the specification: it is not valid
JSON, or what it denotes has a type other than `video_meta` (or no type at all). -/
def isForeignText (js : Engine) (text : String) : Bool :=
  match js.JSONparse text with
  | none => true
  | some (.obj data) => data.lookup "type" != some (.str "video_meta")
  | some _ => true

/-- An entry of the fetched stream that is non-catalog noise, in the words of the
specification: it is not a channel post with text, or its text is not a catalog event.  The
entries of the stream are update objects; `null` is not an entry. -/
def isNoise (js : Engine) (u : JVal) : Bool :=
  match u with
  | .null => false
  | .obj fields =>
    match fields.lookup "channel_post" with
    | some (.obj post) =>
      !truthy (post.lookup "text") || isForeignText js (toStr (post.lookup "text"))
    | _ => true
  | _ => true

/-- A printable ASCII character. -/
def isPrintable (c : Char) : Bool := decide (32 < c.toNat) && decide (c.toNat < 127)

/-! ## Concrete data for evaluation -/

/-- The serialization of a metadata message, as posted in the channel. -/
def eventText : String :=
  "\x7b\"type\":\"video_meta\",\"schema_version\":1,\"video_msg_id\":42,\"file_id\":\"BAAC\",\"thumb_file_id\":\"\",\"title\":\"T\",\"description\":\"\",\"duration\":10,\"uploaded_at\":1700000000\x7d"

/-- An engine whose `JSON.parse` knows a few literal texts, for concrete evaluation. -/
def sampleEngine : Engine where
  JSONparse := fun text =>
    if text = "null" then some .null
    else if text = "[1]" then some (.arr [.num 1])
    else if text = "\x7b\"type\":\"hello\"\x7d" then some (.obj [("type", .str "hello")])
    else if text = eventText then
      some (jsonOf (createMetadataMessage 1700000000
        ⟨some (.num 42), some (.str "BAAC"), some (.str ""), some (.str "T"), none,
         some (.num 10)⟩))
    else none
  StringToNumber := fun _ => none

/-- The record that `eventText` decodes to. -/
def sampleEvent : Obj :=
  [("id", .str "42"), ("title", .str "T"), ("description", .str ""), ("file_id", .str "BAAC"),
   ("thumb_file_id", .str ""), ("duration", .num 10), ("uploaded_at", .num 1700000000)]

/-- A catalog record with the id of `sampleEvent` and other fields. -/
def oldRecord : Obj :=
  [("id", .str "42"), ("title", .str "Old title"), ("description", .str "old"),
   ("file_id", .str "OLD"), ("thumb_file_id", .str "TH"), ("duration", .num 5),
   ("uploaded_at", .num 1600000000)]

/-- A catalog record without a content handle. -/
def emptyHandleRecord : Obj :=
  [("id", .str "7"), ("title", .str "Pending"), ("description", .str ""),
   ("file_id", .str ""), ("thumb_file_id", .str ""), ("duration", .num 0),
   ("uploaded_at", .num 1650000000)]

/-- A record under the reserved id. -/
def demoRecord : Obj :=
  [("id", .str "demo"), ("title", .str "Demo"), ("description", .str ""),
   ("file_id", .str "DEMO"), ("thumb_file_id", .str ""), ("duration", .num 1),
   ("uploaded_at", .num 1500000000)]

/-- A record published after `oldRecord`. -/
def newRecord : Obj :=
  [("id", .str "43"), ("title", .str "New"), ("description", .str ""),
   ("file_id", .str "NEW"), ("thumb_file_id", .str ""), ("duration", .num 10),
   ("uploaded_at", .num 1700000000)]

/-- A catalog with one visible record. -/
def sampleCatalog : List Obj := [oldRecord, emptyHandleRecord, demoRecord]

/-- Credentials. -/
def sampleEnv : Env := ⟨some "123:abc", some "@meow"⟩

/-- The updates of a `getUpdates` answer: a private message and a channel post. -/
def sampleUpdates : JVal :=
  .arr [.obj [("update_id", .num 1), ("message", .obj [("text", .str "hi")])],
        .obj [("update_id", .num 2), ("channel_post", .obj [("text", .str eventText)])]]

/-- A successful `getUpdates` answer. -/
def sampleAnswer : JVal :=
  .obj [("ok", .bool true), ("result", sampleUpdates)]

/-- A throttling answer of `getFile`. -/
def rateLimitedAnswer : Obj :=
  [("ok", .bool false), ("error_code", .num 429),
   ("description", .str "Too Many Requests: retry after 60"),
   ("parameters", .obj [("retry_after", .num 60)])]

/-- A successful answer of `getFile`. -/
def fileAnswer : Obj :=
  [("ok", .bool true),
   ("result", .obj [("file_id", .str "OLD"), ("file_size", .num 1024),
                    ("file_path", .str "videos/file_0.mp4")])]

/-- A remote service that throttles every request. -/
def throttlingRemote : Remote := fun _ => .ok (.obj rateLimitedAnswer)

/-- A remote service that serves every request. -/
def servingRemote : Remote := fun _ => .ok (.obj fileAnswer)

/-- A record under the reserved id with a thumbnail. -/
def demoThumbRecord : Obj :=
  [("id", .str "demo"), ("title", .str "Demo"), ("description", .str ""),
   ("file_id", .str "DEMO"), ("thumb_file_id", .str "DEMOTH"), ("duration", .num 1),
   ("uploaded_at", .num 1500000000)]

/-- A record without a content handle that has a thumbnail. -/
def thumbOnlyRecord : Obj :=
  [("id", .str "8"), ("title", .str "Pending"), ("description", .str ""),
   ("file_id", .str ""), ("thumb_file_id", .str "TH8"), ("duration", .num 0),
   ("uploaded_at", .num 1650000000)]

/-- The record with the id of `emptyHandleRecord` and a content handle. -/
def filledRecord : Obj :=
  [("id", .str "7"), ("title", .str "Ready"), ("description", .str ""),
   ("file_id", .str "SEVEN"), ("thumb_file_id", .str ""), ("duration", .num 3),
   ("uploaded_at", .num 1710000000)]

/-- The text of a metadata message that carries only its type and the message id. -/
def sparseText : String := "\x7b\"type\":\"video_meta\",\"video_msg_id\":42\x7d"

/-- An engine whose `JSON.parse` knows `sparseText`. -/
def sparseEngine : Engine where
  JSONparse := fun text =>
    if text = sparseText then
      some (.obj [("type", .str "video_meta"), ("video_msg_id", .num 42)])
    else none
  StringToNumber := fun _ => none

/-- A command line with a video and a title. -/
def sampleArgs : Args := ⟨some "./video.mp4", none, some "New", none⟩

/-- A video file of one megabyte, no thumbnail file. -/
def sampleDisk : Disk := ⟨true, 1048576, false⟩

/-- A remote service that accepts every request of the producer. -/
def acceptingTelegram : Telegram where
  sendVideo := .ok (.obj [("ok", .bool true),
    ("result", .obj [("message_id", .num 43),
      ("video", .obj [("file_id", .str "NEW"), ("thumb", .obj [("file_id", .str "AUTO")])])])])
  sendPhoto := .ok (.obj [("ok", .bool true),
    ("result", .obj [("message_id", .num 44),
      ("photo", .arr [.obj [("file_id", .str "SMALL")], .obj [("file_id", .str "LARGE")]])])])
  sendMessage := fun _ => .ok (.obj [("ok", .bool true),
    ("result", .obj [("message_id", .num 45)])])

/-- A remote service that takes the video and rejects the metadata message. -/
def rejectingTelegram : Telegram where
  sendVideo := acceptingTelegram.sendVideo
  sendPhoto := acceptingTelegram.sendPhoto
  sendMessage := fun _ => .ok (.obj [("ok", .bool false), ("error_code", .num 400),
    ("description", .str "Bad Request: message is too long")])

/-- A remote service that cannot be reached. -/
def unreachableTelegram : Telegram where
  sendVideo := .error (.failed "fetch failed")
  sendPhoto := .error (.failed "fetch failed")
  sendMessage := fun _ => .error (.failed "fetch failed")

/-- An update that is not a channel post with a metadata message. -/
def chatUpdate : JVal := .obj [("update_id", .num 1), ("message", .obj [("text", .str "hi")])]

/-- A successful `getUpdates` answer without a channel post. -/
def quietAnswer : JVal := .obj [("ok", .bool true), ("result", .arr [chatUpdate])]

/-- A successful `getUpdates` answer with one channel post: a metadata message for the id
`42` that carries no `file_id`. -/
def sparseAnswer : JVal :=
  .obj [("ok", .bool true),
    ("result", .arr [.obj [("update_id", .num 3),
      ("channel_post", .obj [("text", .str sparseText)])]])]

/-- The channel post of `sampleUpdates`, alone. -/
def eventUpdate : JVal :=
  .obj [("update_id", .num 2), ("channel_post", .obj [("text", .str eventText)])]

/-- The text of the metadata message of the sample upload. -/
def uploadText : String :=
  "\x7b\"type\":\"video_meta\",\"video_msg_id\":43,\"file_id\":\"NEW\",\"thumb_file_id\":\"AUTO\",\"title\":\"New\",\"description\":\"\",\"duration\":10,\"uploaded_at\":1700000000\x7d"

/-- An engine whose `JSON.parse` knows `uploadText`. -/
def uploadEngine : Engine where
  JSONparse := fun text =>
    if text = uploadText then
      some (.obj [("type", .str "video_meta"), ("video_msg_id", .num 43),
        ("file_id", .str "NEW"), ("thumb_file_id", .str "AUTO"), ("title", .str "New"),
        ("description", .str ""), ("duration", .num 10), ("uploaded_at", .num 1700000000)])
    else none
  StringToNumber := fun _ => none

/-! # Theorems -/

set_option maxRecDepth 100000

/-! ## Basic facts -/

/-- Strict equality with a string literal is equality with that string. -/
theorem strictEq_str_iff (v : Option JVal) (s : String) :
    strictEq v (some (.str s)) = true ↔ v = some (.str s) := by
  cases v with
  | none => simp [strictEq]
  | some x => cases x <;> simp [strictEq]

/-- Strict equality with a number literal is equality with that number. -/
theorem strictEq_num_iff (v : Option JVal) (n : Int) :
    strictEq v (some (.num n)) = true ↔ v = some (.num n) := by
  cases v with
  | none => simp [strictEq]
  | some x => cases x <;> simp [strictEq]

/-- Strictly equal values are equal. -/
theorem strictEq_eq {a b : Option JVal} (h : strictEq a b = true) : a = b := by
  cases a with
  | none => cases b with
    | none => rfl
    | some y => cases y <;> simp [strictEq] at h
  | some x => cases b with
    | none => cases x <;> simp [strictEq] at h
    | some y => cases x <;> cases y <;> simp_all [strictEq]

/-- Strict equality is symmetric. -/
theorem strictEq_comm (a b : Option JVal) : strictEq a b = strictEq b a := by
  cases a with
  | none => cases b with
    | none => rfl
    | some y => cases y <;> simp [strictEq]
  | some x => cases b with
    | none => cases x <;> simp [strictEq]
    | some y => cases x <;> cases y <;> simp [strictEq, eq_comm]

/-- A filter whose callback never throws is the pure filter. -/
theorem filterE_ok {α : Type} (p : α → Except Thrown Bool) (q : α → Bool) (l : List α)
    (h : ∀ x ∈ l, p x = .ok (q x)) : filterE p l = .ok (l.filter q) := by
  induction l with
  | nil => rfl
  | cons x xs ih =>
    have hx := h x (List.mem_cons_self _ _)
    have hxs := ih (fun y hy => h y (List.mem_cons_of_mem _ hy))
    simp only [filterE, hx, hxs, List.filter_cons]

/-- A map whose callback never throws is the pure map. -/
theorem mapE_ok {α β : Type} (f : α → Except Thrown β) (g : α → β) (l : List α)
    (h : ∀ x ∈ l, f x = .ok (g x)) : mapE f l = .ok (l.map g) := by
  induction l with
  | nil => rfl
  | cons x xs ih =>
    have hx := h x (List.mem_cons_self _ _)
    have hxs := ih (fun y hy => h y (List.mem_cons_of_mem _ hy))
    simp only [mapE, hx, hxs, List.map_cons]

/-- What a filter returned, when it returned. -/
theorem filterE_eq {α : Type} (p : α → Except Thrown Bool) :
    ∀ (l W : List α), filterE p l = .ok W →
      W = l.filter (fun x => okTrue (p x)) ∧ ∀ x ∈ l, ∃ b, p x = .ok b := by
  intro l
  induction l with
  | nil =>
    intro W h
    simp only [filterE, Except.ok.injEq] at h
    subst h
    simp
  | cons x xs ih =>
    intro W h
    simp only [filterE] at h
    cases hp : p x with
    | error e => rw [hp] at h; cases h
    | ok b =>
      rw [hp] at h
      cases hf : filterE p xs with
      | error e => rw [hf] at h; cases h
      | ok rest =>
        rw [hf] at h
        simp only [Except.ok.injEq] at h
        obtain ⟨h1, h2⟩ := ih rest hf
        constructor
        · rw [← h, List.filter_cons, hp, h1]
          cases b <;> simp [okTrue]
        · intro y hy
          rcases List.mem_cons.1 hy with rfl | hy
          · exact ⟨b, hp⟩
          · exact h2 y hy

/-- A filter returns when its callback does on every element. -/
theorem filterE_total {α : Type} (p : α → Except Thrown Bool) (l : List α)
    (h : ∀ x ∈ l, ∃ b, p x = .ok b) : filterE p l = .ok (l.filter (fun x => okTrue (p x))) := by
  apply filterE_ok
  intro x hx
  obtain ⟨b, hb⟩ := h x hx
  rw [hb]
  cases b <;> rfl

/-- Every element of the result of a map is the image of an element. -/
theorem mapE_mem {α β : Type} (f : α → Except Thrown β) :
    ∀ (l : List α) (l' : List β), mapE f l = .ok l' → ∀ y ∈ l', ∃ x ∈ l, f x = .ok y := by
  intro l
  induction l with
  | nil =>
    intro l' h y hy
    simp only [mapE, Except.ok.injEq] at h
    subst h
    cases hy
  | cons x xs ih =>
    intro l' h y hy
    simp only [mapE] at h
    cases hf : f x with
    | error e => rw [hf] at h; cases h
    | ok z =>
      rw [hf] at h
      cases hm : mapE f xs with
      | error e => rw [hm] at h; cases h
      | ok rest =>
        rw [hm] at h
        simp only [Except.ok.injEq] at h
        subst h
        rcases List.mem_cons.1 hy with rfl | hy
        · exact ⟨x, List.mem_cons_self _ _, hf⟩
        · obtain ⟨x', hx', hfx'⟩ := ih rest hm y hy
          exact ⟨x', List.mem_cons_of_mem _ hx', hfx'⟩

/-- A non-empty string has positive length. -/
theorem utf16Length_pos (s : String) (h : s ≠ "") : 0 < utf16Length s := by
  unfold utf16Length
  obtain ⟨l⟩ := s
  cases l with
  | nil => exact absurd rfl h
  | cons c cs =>
    simp only [String.toList, List.map_cons, List.sum_cons]
    split <;> omega

/-- A property of a truthy value can be read. -/
theorem getProp_of_truthy (f : Option JVal) (key : String) (h : truthy f = true) :
    ∃ x, getProp f key = .ok x := by
  cases f with
  | none => simp [truthy] at h
  | some v =>
    cases v with
    | null => simp [truthy] at h
    | bool b => exact ⟨_, rfl⟩
    | num n => exact ⟨_, rfl⟩
    | str s => exact ⟨_, rfl⟩
    | arr items => exact ⟨_, rfl⟩
    | obj r => exact ⟨_, rfl⟩

/-- If `v.id` can be read then every property of `v` can. -/
theorem getProp_other (v : JVal) (k : Option JVal) (key : String)
    (h : getProp (some v) "id" = .ok k) : ∃ x, getProp (some v) key = .ok x := by
  cases v with
  | null => simp [getProp] at h
  | bool b => exact ⟨_, rfl⟩
  | num n => exact ⟨_, rfl⟩
  | str s => exact ⟨_, rfl⟩
  | arr items => exact ⟨_, rfl⟩
  | obj r => exact ⟨_, rfl⟩

/-- The id that was read. -/
theorem keyOf_of_getProp {v : JVal} {k : Option JVal} (h : getProp (some v) "id" = .ok k) :
    keyOf v = k := by
  simp [keyOf, h]

/-! ## The event codec (C1, C2) -/

/-- Claim C1 (round trip of the event codec).  For a non-empty `title`, string `file_id` and
`thumb_file_id`, a non-negative integer `duration`, a `description` that is a string or left out
(then defaulted to the empty string) and any `video_msg_id`, `parseMetadataMessage` applied to
a text that `JSON.parse` reads as the message built by `createMetadataMessage` returns a
record with exactly seven fields: `id` is `String(video_msg_id)`, the five input fields are
the input's, and `uploaded_at` is the stamped time. -/
theorem roundtrip_create_parse (js : Engine) (now : Int) (vid : Option JVal)
    (title fid tfid : String) (desc : Option String) (dur : Nat) (text : String)
    (htitle : title ≠ "")
    (hser : js.JSONparse text = some (jsonOf (createMetadataMessage now
      ⟨vid, some (.str fid), some (.str tfid), some (.str title), desc.map JVal.str,
       some (.num dur)⟩))) :
    parseMetadataMessage js text = some
      [("id", .str (toStr vid)), ("title", .str title), ("description", .str (desc.getD "")),
       ("file_id", .str fid), ("thumb_file_id", .str tfid), ("duration", .num dur),
       ("uploaded_at", .num now)] := by
  cases vid <;> cases desc <;>
  simp [parseMetadataMessage, parseMetadataMessageBody, hser, jsonOf, createMetadataMessage,
    getProp, strictEq, List.lookup, bind, Except.bind, pure, Except.pure, jsOr, truthy, toStr,
    MESSAGE_TYPE, SCHEMA_VERSION] <;>
  (repeat' apply And.intro) <;> intro h <;>
  first
    | exact absurd h htitle
    | exact h.symm
    | (subst h; rfl)

/-- Claim C1 at a concrete message. -/
theorem roundtrip_create_parse_witness :
    parseMetadataMessage sampleEngine eventText = some sampleEvent :=
  roundtrip_create_parse sampleEngine 1700000000 (some (.num 42)) "T" "BAAC" "" none 10 eventText
    (by decide) (by decide)

/-- Claim C2.  `parseMetadataMessage` never throws: it is a total function, and whatever
the body of its `try` block throws, the `catch` clause returns `null`.  It returns `null`
whenever `JSON.parse` rejects the text or the parsed value has no `type` property equal to
`video_meta`: this covers `null` (where reading `data.type` throws), numbers, strings,
booleans and arrays (where it is `undefined`) and objects of another type. -/
theorem parse_rejects_foreign (js : Engine) (text : String) :
    (∀ e, parseMetadataMessageBody js text = .error e → parseMetadataMessage js text = none) ∧
    ((js.JSONparse text = none ∨
        ∃ data, js.JSONparse text = some data ∧
          getProp (some data) "type" ≠ .ok (some (.str MESSAGE_TYPE))) →
      parseMetadataMessage js text = none) := by
  constructor
  · intro e he
    simp [parseMetadataMessage, he]
  · intro h
    rcases h with h | ⟨data, h, ht⟩
    · simp [parseMetadataMessage, parseMetadataMessageBody, h]
    · simp only [parseMetadataMessage, parseMetadataMessageBody, h]
      cases hg : getProp (some data) "type" with
      | error e => simp [bind, Except.bind]
      | ok ty =>
        have : strictEq ty (some (.str MESSAGE_TYPE)) = false := by
          rw [Bool.eq_false_iff]; intro hs
          rw [strictEq_str_iff] at hs
          exact ht (by rw [hg, hs])
        simp [bind, Except.bind, this, pure, Except.pure]

/-- Claim C2 on three texts: one that `JSON.parse` rejects, the text of an array, and the
text `null`, where the body throws and the exception is caught. -/
theorem parse_rejects_foreign_witness :
    parseMetadataMessage sampleEngine "not json" = none ∧
    parseMetadataMessage sampleEngine "[1]" = none ∧
    parseMetadataMessage sampleEngine "null" = none :=
  ⟨(parse_rejects_foreign sampleEngine "not json").2 (Or.inl (by decide)),
   (parse_rejects_foreign sampleEngine "[1]").2
     (Or.inr ⟨.arr [.num 1], by decide, by simp [getProp]⟩),
   (parse_rejects_foreign sampleEngine "null").1 .typeError rfl⟩

/-- A decoded record carries a string id. -/
theorem parseMetadata_id {js : Engine} {text : String} {r : Obj}
    (h : parseMetadata js text = some r) : ∃ s, r.lookup "id" = some (.str s) := by
  unfold parseMetadata at h
  cases hp : js.JSONparse text with
  | none => rw [hp] at h; simp at h
  | some data =>
    rw [hp] at h
    cases data with
    | null => simp [getProp, bind, Except.bind] at h
    | bool b => simp [getProp, bind, Except.bind, strictEq, pure, Except.pure] at h
    | num n => simp [getProp, bind, Except.bind, strictEq, pure, Except.pure] at h
    | str s => simp [getProp, bind, Except.bind, strictEq, pure, Except.pure] at h
    | arr items => simp [getProp, bind, Except.bind, strictEq, pure, Except.pure] at h
    | obj fields =>
      simp only [getProp, bind, Except.bind, pure, Except.pure] at h
      split at h
      · rename_i heq
        subst h
        split at heq
        · cases heq
        · simp only [Except.ok.injEq, Option.some.injEq] at heq
          subst heq
          exact ⟨toStr (List.lookup "video_msg_id" fields), by simp [List.lookup]⟩
      · cases h

/-- Every decoded record carries a string id. -/
theorem decodeUpdates_id {js : Engine} {updates : Option JVal} {msgs : List Obj}
    (h : decodeUpdates js updates = .ok msgs) :
    ∀ r ∈ msgs, ∃ s, r.lookup "id" = some (.str s) := by
  intro r hr
  simp only [decodeUpdates, bind, Except.bind, pure, Except.pure] at h
  cases h0 : getProp updates "length" with
  | error e => rw [h0] at h; cases h
  | ok len =>
    rw [h0] at h
    simp only at h
    cases h1 : asArray updates with
    | error e => rw [h1] at h; cases h
    | ok items =>
      rw [h1] at h
      simp only at h
      cases h2 : filterE hasChannelText items with
      | error e => rw [h2] at h; cases h
      | ok posts =>
        rw [h2] at h
        simp only at h
        cases h3 : mapE (decodeUpdate js) posts with
        | error e => rw [h3] at h; cases h
        | ok decoded =>
          rw [h3] at h
          simp only [Except.ok.injEq] at h
          subst h
          have hmem : some r ∈ decoded := by
            simpa [List.mem_filterMap] using hr
          obtain ⟨u, _, hu⟩ := mapE_mem _ _ _ h3 _ hmem
          simp only [decodeUpdate, bind, Except.bind, pure, Except.pure] at hu
          cases h4 : getProp (some u) "channel_post" with
          | error e => rw [h4] at hu; cases hu
          | ok cp =>
            rw [h4] at hu
            simp only at hu
            cases h5 : getProp cp "text" with
            | error e => rw [h5] at hu; cases hu
            | ok text =>
              rw [h5] at hu
              simp only [Except.ok.injEq] at hu
              exact parseMetadata_id hu

/-! ## The read paths (C5 - C10) -/

/-- On a list of objects `find` by id is `List.find?`. -/
theorem findById_objs (id : String) (recs : List Obj) :
    findById (some (.str id)) (recs.map JVal.obj)
      = .ok ((recs.find? (fun r => decide (r.lookup "id" = some (.str id)))).map JVal.obj) := by
  induction recs with
  | nil => rfl
  | cons r rs ih =>
    simp only [List.map_cons, findById, getProp, List.find?_cons]
    by_cases hr : r.lookup "id" = some (.str id)
    · simp [hr, strictEq]
    · have : strictEq (r.lookup "id") (some (.str id)) = false := by
        rw [Bool.eq_false_iff]; intro h; exact hr ((strictEq_str_iff _ _).1 h)
      simp [hr, this, ih]

/-- The `file_id` test on a record whose `file_id` is a string or missing. -/
theorem hasFileId_typed (js : Engine) (r : Obj)
    (h : r.lookup "file_id" = none ∨ ∃ s, r.lookup "file_id" = some (.str s)) :
    hasFileId js (.obj r)
      = .ok (r.lookup "file_id" != none && r.lookup "file_id" != some (.str "")) := by
  rcases h with h | ⟨s, h⟩
  · simp [hasFileId, getProp, h, truthy, bind, Except.bind, pure, Except.pure]
  · by_cases hs : s = ""
    · subst hs
      simp [hasFileId, getProp, h, truthy, bind, Except.bind, pure, Except.pure]
    · have := utf16Length_pos s hs
      simp [hasFileId, getProp, h, truthy, bind, Except.bind, pure, Except.pure, hs, gtZero,
        toNumber, this]

/-- The `file_id` test does not throw on a value whose id can be read. -/
theorem hasFileId_ok (js : Engine) (v : JVal) (k : Option JVal)
    (h : getProp (some v) "id" = .ok k) : ∃ b, hasFileId js v = .ok b := by
  obtain ⟨f, hf⟩ := getProp_other v k "file_id" h
  by_cases ht : truthy f = true
  · obtain ⟨x, hx⟩ := getProp_of_truthy f "length" ht
    exact ⟨gtZero js x, by simp [hasFileId, hf, ht, hx, bind, Except.bind, pure, Except.pure]⟩
  · exact ⟨false, by simp [hasFileId, hf, ht, bind, Except.bind, pure, Except.pure]⟩

/-- Formatting an object does not throw. -/
theorem formatVideo_obj (r : Obj) : formatVideo (.obj r) = .ok (formatRecord r) := by
  simp [formatVideo, formatRecord, getProp, bind, Except.bind, pure, Except.pure]

/-- The `demo` test on an object. -/
theorem notDemo_obj (r : Obj) :
    notDemo (.obj r) = .ok (r.lookup "id" != some (.str "demo")) := by
  have h : strictEq (r.lookup "id") (some (.str "demo"))
      = (r.lookup "id" == some (.str "demo")) := by
    rw [Bool.eq_iff_iff, strictEq_str_iff]; simp
  simp [notDemo, getProp, bind, Except.bind, pure, Except.pure, h, bne]

/-- The filter of the list endpoint agrees with `isVisibleRecord` on typed records. -/
theorem isListed_typed (js : Engine) (r : Obj)
    (h : r.lookup "file_id" = none ∨ ∃ s, r.lookup "file_id" = some (.str s)) :
    isListed js (.obj r) = .ok (isVisibleRecord r) := by
  simp only [isListed, hasFileId_typed js r h, notDemo_obj, bind, Except.bind, pure,
    Except.pure, isVisibleRecord]
  congr 1
  cases (r.lookup "id" != some (.str "demo")) <;> simp

/-- Claim C5.  For every catalog whose records have a string or no `file_id`, the list
endpoint answers with the records that are visible (id other than `demo`, `file_id` neither
missing nor empty), all of them, in stored order, and with nothing else. -/
theorem list_shows_visible_records (js : Engine) (recs : List Obj)
    (htyped : ∀ r ∈ recs, r.lookup "file_id" = none ∨ ∃ s, r.lookup "file_id" = some (.str s)) :
    videosGET js (.holds (.arr (recs.map JVal.obj)))
      = .json 200 (.obj [("videos", .arr ((recs.filter isVisibleRecord).map formatRecord)),
          ("total", .num ((recs.filter isVisibleRecord).map formatRecord).length)]) [] := by
  have hf : filterE (isListed js) (recs.map JVal.obj)
      = .ok ((recs.filter isVisibleRecord).map JVal.obj) := by
    rw [filterE_ok (isListed js) (fun v => match v with | .obj r => isVisibleRecord r | _ => false)]
    · rw [List.filter_map]; rfl
    · intro x hx
      obtain ⟨r, hr, rfl⟩ := List.mem_map.1 hx
      exact isListed_typed js r (htyped r hr)
  have hm : mapE formatVideo ((recs.filter isVisibleRecord).map JVal.obj)
      = .ok ((recs.filter isVisibleRecord).map formatRecord) := by
    rw [mapE_ok formatVideo (fun v => match v with | .obj r => formatRecord r | _ => .null)]
    · rw [List.map_map]; rfl
    · intro x hx
      obtain ⟨r, _, rfl⟩ := List.mem_map.1 hx
      exact formatVideo_obj r
  simp [videosGET, listVideos, readJSON, getProp, asArray, hf, hm, bind, Except.bind]

/-- Claim C5 on a catalog with a visible record, a record without handle and a `demo` record. -/
theorem list_shows_visible_records_witness :
    videosGET sampleEngine (.holds (.arr (sampleCatalog.map JVal.obj)))
      = .json 200 (.obj [("videos", .arr [formatRecord oldRecord]), ("total", .num 1)]) [] :=
  list_shows_visible_records sampleEngine sampleCatalog (by
    intro r hr
    simp only [sampleCatalog, List.mem_cons, List.mem_singleton, List.not_mem_nil,
      or_false] at hr
    rcases hr with rfl | rfl | rfl <;> exact Or.inr ⟨_, rfl⟩)

/-- Claim C6, evaluated.  After the producer has upserted a newer record into a catalog with
one record, the list endpoint returns the older record first: `updateLocalDB` pushes the new
record at the end and the endpoint keeps the stored order. -/
theorem list_oldest_first_after_upload :
    updateLocalDB sampleEngine (.holds (.arr [.obj oldRecord])) newRecord
        = .ok (.holds (.arr [.obj oldRecord, .obj newRecord])) ∧
      videosGET sampleEngine (.holds (.arr [.obj oldRecord, .obj newRecord]))
        = .json 200 (.obj [("videos", .arr [formatRecord oldRecord, formatRecord newRecord]),
            ("total", .num 2)]) [] ∧
      getProp (some (formatRecord oldRecord)) "uploaded_at" = .ok (some (.num 1600000000)) ∧
      getProp (some (formatRecord newRecord)) "uploaded_at" = .ok (some (.num 1700000000)) := by
  refine ⟨by rfl, by decide, by rfl, by rfl⟩

/-- Step 1 of the resolve handler on a catalog of objects. -/
theorem resolve_lookup (file_recs : List Obj) (id : String) :
    lookupFileId (.holds (.arr (file_recs.map JVal.obj))) id
      = .ok ((findRecord id file_recs).map (fun r => r.lookup "file_id")) := by
  simp only [lookupFileId, readJSON, asArray, findById_objs, bind, Except.bind, findRecord]
  cases List.find? (fun r => decide (List.lookup "id" r = some (JVal.str id))) file_recs <;>
    simp [getProp, pure, Except.pure, bind, Except.bind]

/-- Claim C7.  For an id that no catalog record has, the resolve endpoint answers 404 with
`Video not found`; when the record found for the id has an empty (or no) `file_id` it answers
404 with `Video file_id missing`.  In both cases no request is made to the remote service. -/
theorem resolve_not_found (botToken : Option String) (remote : Remote) (recs : List Obj) (id : String) :
    ((∀ r ∈ recs, r.lookup "id" ≠ some (.str id)) →
      resolveGET botToken remote (.holds (.arr (recs.map JVal.obj))) id
        = ⟨.json 404 (.obj [("error", .str "Video not found"), ("id", .str id)]) [], []⟩) ∧
    (∀ r, findRecord id recs = some r →
      (r.lookup "file_id" = some (.str "") ∨ r.lookup "file_id" = none) →
      resolveGET botToken remote (.holds (.arr (recs.map JVal.obj))) id
        = ⟨.json 404 (.obj [("error", .str "Video file_id missing"), ("id", .str id)]) [],
           []⟩) := by
  constructor
  · intro h
    have : findRecord id recs = none := by
      simp only [findRecord, List.find?_eq_none]
      intro r hr; simpa using h r hr
    simp only [resolveGET, resolve_lookup, this]
    rfl
  · intro r hr hf
    simp only [resolveGET, resolve_lookup, hr]
    rcases hf with hf | hf <;> simp [hf, truthy]

/-- Claim C7 on an unknown id and on the record without handle. -/
theorem resolve_not_found_witness :
    resolveGET (some "123:abc") throttlingRemote (.holds (.arr (sampleCatalog.map JVal.obj))) "99"
        = ⟨.json 404 (.obj [("error", .str "Video not found"), ("id", .str "99")]) [], []⟩ ∧
    resolveGET (some "123:abc") throttlingRemote (.holds (.arr (sampleCatalog.map JVal.obj))) "7"
        = ⟨.json 404 (.obj [("error", .str "Video file_id missing"), ("id", .str "7")]) [],
           []⟩ :=
  ⟨(resolve_not_found (some "123:abc") throttlingRemote sampleCatalog "99").1 (by decide),
   (resolve_not_found (some "123:abc") throttlingRemote sampleCatalog "7").2 emptyHandleRecord (by decide)
     (Or.inl (by decide))⟩

/-- A string of printable ASCII characters is a header value. -/
theorem validHeaderValue_of_printable (s : String)
    (h : ∀ c ∈ s.toList, isPrintable c = true) : validHeaderValue s = true := by
  simp only [validHeaderValue, Bool.and_eq_true, List.all_eq_true, decide_eq_true_eq]
  constructor
  · intro c hc
    have := h c hc
    simp only [isPrintable, Bool.and_eq_true, decide_eq_true_eq] at this
    omega
  · intro c hc
    have hc1 : c ∈ (s.toList.dropWhile isHttpWhitespace).reverse :=
      (List.dropWhile_sublist _).subset hc
    have hc2 : c ∈ s.toList :=
      (List.dropWhile_sublist _).subset (List.mem_reverse.1 hc1)
    have := h c hc2
    simp only [isPrintable, Bool.and_eq_true, decide_eq_true_eq] at this
    simp only [bne_iff_ne, ne_eq, Bool.and_eq_true, decide_eq_true_eq]
    omega

/-- The decimal digits are printable. -/
theorem digitChar_printable (k : Nat) (hk : k < 10) : isPrintable (Nat.digitChar k) = true := by
  interval_cases k <;> decide

/-- The digits of a number are printable. -/
theorem toDigitsCore_printable (fuel : Nat) :
    ∀ (n : Nat) (ds : List Char), (∀ c ∈ ds, isPrintable c = true) →
      ∀ c ∈ Nat.toDigitsCore 10 fuel n ds, isPrintable c = true := by
  induction fuel with
  | zero => intro n ds hds c hc; exact hds c (by simpa [Nat.toDigitsCore] using hc)
  | succ fuel ih =>
    intro n ds hds c hc
    simp only [Nat.toDigitsCore] at hc
    have hd : ∀ c ∈ Nat.digitChar (n % 10) :: ds, isPrintable c = true := by
      intro c hc
      rcases List.mem_cons.1 hc with rfl | h
      · exact digitChar_printable _ (Nat.mod_lt _ (by decide))
      · exact hds c h
    split at hc
    · exact hd c hc
    · exact ih _ _ hd c hc

/-- The decimal form of a natural number is printable. -/
theorem natRepr_printable (n : Nat) : ∀ c ∈ (toString n).toList, isPrintable c = true := by
  intro c hc
  have : (toString n).toList = Nat.toDigits 10 n := rfl
  rw [this] at hc
  exact toDigitsCore_printable _ _ _ (by intro c hc; cases hc) c hc

/-- The decimal form of an integer is printable. -/
theorem intString_printable (n : Int) : ∀ c ∈ (toString n).toList, isPrintable c = true := by
  cases n with
  | ofNat m => exact natRepr_printable m
  | negSucc m =>
    intro c hc
    have : (toString (Int.negSucc m)).toList = '-' :: (toString (m + 1)).toList := by
      show ("-" ++ toString (Nat.succ m)).toList = _
      rw [String.toList, String.data_append]
      rfl
    rw [this] at hc
    rcases List.mem_cons.1 hc with rfl | h
    · decide
    · exact natRepr_printable _ c h

/-- On an object the value `tgData.parameters?.retry_after || 60` is read without exception. -/
theorem retryAfter_obj (answer : Obj) : ∃ v, retryAfter (.obj answer) = .ok v := by
  cases hp : answer.lookup "parameters" with
  | none => simp [retryAfter, getProp, hp, bind, Except.bind, pure, Except.pure]
  | some p =>
    cases p <;> simp [retryAfter, getProp, hp, bind, Except.bind, pure, Except.pure]

/-- The resolve handler on a known record with a non-empty string handle. -/
theorem resolve_known (botToken : Option String) (remote : Remote) (recs : List Obj)
    (id : String) (r : Obj) (handle : String) (tgData : JVal)
    (hr : findRecord id recs = some r)
    (hf : r.lookup "file_id" = some (.str handle)) (hne : handle ≠ "")
    (hremote : remote (TELEGRAM_API botToken ++ "/getFile?file_id=" ++ handle) = .ok tgData) :
    resolveGET botToken remote (.holds (.arr (recs.map JVal.obj))) id
      = match resolveAnswer botToken tgData with
        | .ok response => ⟨response, [TELEGRAM_API botToken ++ "/getFile?file_id=" ++ handle]⟩
        | .error e => ⟨.failure 500 "Internal server error" e,
            [TELEGRAM_API botToken ++ "/getFile?file_id=" ++ handle]⟩ := by
  simp only [resolveGET, resolve_lookup, hr]
  cases hres : resolveAnswer botToken tgData <;> simp [hf, truthy, hne, hremote, hres]

/-- Claim C8.  For a known record with a non-empty handle and a remote answer that is not `ok`
and has the error code `c`, the resolve endpoint answers with status 404 when `c = 400`, 429
when `c = 429` and 502 otherwise, provided that with `c = 429` the declared `retry_after`
prints as a header value (as every number does; on another value `NextResponse.json` throws
and the handler answers 500); and its response is never a redirect, whatever `retry_after`
is. -/
theorem resolve_remote_failure_status (botToken : Option String) (remote : Remote)
    (recs : List Obj)
    (id : String) (r : Obj) (handle : String) (answer : Obj) (c : Int)
    (hr : findRecord id recs = some r)
    (hf : r.lookup "file_id" = some (.str handle)) (hne : handle ≠ "")
    (hremote : remote (TELEGRAM_API botToken ++ "/getFile?file_id=" ++ handle)
      = .ok (.obj answer))
    (hok : truthy (answer.lookup "ok") = false)
    (hc : answer.lookup "error_code" = some (.num c)) :
    ((c = 429 → ∀ v, retryAfter (.obj answer) = .ok v → validHeaderValue (jsString v) = true) →
      (resolveGET botToken remote (.holds (.arr (recs.map JVal.obj))) id).response.status
        = (if c = 400 then 404 else if c = 429 then 429 else 502)) ∧
      ∀ url status,
        (resolveGET botToken remote (.holds (.arr (recs.map JVal.obj))) id).response
          ≠ .redirect url status := by
  rw [resolve_known botToken remote recs id r handle _ hr hf hne hremote]
  by_cases h400 : c = 400
  · subst h400
    simp [resolveAnswer, getProp, hok, hc, strictEq, bind, Except.bind, pure, Except.pure,
      Response.status]
  · by_cases h429 : c = 429
    · subst h429
      obtain ⟨v, hv⟩ := retryAfter_obj answer
      by_cases hvalid : validHeaderValue (jsString v) = true
      · simp [resolveAnswer, getProp, hok, hc, strictEq, bind, Except.bind, pure, Except.pure,
          Response.status, hv, hvalid]
      · have hinvalid : validHeaderValue (jsString v) = false := by simpa using hvalid
        constructor
        · intro hheader
          exact absurd (hheader rfl v hv) hvalid
        · simp [resolveAnswer, getProp, hok, hc, strictEq, bind, Except.bind, pure,
            Except.pure, hv, hinvalid, throw, throwThe, MonadExceptOf.throw]
    · simp [resolveAnswer, getProp, hok, hc, strictEq, bind, Except.bind, pure, Except.pure,
        Response.status, h400, h429]

/-- Claim C8 on a throttling remote: the status is 429. -/
theorem resolve_remote_failure_status_witness :
    (resolveGET (some "123:abc") throttlingRemote
        (.holds (.arr (sampleCatalog.map JVal.obj))) "42").response.status = 429 :=
  (resolve_remote_failure_status (some "123:abc") throttlingRemote sampleCatalog "42" oldRecord
    "OLD" rateLimitedAnswer 429
    (by decide) (by decide) (by decide) rfl (by decide) (by decide)).1
    (by
      intro _ v hv
      cases hv
      decide)

/-- Claim C9.  When the remote answers with error code 429 and `parameters.retry_after = secs`
for a positive `secs`, the resolve endpoint answers 429 with the header `Retry-After` set to
the decimal form of `secs`. -/
theorem resolve_rate_limited_retry_after (botToken : Option String) (remote : Remote) (recs : List Obj)
    (id : String) (r : Obj) (handle : String) (answer parameters : Obj) (secs : Int)
    (hr : findRecord id recs = some r)
    (hf : r.lookup "file_id" = some (.str handle)) (hne : handle ≠ "")
    (hremote : remote (TELEGRAM_API botToken ++ "/getFile?file_id=" ++ handle)
      = .ok (.obj answer))
    (hok : truthy (answer.lookup "ok") = false)
    (hc : answer.lookup "error_code" = some (.num 429))
    (hp : answer.lookup "parameters" = some (.obj parameters))
    (hs : parameters.lookup "retry_after" = some (.num secs)) (hpos : 0 < secs) :
    (resolveGET botToken remote (.holds (.arr (recs.map JVal.obj))) id).response
      = .json 429 (.obj [("error", .str "Rate limited, please try again later")])
          [("Retry-After", toString secs)] := by
  rw [resolve_known botToken remote recs id r handle _ hr hf hne hremote]
  have h0 : secs ≠ 0 := by omega
  have hor : jsOr (some (.num secs)) (.num 60) = .num secs := by simp [jsOr, truthy, h0]
  have hvalid : validHeaderValue (toString secs) = true :=
    validHeaderValue_of_printable _ (intString_printable secs)
  simp [resolveAnswer, getProp, hok, hc, strictEq, bind, Except.bind, pure, Except.pure,
    retryAfter, hp, hs, hor, jsString, hvalid]

/-- Claim C9 with `retry_after = 60`. -/
theorem resolve_rate_limited_retry_after_witness :
    (resolveGET (some "123:abc") throttlingRemote
        (.holds (.arr (sampleCatalog.map JVal.obj))) "42").response
      = .json 429 (.obj [("error", .str "Rate limited, please try again later")])
          [("Retry-After", "60")] :=
  resolve_rate_limited_retry_after (some "123:abc") throttlingRemote sampleCatalog "42" oldRecord "OLD" rateLimitedAnswer
    [("retry_after", .num 60)] 60 (by decide) (by decide) (by decide) rfl (by decide)
    (by decide) (by decide) (by decide) (by decide)

/-- Claim C10.  For a known record with a non-empty handle and a successful remote answer with
the file path `path`, the resolve endpoint answers with a 302 redirect to the file base URL
followed by `/` and `path`; no field of the record occurs in the target. -/
theorem resolve_redirects_to_remote_url (botToken : Option String) (remote : Remote) (recs : List Obj)
    (id : String) (r : Obj) (handle : String) (answer result : Obj) (path : String)
    (hr : findRecord id recs = some r)
    (hf : r.lookup "file_id" = some (.str handle)) (hne : handle ≠ "")
    (hremote : remote (TELEGRAM_API botToken ++ "/getFile?file_id=" ++ handle)
      = .ok (.obj answer))
    (hok : truthy (answer.lookup "ok") = true)
    (hres : answer.lookup "result" = some (.obj result))
    (hpath : result.lookup "file_path" = some (.str path)) :
    (resolveGET botToken remote (.holds (.arr (recs.map JVal.obj))) id).response
      = .redirect (TELEGRAM_FILE_API botToken ++ "/" ++ path) 302 := by
  rw [resolve_known botToken remote recs id r handle _ hr hf hne hremote]
  simp [resolveAnswer, getProp, hok, hres, hpath, bind, Except.bind, pure, Except.pure, toStr,
    jsString]

/-- Claim C10 on a serving remote. -/
theorem resolve_redirects_to_remote_url_witness :
    (resolveGET (some "123:abc") servingRemote
        (.holds (.arr (sampleCatalog.map JVal.obj))) "42").response
      = .redirect "https://api.telegram.org/file/bot123:abc/videos/file_0.mp4" 302 :=
  resolve_redirects_to_remote_url (some "123:abc") servingRemote sampleCatalog "42" oldRecord "OLD" fileAnswer
    [("file_id", .str "OLD"), ("file_size", .num 1024), ("file_path", .str "videos/file_0.mp4")]
    "videos/file_0.mp4" (by decide) (by decide) (by decide) rfl (by decide) (by decide)
    (by decide)

/-! ## The sort -/

/-- Of two values one may precede the other. -/
theorem compareUploaded_total (js : Engine) (a b : JVal) :
    compareUploaded js a b ≤ 0 ∨ compareUploaded js b a ≤ 0 := by
  unfold compareUploaded
  cases uploadedAt js a <;> cases uploadedAt js b <;> simp
  omega

/-- Insertion keeps adjacent elements in order, for a total relation. -/
theorem chain_orderedInsert {α : Type} (r : α → α → Prop) [DecidableRel r]
    (htot : ∀ a b, r a b ∨ r b a) (a : α) :
    ∀ l : List α, List.Chain' r l → List.Chain' r (List.orderedInsert r a l)
  | [], _ => by simp
  | b :: l, h => by
    simp only [List.orderedInsert]
    split
    · rename_i hab
      exact List.Chain'.cons hab h
    · rename_i hab
      have hba : r b a := (htot a b).resolve_left hab
      have ih := chain_orderedInsert r htot a l h.tail
      rw [List.chain'_cons']
      refine ⟨?_, ih⟩
      intro y hy
      cases l with
      | nil =>
        simp only [List.orderedInsert, List.head?_cons, Option.mem_def, Option.some.injEq] at hy
        exact hy ▸ hba
      | cons c l' =>
        simp only [List.orderedInsert] at hy
        split at hy
        · simp only [List.head?_cons, Option.mem_def, Option.some.injEq] at hy
          exact hy ▸ hba
        · simp only [List.head?_cons, Option.mem_def, Option.some.injEq] at hy
          exact hy ▸ (List.chain'_cons.1 h).1

/-- The result of the sort has its adjacent elements in order. -/
theorem chain_insertionSort {α : Type} (r : α → α → Prop) [DecidableRel r]
    (htot : ∀ a b, r a b ∨ r b a) : ∀ l : List α, List.Chain' r (List.insertionSort r l)
  | [] => by simp
  | a :: l => by
    simp only [List.insertionSort]
    exact chain_orderedInsert r htot a _ (chain_insertionSort r htot l)

/-- The sort leaves alone a list whose adjacent elements are in order. -/
theorem insertionSort_of_chain {α : Type} (r : α → α → Prop) [DecidableRel r] :
    ∀ l : List α, List.Chain' r l → List.insertionSort r l = l
  | [], _ => rfl
  | a :: l, h => by
    simp only [List.insertionSort, insertionSort_of_chain r l h.tail]
    cases l with
    | nil => rfl
    | cons b l' => simp [List.orderedInsert, (List.chain'_cons.1 h).1]

/-- Sorting a sorted catalog changes nothing. -/
theorem jsSort_idem (js : Engine) (l : List JVal) :
    jsSort (compareUploaded js) (jsSort (compareUploaded js) l) = jsSort (compareUploaded js) l := by
  unfold jsSort
  exact insertionSort_of_chain _ _ (chain_insertionSort _ (compareUploaded_total js) l)

/-- The sort permutes its input. -/
theorem jsSort_perm (js : Engine) (l : List JVal) :
    (jsSort (compareUploaded js) l).Perm l := List.perm_insertionSort _ l

/-! ## The map of the reconciler -/

/-- A key is absent when no entry matches it. -/
theorem hasKey_false_iff (m : VideoMap) (k : Option JVal) :
    hasKey m k = false ↔ ∀ e ∈ m, strictEq e.1 k = false := by
  simp [hasKey, List.any_eq_false]

/-- Changing values does not change the keys. -/
theorem hasKey_map_fst (m : VideoMap) (f : Option JVal × JVal → Option JVal × JVal)
    (hf : ∀ e, (f e).1 = e.1) (k : Option JVal) : hasKey (m.map f) k = hasKey m k := by
  induction m with
  | nil => rfl
  | cons e rest ih =>
    simp only [hasKey, List.map_cons, List.any_cons] at ih ⊢
    rw [ih, hf]

/-- The keys of a concatenation. -/
theorem hasKey_append (m m' : VideoMap) (k : Option JVal) :
    hasKey (m ++ m') k = (hasKey m k || hasKey m' k) := by
  simp [hasKey, List.any_append]

/-- Setting an absent key appends the entry. -/
theorem mapSet_absent (m : VideoMap) (k : Option JVal) (v : JVal) (h : hasKey m k = false) :
    mapSet m k v = m ++ [(k, v)] := by
  induction m with
  | nil => rfl
  | cons e rest ih =>
    obtain ⟨k', w⟩ := e
    rw [hasKey_false_iff] at h
    have h1 : strictEq k' k = false := h (k', w) (List.mem_cons_self _ _)
    have h2 : hasKey rest k = false :=
      (hasKey_false_iff _ _).2 (fun e he => h e (List.mem_cons_of_mem _ he))
    simp [mapSet, h1, ih h2]

/-- Setting a present key replaces the value in place. -/
theorem mapSet_present (m : VideoMap) (k : Option JVal) (v : JVal) (hd : DistinctKeys m)
    (h : hasKey m k = true) :
    mapSet m k v = m.map (fun e => if strictEq e.1 k then (e.1, v) else e) := by
  induction m with
  | nil => simp [hasKey] at h
  | cons e rest ih =>
    obtain ⟨k', w⟩ := e
    have hd' := List.pairwise_cons.1 hd
    by_cases h1 : strictEq k' k = true
    · have hk : k' = k := strictEq_eq h1
      have hrest : ∀ e ∈ rest, (if strictEq e.1 k then (e.1, v) else e) = e := by
        intro e he
        have := hd'.1 e he
        simp only at this
        rw [hk] at this
        rw [strictEq_comm] at this
        simp [this]
      simp only [mapSet, h1, if_true, List.map_cons]
      rw [List.map_congr_left hrest, List.map_id']
    · have h1' : strictEq k' k = false := by simpa using h1
      have h2 : hasKey rest k = true := by
        simp only [hasKey, List.any_cons, h1', Bool.false_or] at h
        exact h
      simp [mapSet, h1', ih hd'.2 h2]

/-- Setting a key keeps the keys distinct. -/
theorem distinct_mapSet (m : VideoMap) (k : Option JVal) (v : JVal) (hd : DistinctKeys m) :
    DistinctKeys (mapSet m k v) := by
  cases h : hasKey m k with
  | false =>
    rw [mapSet_absent m k v h]
    unfold DistinctKeys
    rw [List.pairwise_append]
    refine ⟨hd, List.pairwise_singleton _ _, ?_⟩
    intro a ha b hb
    simp only [List.mem_singleton] at hb
    subst hb
    exact (hasKey_false_iff _ _).1 h a ha
  | true =>
    rw [mapSet_present m k v hd h]
    unfold DistinctKeys
    rw [List.pairwise_map]
    refine hd.imp ?_
    intro a b hab
    split <;> split <;> simpa using hab

/-- The entries after a `set`. -/
theorem mem_mapSet {m : VideoMap} {k : Option JVal} {v : JVal} {e : Option JVal × JVal}
    (h : e ∈ mapSet m k v) : e ∈ m ∨ e = (k, v) := by
  induction m with
  | nil =>
    simp only [mapSet, List.mem_singleton] at h
    exact Or.inr h
  | cons e' rest ih =>
    obtain ⟨k', w⟩ := e'
    simp only [mapSet] at h
    split at h
    · rename_i hk
      rcases List.mem_cons.1 h with h | h
      · right
        rw [h, strictEq_eq hk]
      · exact Or.inl (List.mem_cons_of_mem _ h)
    · rcases List.mem_cons.1 h with h | h
      · left
        rw [h]
        exact List.mem_cons_self _ _
      · rcases ih h with h | h
        · exact Or.inl (List.mem_cons_of_mem _ h)
        · exact Or.inr h

/-- An earlier record does not change the last record with a key. -/
theorem lastWith_cons_of_some (k : Option JVal) (r : Obj) (E : List Obj) (y : JVal)
    (h : lastWith k E = some y) : lastWith k (r :: E) = some y := by
  simp [lastWith, h]

/-- The last record with a key is a record with that key. -/
theorem lastWith_some {k : Option JVal} {E : List Obj} {y : JVal} (h : lastWith k E = some y) :
    ∃ r ∈ E, y = .obj r ∧ strictEq (r.lookup "id") k = true := by
  induction E with
  | nil => simp [lastWith] at h
  | cons r rest ih =>
    simp only [lastWith] at h
    cases hl : lastWith k rest with
    | some x =>
      rw [hl] at h
      simp only [Option.some.injEq] at h
      subst h
      obtain ⟨r', hr', h1, h2⟩ := ih hl
      exact ⟨r', List.mem_cons_of_mem _ hr', h1, h2⟩
    | none =>
      rw [hl] at h
      simp only at h
      split at h
      · rename_i hs
        simp only [Option.some.injEq] at h
        exact ⟨r, List.mem_cons_self _ _, h.symm, hs⟩
      · cases h

/-- No record with the key: no last record. -/
theorem lastWith_none {k : Option JVal} {E : List Obj}
    (h : ∀ r ∈ E, strictEq (r.lookup "id") k = false) : lastWith k E = none := by
  induction E with
  | nil => rfl
  | cons r rest ih =>
    simp [lastWith, ih (fun r' hr' => h r' (List.mem_cons_of_mem _ hr')),
      h r (List.mem_cons_self _ _)]

/-- The last record with a key, given the records after it. -/
theorem lastWith_split (k : Option JVal) (pre post : List Obj) (r : Obj)
    (hr : strictEq (r.lookup "id") k = true)
    (hpost : ∀ r' ∈ post, strictEq (r'.lookup "id") k = false) :
    lastWith k (pre ++ r :: post) = some (.obj r) := by
  induction pre with
  | nil => simp [lastWith, lastWith_none hpost, hr]
  | cons p rest ih => exact lastWith_cons_of_some _ _ _ _ ih

/-- One step of the loop on an object. -/
theorem setAll_cons_obj (n : VideoMap) (r : Obj) (l : List JVal) :
    setAll n (JVal.obj r :: l) = setAll (mapSet n (r.lookup "id") (.obj r)) l := by
  simp [setAll, getProp]

/-- The loop does not throw on objects. -/
theorem setAll_objs (l : List Obj) : ∀ m : VideoMap, ∃ m', setAll m (l.map JVal.obj) = .ok m' := by
  induction l with
  | nil => intro m; exact ⟨m, rfl⟩
  | cons r rest ih =>
    intro m
    rw [List.map_cons, setAll_cons_obj]
    exact ih _

/-- The loop keeps the keys distinct and each entry under the id of its value. -/
theorem setAll_invariants (l : List JVal) :
    ∀ m m' : VideoMap, setAll m l = .ok m' → DistinctKeys m → KeyVal m →
      DistinctKeys m' ∧ KeyVal m' := by
  induction l with
  | nil =>
    intro m m' h hd hk
    simp only [setAll, Except.ok.injEq] at h
    subst h
    exact ⟨hd, hk⟩
  | cons v rest ih =>
    intro m m' h hd hk
    simp only [setAll] at h
    cases hg : getProp (some v) "id" with
    | error e => rw [hg] at h; cases h
    | ok id =>
      rw [hg] at h
      refine ih _ _ h (distinct_mapSet _ _ _ hd) ?_
      intro e he
      rcases mem_mapSet he with he | he
      · exact hk e he
      · rw [he]; exact hg

/-- Setting values with new, distinct ids appends them in order. -/
theorem setAll_fresh (l : List JVal) :
    ∀ n : VideoMap, (∀ v ∈ l, getProp (some v) "id" = .ok (keyOf v)) →
      DistinctKeys (n ++ l.map entryOf) → setAll n l = .ok (n ++ l.map entryOf) := by
  induction l with
  | nil => intro n _ _; simp [setAll]
  | cons v rest ih =>
    intro n hv hd
    have hg := hv v (List.mem_cons_self _ _)
    have habs : hasKey n (keyOf v) = false := by
      rw [hasKey_false_iff]
      intro e he
      have := (List.pairwise_append.1 hd).2.2 e he (entryOf v) (by simp)
      exact this
    simp only [setAll, hg]
    rw [mapSet_absent _ _ _ habs]
    have := ih (n ++ [(keyOf v, v)]) (fun w hw => hv w (List.mem_cons_of_mem _ hw))
      (by simpa [entryOf] using hd)
    simpa [entryOf] using this

/-- Setting decoded records: the entries present before keep their place and take their
eventual value, the new keys are appended with the last record of each key, and every key of
a decoded record ends up in the map. -/
theorem setAll_events (E : List Obj) (hE : ∀ r ∈ E, ∃ s, r.lookup "id" = some (.str s)) :
    ∀ n : VideoMap, DistinctKeys n →
      ∃ X : VideoMap, setAll n (E.map JVal.obj) = .ok (n.map (eventual E) ++ X) ∧
        (∀ x ∈ X, hasKey n x.1 = false ∧ lastWith x.1 E = some x.2) ∧
        (∀ k y, lastWith k E = some y → hasKey n k = true ∨ (k, y) ∈ X) := by
  induction E with
  | nil =>
    intro n _
    refine ⟨[], ?_, ?_, ?_⟩
    · have hid : eventual [] = id := by
        funext e
        simp [eventual, lastWith]
      simp [setAll, hid]
    · simp
    · simp [lastWith]
  | cons r E' ih =>
    intro n hn
    obtain ⟨s, hs⟩ := hE r (List.mem_cons_self _ _)
    have hE' : ∀ r ∈ E', ∃ s, r.lookup "id" = some (.str s) :=
      fun r' hr' => hE r' (List.mem_cons_of_mem _ hr')
    have hself : strictEq (some (JVal.str s)) (some (JVal.str s)) = true := by simp [strictEq]
    obtain ⟨X', hset, hX', hcov⟩ :=
      ih hE' (mapSet n (r.lookup "id") (.obj r)) (distinct_mapSet _ _ _ hn)
    rw [List.map_cons, setAll_cons_obj, hset, hs]
    rw [hs] at hX' hcov
    cases hk : hasKey n (some (.str s)) with
    | true =>
      rw [mapSet_present n _ _ hn hk] at hX' hcov ⊢
      refine ⟨X', ?_, ?_, ?_⟩
      · rw [List.map_map]
        congr 2
        apply List.map_congr_left
        intro e _
        obtain ⟨k0, v0⟩ := e
        simp only [Function.comp, eventual, lastWith, hs]
        rw [strictEq_comm (some (JVal.str s)) k0]
        cases hse : strictEq k0 (some (JVal.str s)) <;> cases hl : lastWith k0 E' <;>
          simp [hl]
      · intro x hx
        obtain ⟨h1, h2⟩ := hX' x hx
        rw [hasKey_map_fst _ _ (by intro e; split <;> rfl)] at h1
        exact ⟨h1, lastWith_cons_of_some _ _ _ _ h2⟩
      · intro k y hky
        simp only [lastWith, hs] at hky
        cases hl : lastWith k E' with
        | some x =>
          rw [hl] at hky
          simp only [Option.some.injEq] at hky
          subst hky
          rcases hcov k x hl with h | h
          · left
            rwa [hasKey_map_fst _ _ (by intro e; split <;> rfl)] at h
          · exact Or.inr h
        | none =>
          rw [hl] at hky
          simp only at hky
          split at hky
          · rename_i hse
            rw [← strictEq_eq hse]
            exact Or.inl hk
          · cases hky
    | false =>
      rw [mapSet_absent n _ _ hk] at hX' hcov ⊢
      refine ⟨eventual E' (some (.str s), .obj r) :: X', ?_, ?_, ?_⟩
      · rw [List.map_append, List.append_assoc]
        congr 2
        · apply List.map_congr_left
          intro e he
          have hse : strictEq e.1 (some (.str s)) = false := (hasKey_false_iff _ _).1 hk e he
          obtain ⟨k0, v0⟩ := e
          simp only [eventual, lastWith, hs]
          rw [strictEq_comm (some (JVal.str s)) k0, hse]
          cases hl : lastWith k0 E' <;> simp [hl]
      · intro x hx
        rcases List.mem_cons.1 hx with rfl | hx
        · refine ⟨hk, ?_⟩
          simp only [eventual, lastWith, hs, hself]
          cases hl : lastWith (some (JVal.str s)) E' <;> simp [hl]
        · obtain ⟨h1, h2⟩ := hX' x hx
          rw [hasKey_append, Bool.or_eq_false_iff] at h1
          exact ⟨h1.1, lastWith_cons_of_some _ _ _ _ h2⟩
      · intro k y hky
        simp only [lastWith, hs] at hky
        cases hl : lastWith k E' with
        | some x =>
          rw [hl] at hky
          simp only [Option.some.injEq] at hky
          subst hky
          rcases hcov k x hl with h | h
          · rw [hasKey_append, Bool.or_eq_true] at h
            rcases h with h | h
            · exact Or.inl h
            · right
              simp only [hasKey, List.any_cons, List.any_nil, Bool.or_false] at h
              have := strictEq_eq h
              subst this
              simp [eventual, hl]
          · exact Or.inr (List.mem_cons_of_mem _ h)
        | none =>
          rw [hl] at hky
          simp only at hky
          split at hky
          · rename_i hse
            have := strictEq_eq hse
            subst this
            simp only [Option.some.injEq] at hky
            subst hky
            right
            simp [eventual, hl]
          · cases hky

/-- Among distinct keys an entry is the only one under its key. -/
theorem filter_key_unique (m : VideoMap) (hd : DistinctKeys m) (e : Option JVal × JVal)
    (he : e ∈ m) (hself : strictEq e.1 e.1 = true) :
    m.filter (fun e' => strictEq e'.1 e.1) = [e] := by
  induction m with
  | nil => cases he
  | cons e0 rest ih =>
    have hd' := List.pairwise_cons.1 hd
    rcases List.mem_cons.1 he with rfl | he
    · rw [List.filter_cons, hself, if_pos rfl]
      congr 1
      rw [List.filter_eq_nil_iff]
      intro e' he'
      have := hd'.1 e' he'
      simp only at this
      rw [strictEq_comm, this]
      simp
    · have h0 : strictEq e0.1 e.1 = false := hd'.1 e he
      rw [List.filter_cons, h0]
      simpa using ih hd'.2 he

/-- Membership in the surviving values. -/
theorem mem_survivors {js : Engine} {m : VideoMap} {v : JVal} :
    v ∈ survivors js m ↔
      ∃ k, (k, v) ∈ m ∧ strictEq k (some (.str "demo")) = false ∧
        okTrue (hasFileId js v) = true := by
  simp only [survivors, mapDelete, List.mem_filter, List.mem_map, Prod.exists,
    Bool.not_eq_true', exists_and_right, exists_eq_right]
  constructor
  · rintro ⟨⟨k, h1, h2⟩, h3⟩
    exact ⟨k, h1, h2, h3⟩
  · rintro ⟨k, h1, h2, h3⟩
    exact ⟨⟨k, h1, h2⟩, h3⟩

/-- The survivors of a concatenation. -/
theorem survivors_append (js : Engine) (m m' : VideoMap) :
    survivors js (m ++ m') = survivors js m ++ survivors js m' := by
  simp [survivors, mapDelete]

/-! ## The reconciler (C3, C4) -/

/-- The merge on an array, step by step. -/
theorem mergeVideos_arr (js : Engine) (items : List JVal) (msgs : List Obj) :
    mergeVideos js (.arr items) msgs =
      match setAll [] items with
      | .error e => .error e
      | .ok m1 =>
        match setAll m1 (msgs.map JVal.obj) with
        | .error e => .error e
        | .ok m2 =>
          match filterE (hasFileId js) ((mapDelete m2 (some (.str "demo"))).map Prod.snd) with
          | .error e => .error e
          | .ok W => .ok (jsSort (compareUploaded js) W) := by
  simp only [mergeVideos, asArray, bind, Except.bind, pure, Except.pure]
  cases setAll [] items with
  | error e => rfl
  | ok m1 =>
    simp only
    cases setAll m1 (msgs.map JVal.obj) with
    | error e => rfl
    | ok m2 =>
      simp only
      cases filterE (hasFileId js) ((mapDelete m2 (some (.str "demo"))).map Prod.snd) <;> rfl

/-- What a successful merge computed. -/
theorem mergeVideos_ok {js : Engine} {items : List JVal} {msgs : List Obj} {F : List JVal}
    (h : mergeVideos js (.arr items) msgs = .ok F) :
    ∃ m1 m2, setAll [] items = .ok m1 ∧ setAll m1 (msgs.map JVal.obj) = .ok m2 ∧
      (∀ e ∈ m2, ∃ b, hasFileId js e.2 = .ok b) ∧
      F = jsSort (compareUploaded js) (survivors js m2) := by
  rw [mergeVideos_arr] at h
  cases h1 : setAll [] items with
  | error e => rw [h1] at h; cases h
  | ok m1 =>
    rw [h1] at h
    simp only at h
    cases h2 : setAll m1 (msgs.map JVal.obj) with
    | error e => rw [h2] at h; cases h
    | ok m2 =>
      rw [h2] at h
      simp only at h
      cases h3 : filterE (hasFileId js) ((mapDelete m2 (some (.str "demo"))).map Prod.snd) with
      | error e => rw [h3] at h; cases h
      | ok W =>
        rw [h3] at h
        simp only [Except.ok.injEq] at h
        obtain ⟨hd, hk⟩ := setAll_invariants _ _ _ h2
          (setAll_invariants _ _ _ h1 List.Pairwise.nil (by intro e he; cases he)).1
          (setAll_invariants _ _ _ h1 List.Pairwise.nil (by intro e he; cases he)).2
        refine ⟨m1, m2, rfl, h2, ?_, ?_⟩
        · intro e he
          exact hasFileId_ok js e.2 e.1 (hk e he)
        · rw [← h, (filterE_eq _ _ _ h3).1]
          rfl

/-- The merge succeeds once both loops do. -/
theorem mergeVideos_of {js : Engine} {items : List JVal} {msgs : List Obj} {m1 m2 : VideoMap}
    (h1 : setAll [] items = .ok m1) (h2 : setAll m1 (msgs.map JVal.obj) = .ok m2) :
    mergeVideos js (.arr items) msgs = .ok (jsSort (compareUploaded js) (survivors js m2)) := by
  obtain ⟨_, hk⟩ := setAll_invariants _ _ _ h2
    (setAll_invariants _ _ _ h1 List.Pairwise.nil (by intro e he; cases he)).1
    (setAll_invariants _ _ _ h1 List.Pairwise.nil (by intro e he; cases he)).2
  have h3 : filterE (hasFileId js) ((mapDelete m2 (some (.str "demo"))).map Prod.snd)
      = .ok (survivors js m2) := by
    apply filterE_total
    intro v hv
    obtain ⟨e, he, rfl⟩ := List.mem_map.1 hv
    exact hasFileId_ok js e.2 e.1 (hk e (List.mem_of_mem_filter he))
  rw [mergeVideos_arr, h1]
  simp only [h2, h3]

/-- The merge succeeds on arrays only. -/
theorem mergeVideos_isArr {js : Engine} {existing : JVal} {msgs : List Obj} {F : List JVal}
    (h : mergeVideos js existing msgs = .ok F) : ∃ items, existing = .arr items := by
  cases existing with
  | arr items => exact ⟨items, rfl⟩
  | null => simp [mergeVideos, asArray, bind, Except.bind] at h
  | bool b => simp [mergeVideos, asArray, bind, Except.bind] at h
  | num n => simp [mergeVideos, asArray, bind, Except.bind] at h
  | str s => simp [mergeVideos, asArray, bind, Except.bind] at h
  | obj r => simp [mergeVideos, asArray, bind, Except.bind] at h

/-- Merging the same decoded records into the merged catalog returns that catalog. -/
theorem mergeVideos_idem (js : Engine) (items : List JVal) (msgs : List Obj) (F : List JVal)
    (hE : ∀ r ∈ msgs, ∃ s, r.lookup "id" = some (.str s))
    (h : mergeVideos js (.arr items) msgs = .ok F) :
    mergeVideos js (.arr F) msgs = .ok F := by
  obtain ⟨m1, m2, h1, h2, _, hF⟩ := mergeVideos_ok h
  obtain ⟨hd1, hk1⟩ := setAll_invariants _ _ _ h1 List.Pairwise.nil (by intro e he; cases he)
  obtain ⟨hd2, hk2⟩ := setAll_invariants _ _ _ h2 hd1 hk1
  obtain ⟨X1, hT1, hX1, hcov1⟩ := setAll_events msgs hE m1 hd1
  have hm2 : m2 = m1.map (eventual msgs) ++ X1 := by
    rw [h2] at hT1
    exact Except.ok.inj hT1
  -- membership in F
  have hmemF : ∀ v, v ∈ F ↔ v ∈ survivors js m2 := by
    intro v
    rw [hF]
    exact (jsSort_perm js _).mem_iff
  have hFelem : ∀ v ∈ F, (keyOf v, v) ∈ m2 ∧ strictEq (keyOf v) (some (.str "demo")) = false ∧
      okTrue (hasFileId js v) = true ∧ getProp (some v) "id" = .ok (keyOf v) := by
    intro v hv
    obtain ⟨k, hk, hnd, hok⟩ := mem_survivors.1 ((hmemF v).1 hv)
    have hg := hk2 (k, v) hk
    have hkey : keyOf v = k := keyOf_of_getProp hg
    rw [hkey]
    exact ⟨hk, hnd, hok, hg⟩
  -- distinct keys in F
  have hpS : (survivors js m2).Pairwise (fun a b => strictEq (keyOf a) (keyOf b) = false) := by
    unfold survivors mapDelete
    apply List.Pairwise.filter
    rw [List.pairwise_map]
    apply List.Pairwise.filter
    refine List.Pairwise.imp_of_mem ?_ hd2
    intro a b ha hb hab
    rw [keyOf_of_getProp (hk2 a ha), keyOf_of_getProp (hk2 b hb)]
    exact hab
  have hpF : F.Pairwise (fun a b => strictEq (keyOf a) (keyOf b) = false) := by
    rw [hF]
    refine ((jsSort_perm js _).pairwise_iff ?_).2 hpS
    intro a b hab
    rw [strictEq_comm]
    exact hab
  have hdn1 : DistinctKeys (F.map entryOf) := by
    unfold DistinctKeys
    rw [List.pairwise_map]
    exact hpF
  have hrun1 : setAll [] F = .ok (F.map entryOf) := by
    have := setAll_fresh F [] (fun v hv => (hFelem v hv).2.2.2) (by simpa using hdn1)
    simpa using this
  obtain ⟨X2, hT2, hX2, hcov2⟩ := setAll_events msgs hE (F.map entryOf) hdn1
  have hfix : (F.map entryOf).map (eventual msgs) = F.map entryOf := by
    rw [List.map_map]
    apply List.map_congr_left
    intro v hv
    have hin := (hFelem v hv).1
    rw [hm2, List.mem_append] at hin
    simp only [Function.comp, entryOf, eventual]
    rcases hin with hin | hin
    · obtain ⟨e0, _, he0⟩ := List.mem_map.1 hin
      simp only [eventual, Prod.mk.injEq] at he0
      obtain ⟨hk0, hv0⟩ := he0
      rw [hk0] at hv0
      cases hl : lastWith (keyOf v) msgs with
      | none => rfl
      | some x =>
        rw [hl] at hv0
        simp only [Option.getD_some] at hv0
        simp [hv0]
    · have := (hX1 _ hin).2
      simp only at this
      simp [this]
  have hX2bad : survivors js X2 = [] := by
    rw [List.eq_nil_iff_forall_not_mem]
    intro v hv
    obtain ⟨k, hk, hnd, hok⟩ := mem_survivors.1 hv
    obtain ⟨hnew, hlast⟩ := hX2 (k, v) hk
    simp only at hnew hlast
    obtain ⟨r, hr, _, hrk⟩ := lastWith_some hlast
    obtain ⟨s, hs⟩ := hE r hr
    have hks : k = some (.str s) := by rw [← strictEq_eq hrk, hs]
    have hin2 : (k, v) ∈ m2 := by
      rw [hm2, List.mem_append]
      rcases hcov1 k v hlast with hh | hh
      · left
        simp only [hasKey, List.any_eq_true] at hh
        obtain ⟨e0, he0, hse⟩ := hh
        refine List.mem_map.2 ⟨e0, he0, ?_⟩
        simp [eventual, strictEq_eq hse, hlast]
      · exact Or.inr hh
    have hvF : v ∈ F := (hmemF v).2 (mem_survivors.2 ⟨k, hin2, hnd, hok⟩)
    have hkey : keyOf v = k := keyOf_of_getProp (hk2 (k, v) hin2)
    have := (hasKey_false_iff _ _).1 hnew (entryOf v) (List.mem_map.2 ⟨v, hvF, rfl⟩)
    simp only [entryOf, hkey, hks, strictEq] at this
    simp at this
  have hFgood : survivors js (F.map entryOf) = F := by
    have hinner : (F.map entryOf).filter
        (fun entry => !strictEq entry.1 (some (.str "demo"))) = F.map entryOf := by
      apply List.filter_eq_self.2
      intro e he
      obtain ⟨w, hw, rfl⟩ := List.mem_map.1 he
      simp [entryOf, (hFelem w hw).2.1]
    have houter : F.filter (fun v => okTrue (hasFileId js v)) = F :=
      List.filter_eq_self.2 (fun w hw => (hFelem w hw).2.2.1)
    have hsnd : Prod.snd ∘ entryOf = id := rfl
    unfold survivors mapDelete
    rw [hinner, List.map_map, hsnd, List.map_id, houter]
  rw [hfix] at hT2
  rw [mergeVideos_of hrun1 hT2, survivors_append, hX2bad, hFgood, List.append_nil]
  rw [hF, jsSort_idem]

/-- The `try` block of the reconciler, step by step. -/
theorem syncBody_eq (js : Engine) (answer : Except Thrown JVal) (file : FileState) :
    syncBody js answer file =
      match fetchUpdates answer with
      | .error e => .error e
      | .ok updates =>
        match decodeUpdates js updates with
        | .error e => .error e
        | .ok msgs =>
          if msgs.length == 0 then
            match reportCurrent file with
            | .error e => .error e
            | .ok _ => .ok file
          else
            match loadExisting file with
            | .error e => .error e
            | .ok existing =>
              match mergeVideos js existing msgs with
              | .error e => .error e
              | .ok finalVideos => .ok (.holds (.arr finalVideos)) := by
  simp only [syncBody, bind, Except.bind, pure, Except.pure]
  cases fetchUpdates answer with
  | error e => rfl
  | ok updates =>
    simp only
    cases decodeUpdates js updates with
    | error e => rfl
    | ok msgs =>
      simp only
      split
      · cases reportCurrent file <;> rfl
      · cases loadExisting file with
        | error e => rfl
        | ok existing =>
          simp only
          cases mergeVideos js existing msgs <;> rfl

/-- A second run of the `try` block on the file the first one left writes the same file. -/
theorem syncBody_idem {js : Engine} {answer : Except Thrown JVal} {file file' : FileState}
    (h : syncBody js answer file = .ok file') : syncBody js answer file' = .ok file' := by
  have h' := h
  rw [syncBody_eq] at h' ⊢
  cases hu : fetchUpdates answer with
  | error e => rw [hu] at h'; cases h'
  | ok updates =>
    rw [hu] at h'
    simp only at h' ⊢
    cases hd : decodeUpdates js updates with
    | error e => rw [hd] at h'; cases h'
    | ok msgs =>
      rw [hd] at h'
      simp only at h' ⊢
      by_cases hlen : (msgs.length == 0) = true
      · rw [if_pos hlen] at h' ⊢
        cases hr : reportCurrent file with
        | error e => rw [hr] at h'; cases h'
        | ok u =>
          rw [hr] at h'
          simp only [Except.ok.injEq] at h'
          subst h'
          rw [hr]
      · rw [if_neg hlen] at h' ⊢
        cases hl : loadExisting file with
        | error e => rw [hl] at h'; cases h'
        | ok existing =>
          rw [hl] at h'
          simp only at h'
          cases hm : mergeVideos js existing msgs with
          | error e => rw [hm] at h'; cases h'
          | ok F =>
            rw [hm] at h'
            simp only [Except.ok.injEq] at h'
            subst h'
            obtain ⟨items, rfl⟩ := mergeVideos_isArr hm
            have := mergeVideos_idem js items msgs F (decodeUpdates_id hd) hm
            simp [loadExisting, readJSON, getProp, bind, Except.bind, pure, Except.pure, this]

/-- Claim C3 (last-observed-wins by id, whole-record replacement).  Let the decoded events be
`pre ++ R2 :: post` where `R2` has the id `i`, no record of `post` has it, `i` is not `demo`
and `R2` has a non-empty `file_id`.  Then for every existing catalog of records, whether or
not it has records with the id `i`, the reconciler succeeds and the catalog it writes has
exactly one record with the id `i`, and that record is `R2` itself. -/
theorem sync_last_observed_wins (js : Engine) (env : Env) (answer : Except Thrown JVal) (updates : Option JVal)
    (recs pre post : List Obj) (R2 : Obj) (i handle : String)
    (hbot : truthy (env.BOT_TOKEN.map JVal.str) = true)
    (hchan : truthy (env.CHANNEL_ID.map JVal.str) = true)
    (hfetch : fetchUpdates answer = .ok updates)
    (hdec : decodeUpdates js updates = .ok (pre ++ R2 :: post))
    (hid : R2.lookup "id" = some (.str i))
    (hlast : ∀ r ∈ post, r.lookup "id" ≠ some (.str i))
    (hdemo : i ≠ "demo")
    (hfile : R2.lookup "file_id" = some (.str handle)) (hne : handle ≠ "") :
    ∃ final, syncMain js env answer (.holds (.arr (recs.map JVal.obj)))
        = ⟨.holds (.arr final), 0⟩ ∧
      final.filter (fun v => strictEq (keyOf v) (some (.str i))) = [.obj R2] := by
  have hE := decodeUpdates_id hdec
  obtain ⟨m1, h1⟩ := setAll_objs recs []
  obtain ⟨hd1, hk1⟩ := setAll_invariants _ _ _ h1 List.Pairwise.nil (by intro e he; cases he)
  obtain ⟨X1, hT1, hX1, hcov1⟩ := setAll_events _ hE m1 hd1
  obtain ⟨hd2, hk2⟩ := setAll_invariants _ _ _ hT1 hd1 hk1
  have hmerge := @mergeVideos_of js _ _ _ _ h1 hT1
  refine ⟨jsSort (compareUploaded js)
    (survivors js (m1.map (eventual (pre ++ R2 :: post)) ++ X1)), ?_, ?_⟩
  · have hlen : ((pre ++ R2 :: post).length == 0) = false := by simp
    simp [syncMain, hbot, hchan, syncBody_eq, hfetch, hdec, hlen, loadExisting, readJSON,
      getProp, bind, Except.bind, pure, Except.pure, hmerge]
  · have hself : strictEq (some (JVal.str i)) (some (JVal.str i)) = true := by simp [strictEq]
    have hl : lastWith (some (.str i)) (pre ++ R2 :: post) = some (.obj R2) := by
      apply lastWith_split
      · rw [hid]; exact hself
      · intro r hr
        rw [Bool.eq_false_iff]
        intro h
        exact hlast r hr ((strictEq_str_iff _ _).1 h)
    have hin : ((some (.str i) : Option JVal), JVal.obj R2) ∈
        m1.map (eventual (pre ++ R2 :: post)) ++ X1 := by
      rw [List.mem_append]
      rcases hcov1 _ _ hl with hh | hh
      · left
        simp only [hasKey, List.any_eq_true] at hh
        obtain ⟨e0, he0, hse⟩ := hh
        refine List.mem_map.2 ⟨e0, he0, ?_⟩
        simp [eventual, strictEq_eq hse, hl]
      · exact Or.inr hh
    have hsel := filter_key_unique _ hd2 _ hin hself
    simp only at hsel
    have hcongr : (m1.map (eventual (pre ++ R2 :: post)) ++ X1).filter
        ((fun v => strictEq (keyOf v) (some (.str i))) ∘ Prod.snd)
        = [((some (.str i) : Option JVal), JVal.obj R2)] := by
      rw [← hsel]
      apply List.filter_congr
      intro e he
      simp only [Function.comp]
      rw [keyOf_of_getProp (hk2 e he)]
    have hgood : okTrue (hasFileId js (.obj R2)) = true := by
      have hb : ((some (JVal.str handle) : Option JVal) != none
          && (some (JVal.str handle) : Option JVal) != some (JVal.str "")) = true := by
        simp [hne]
      rw [hasFileId_typed js R2 (Or.inr ⟨handle, hfile⟩), hfile, hb]
      rfl
    have hperm := (jsSort_perm js (survivors js (m1.map (eventual (pre ++ R2 :: post)) ++ X1))).filter
      (fun v => strictEq (keyOf v) (some (.str i)))
    have hsurv : (survivors js (m1.map (eventual (pre ++ R2 :: post)) ++ X1)).filter
        (fun v => strictEq (keyOf v) (some (.str i))) = [.obj R2] := by
      unfold survivors mapDelete
      rw [List.filter_comm, List.filter_map, List.filter_comm, hcongr]
      have hnd : strictEq (some (JVal.str i)) (some (JVal.str "demo")) = false := by
        simp [strictEq, hdemo]
      simp [hnd, hgood]
    rw [hsurv] at hperm
    exact List.perm_singleton.1 hperm

/-- Claim C3 on a catalog whose record `42` differs from the decoded one in every field. -/
theorem sync_last_observed_wins_witness :
    ∃ final, syncMain sampleEngine sampleEnv (.ok sampleAnswer)
        (.holds (.arr (sampleCatalog.map JVal.obj))) = ⟨.holds (.arr final), 0⟩ ∧
      final.filter (fun v => strictEq (keyOf v) (some (.str "42"))) = [.obj sampleEvent] :=
  sync_last_observed_wins sampleEngine sampleEnv (.ok sampleAnswer) (some sampleUpdates)
    sampleCatalog [] [] sampleEvent "42" "BAAC"
    (by decide) (by decide) rfl rfl (by decide) (by simp) (by decide)
    (by decide) (by decide)

/-- Claim C4 (idempotence).  For every state of the catalog file and every answer of the
remote service, running the reconciler again on the file left by a first run, with the same
answer, leaves the same file (same records, same order) and the same exit code.  The model of
`sort` is exact when the `uploaded_at` values are numbers, as the claim assumes. -/
theorem sync_idempotent (js : Engine) (env : Env) (answer : Except Thrown JVal) (file : FileState) :
    syncMain js env answer (syncMain js env answer file).file = syncMain js env answer file := by
  unfold syncMain
  split
  · rfl
  · split
    · rfl
    · cases hb : syncBody js answer file with
      | error e => simp [hb]
      | ok file' => simp [syncBody_idem hb]

/-! ## The thumbnail and detail endpoints (C11, C12, C18, C19) -/

/-- Step 1 of the thumbnail handler on a catalog of objects. -/
theorem thumb_lookup (recs : List Obj) (id : String) :
    lookupThumbId (.holds (.arr (recs.map JVal.obj))) id
      = .ok ((findRecord id recs).map (fun r => r.lookup "thumb_file_id")) := by
  simp only [lookupThumbId, readJSON, asArray, findById_objs, bind, Except.bind, findRecord]
  cases List.find? (fun r => decide (List.lookup "id" r = some (JVal.str id))) recs <;>
    simp [getProp, pure, Except.pure, bind, Except.bind]

/-- What follows the remote answer in the thumbnail handler is a 302 redirect. -/
theorem thumbAnswer_redirect (botToken : Option String) (origin : String) (tgData : JVal)
    (response : Response) (h : thumbAnswer botToken origin tgData = .ok response) :
    ∃ url, response = .redirect url 302 := by
  simp only [thumbAnswer, bind, Except.bind, pure, Except.pure] at h
  cases hok : getProp (some tgData) "ok" with
  | error e => rw [hok] at h; cases h
  | ok okv =>
    rw [hok] at h
    simp only at h
    split at h
    · simp only [Except.ok.injEq] at h
      exact ⟨_, h.symm⟩
    · cases hres : getProp (some tgData) "result" with
      | error e => rw [hres] at h; cases h
      | ok result =>
        rw [hres] at h
        simp only at h
        cases hp : getProp result "file_path" with
        | error e => rw [hp] at h; cases h
        | ok filePath =>
          rw [hp] at h
          simp only [Except.ok.injEq] at h
          exact ⟨_, h.symm⟩

/-- An answer that is not `ok` leads to the placeholder. -/
theorem thumbAnswer_failed (botToken : Option String) (origin : String) (tgData : JVal)
    (response : Response) (h : thumbAnswer botToken origin tgData = .ok response)
    (hfail : ∀ okv, getProp (some tgData) "ok" = .ok okv → truthy okv = false) :
    response = placeholder origin := by
  simp only [thumbAnswer, bind, Except.bind, pure, Except.pure] at h
  cases hok : getProp (some tgData) "ok" with
  | error e => rw [hok] at h; cases h
  | ok okv =>
    rw [hok] at h
    simp only [hfail okv hok] at h
    simp only [Bool.not_false, if_true, Except.ok.injEq] at h
    exact h.symm

/-- The thumbnail handler on a known record with a non-empty string handle. -/
theorem thumb_known (botToken : Option String) (remote : Remote) (origin : String)
    (recs : List Obj) (id : String) (r : Obj) (handle : String) (tgData : JVal)
    (hr : findRecord id recs = some r)
    (hf : r.lookup "thumb_file_id" = some (.str handle)) (hne : handle ≠ "")
    (hremote : remote (TELEGRAM_API botToken ++ "/getFile?file_id=" ++ handle) = .ok tgData) :
    thumbGET botToken remote origin (.holds (.arr (recs.map JVal.obj))) id
      = match thumbAnswer botToken origin tgData with
        | .ok response => ⟨response, [TELEGRAM_API botToken ++ "/getFile?file_id=" ++ handle]⟩
        | .error _ => ⟨placeholder origin,
            [TELEGRAM_API botToken ++ "/getFile?file_id=" ++ handle]⟩ := by
  simp only [thumbGET, thumb_lookup, hr]
  cases hres : thumbAnswer botToken origin tgData <;>
    simp [hf, truthy, hne, hremote, hres, toStr, jsString]

/-- Claim C11.  For every state of the catalog file (missing, unparsable, any JSON value),
every id and every remote service (answers of any shape, thrown exceptions), the thumbnail
endpoint answers with a 302 redirect; and the redirect goes to the placeholder whenever no
request it made was answered with a truthy `ok`, in particular when it made none. -/
theorem thumb_never_fails (botToken : Option String) (remote : Remote) (origin : String)
    (file : FileState) (id : String) :
    (∃ url, (thumbGET botToken remote origin file id).response = .redirect url 302) ∧
    ((∀ u ∈ (thumbGET botToken remote origin file id).requests, ∀ tgData okv,
        remote u = .ok tgData → getProp (some tgData) "ok" = .ok okv → truthy okv = false) →
      (thumbGET botToken remote origin file id).response = placeholder origin) := by
  have hp : ∃ url, placeholder origin = .redirect url 302 := ⟨_, rfl⟩
  cases file with
  | absent => exact ⟨hp, fun _ => rfl⟩
  | corrupt => exact ⟨hp, fun _ => rfl⟩
  | holds v =>
    simp only [thumbGET]
    cases hl : lookupThumbId (.holds v) id with
    | error e => exact ⟨hp, fun _ => rfl⟩
    | ok found =>
      cases found with
      | none => exact ⟨hp, fun _ => rfl⟩
      | some thumb =>
        simp only
        by_cases ht : truthy thumb = true
        · simp only [ht, Bool.not_true, Bool.false_eq_true, if_false]
          cases hr : remote (TELEGRAM_API botToken ++ "/getFile?file_id=" ++ toStr thumb) with
          | error e => exact ⟨hp, fun _ => rfl⟩
          | ok tgData =>
            simp only
            cases ha : thumbAnswer botToken origin tgData with
            | error e => exact ⟨hp, fun _ => rfl⟩
            | ok response =>
              refine ⟨thumbAnswer_redirect _ _ _ _ ha, ?_⟩
              intro hfail
              exact thumbAnswer_failed _ _ _ _ ha
                (fun okv hokv => hfail _ (List.mem_singleton.2 rfl) tgData okv hr hokv)
        · have hf : truthy thumb = false := by simpa using ht
          rw [hf]
          exact ⟨hp, fun _ => rfl⟩

/-- Claim C11 on a throttling remote. -/
theorem thumb_never_fails_witness :
    (thumbGET (some "123:abc") throttlingRemote "http://localhost:3000"
        (.holds (.arr (sampleCatalog.map JVal.obj))) "42").response
      = placeholder "http://localhost:3000" :=
  (thumb_never_fails (some "123:abc") throttlingRemote "http://localhost:3000"
    (.holds (.arr (sampleCatalog.map JVal.obj))) "42").2 (by
      intro u _ tgData okv h1 h2
      simp only [throttlingRemote, Except.ok.injEq] at h1
      subst h1
      simp only [getProp, rateLimitedAnswer, List.lookup, Except.ok.injEq] at h2
      subst h2
      rfl)

/-- Claim C12.  When the record found for the id has an empty or no `thumb_file_id`, the
thumbnail endpoint redirects to the placeholder and makes no request to the remote service,
whatever the other fields of the record. -/
theorem thumb_placeholder_without_remote (botToken : Option String) (remote : Remote) (origin : String)
    (recs : List Obj) (id : String) (r : Obj)
    (hr : findRecord id recs = some r)
    (ht : r.lookup "thumb_file_id" = none ∨ r.lookup "thumb_file_id" = some (.str "")) :
    thumbGET botToken remote origin (.holds (.arr (recs.map JVal.obj))) id
      = ⟨placeholder origin, []⟩ := by
  simp only [thumbGET, thumb_lookup, hr]
  rcases ht with ht | ht <;> simp [ht, truthy]

/-- Claim C12 on the record without thumbnail. -/
theorem thumb_placeholder_without_remote_witness :
    thumbGET (some "123:abc") servingRemote "http://localhost:3000"
        (.holds (.arr (sampleCatalog.map JVal.obj))) "7"
      = ⟨placeholder "http://localhost:3000", []⟩ :=
  thumb_placeholder_without_remote (some "123:abc") servingRemote "http://localhost:3000" sampleCatalog "7"
    emptyHandleRecord (by decide) (Or.inr (by decide))

/-- Formatting the details of an object does not throw. -/
theorem formatDetail_obj (r : Obj) : formatDetail (.obj r) = .ok (detailRecord r) := by
  simp [formatDetail, detailRecord, getProp, bind, Except.bind, pure, Except.pure]

/-- The detail handler on a catalog of objects. -/
theorem videoGET_objs (recs : List Obj) (id : String) :
    videoGET (.holds (.arr (recs.map JVal.obj))) id =
      match findRecord id recs with
      | none => .json 404 (.obj [("error", .str "Video not found"), ("id", .str id)]) []
      | some r => .json 200 (detailRecord r) [] := by
  simp only [videoGET, videoDetail, readJSON, asArray, findById_objs, bind, Except.bind,
    findRecord]
  cases List.find? (fun r => decide (List.lookup "id" r = some (JVal.str id))) recs <;>
    simp [formatDetail_obj, pure, Except.pure, bind, Except.bind]

/-- Claim C18 fails on a record with an empty `file_id`: the detail endpoint answers 200 with
the details of the record. -/
theorem detail_shows_record_without_handle :
    videoGET (.holds (.arr (sampleCatalog.map JVal.obj))) "7"
      = .json 200 (.obj [("id", .str "7"), ("title", .str "Pending"), ("description", .str ""),
          ("duration", .num 0), ("video_url", .str "/api/resolve/7"),
          ("download_url", .str "/api/resolve/7"),
          ("thumbnail_url", .str "/placeholder-thumb.svg"),
          ("uploaded_at", .num 1650000000)]) [] ∧
    emptyHandleRecord.lookup "file_id" = some (.str "") := by
  refine ⟨by decide, by decide⟩

/-- Claim C18, amended.  The detail endpoint answers 404 `Video not found` when no catalog
record has the id, and 200 with the details of the record found for the id otherwise,
whatever the `file_id` of that record. -/
theorem detail_found_or_absent (recs : List Obj) (id : String) :
    ((∀ r ∈ recs, r.lookup "id" ≠ some (.str id)) →
      videoGET (.holds (.arr (recs.map JVal.obj))) id
        = .json 404 (.obj [("error", .str "Video not found"), ("id", .str id)]) []) ∧
    (∀ r, findRecord id recs = some r →
      videoGET (.holds (.arr (recs.map JVal.obj))) id = .json 200 (detailRecord r) []) := by
  constructor
  · intro h
    have : findRecord id recs = none := by
      simp only [findRecord, List.find?_eq_none]
      intro r hr; simpa using h r hr
    rw [videoGET_objs, this]
  · intro r hr
    rw [videoGET_objs, hr]

/-- Claim C18, amended, on an unknown id and on a known one. -/
theorem detail_found_or_absent_witness :
    videoGET (.holds (.arr (sampleCatalog.map JVal.obj))) "99"
        = .json 404 (.obj [("error", .str "Video not found"), ("id", .str "99")]) [] ∧
    videoGET (.holds (.arr (sampleCatalog.map JVal.obj))) "42"
        = .json 200 (detailRecord oldRecord) [] :=
  ⟨(detail_found_or_absent sampleCatalog "99").1 (by decide), (detail_found_or_absent sampleCatalog "42").2 oldRecord (by decide)⟩

/-- Claim C19 fails: for a record with the id `demo` and non-empty handles both resolve
endpoints redirect to the remote file, and for a record with an empty `file_id` and a
thumbnail handle the thumbnail endpoint redirects to the remote file. -/
theorem resolve_serves_invisible_records :
    (resolveGET (some "123:abc") servingRemote
        (.holds (.arr [.obj demoThumbRecord, .obj thumbOnlyRecord])) "demo").response
      = .redirect "https://api.telegram.org/file/bot123:abc/videos/file_0.mp4" 302 ∧
    (thumbGET (some "123:abc") servingRemote "http://localhost:3000"
        (.holds (.arr [.obj demoThumbRecord, .obj thumbOnlyRecord])) "demo").response
      = .redirect "https://api.telegram.org/file/bot123:abc/videos/file_0.mp4" 302 ∧
    (thumbGET (some "123:abc") servingRemote "http://localhost:3000"
        (.holds (.arr [.obj demoThumbRecord, .obj thumbOnlyRecord])) "8").response
      = .redirect "https://api.telegram.org/file/bot123:abc/videos/file_0.mp4" 302 := by
  refine ⟨by decide, by decide, by decide⟩

/-- Claim C19, amended.  For the record found for an id, whatever that id (`demo` included)
and whatever its other fields: the resolve endpoint answers 404 without a remote request when
`file_id` is empty or missing, and the thumbnail endpoint redirects to the placeholder
without a remote request when `thumb_file_id` is empty or missing; when the requested handle
is a non-empty string and the remote answers with a file path, each endpoint redirects to the
remote file. -/
theorem resolve_checks_requested_handle_only (botToken : Option String) (remote : Remote)
    (origin : String)
    (recs : List Obj) (id : String) (r : Obj) (hr : findRecord id recs = some r) :
    ((r.lookup "file_id" = some (.str "") ∨ r.lookup "file_id" = none) →
      resolveGET botToken remote (.holds (.arr (recs.map JVal.obj))) id
        = ⟨.json 404 (.obj [("error", .str "Video file_id missing"), ("id", .str id)]) [],
           []⟩) ∧
    ((r.lookup "thumb_file_id" = some (.str "") ∨ r.lookup "thumb_file_id" = none) →
      thumbGET botToken remote origin (.holds (.arr (recs.map JVal.obj))) id
        = ⟨placeholder origin, []⟩) ∧
    (∀ handle answer result path, r.lookup "file_id" = some (.str handle) → handle ≠ "" →
      remote (TELEGRAM_API botToken ++ "/getFile?file_id=" ++ handle) = .ok (.obj answer) →
      truthy (answer.lookup "ok") = true → answer.lookup "result" = some (.obj result) →
      result.lookup "file_path" = some (.str path) →
      (resolveGET botToken remote (.holds (.arr (recs.map JVal.obj))) id).response
        = .redirect (TELEGRAM_FILE_API botToken ++ "/" ++ path) 302) ∧
    (∀ handle answer result path, r.lookup "thumb_file_id" = some (.str handle) →
      handle ≠ "" →
      remote (TELEGRAM_API botToken ++ "/getFile?file_id=" ++ handle) = .ok (.obj answer) →
      truthy (answer.lookup "ok") = true → answer.lookup "result" = some (.obj result) →
      result.lookup "file_path" = some (.str path) →
      (thumbGET botToken remote origin (.holds (.arr (recs.map JVal.obj))) id).response
        = .redirect (TELEGRAM_FILE_API botToken ++ "/" ++ path) 302) := by
  refine ⟨?_, ?_, ?_, ?_⟩
  · intro hf
    simp only [resolveGET, resolve_lookup, hr]
    rcases hf with hf | hf <;> simp [hf, truthy]
  · intro ht
    simp only [thumbGET, thumb_lookup, hr]
    rcases ht with ht | ht <;> simp [ht, truthy]
  · intro handle answer result path hf hne hremote hok hres hpath
    rw [resolve_known botToken remote recs id r handle _ hr hf hne hremote]
    simp [resolveAnswer, getProp, hok, hres, hpath, bind, Except.bind, pure, Except.pure,
      toStr, jsString]
  · intro handle answer result path hf hne hremote hok hres hpath
    rw [thumb_known botToken remote origin recs id r handle _ hr hf hne hremote]
    simp [thumbAnswer, getProp, hok, hres, hpath, bind, Except.bind, pure, Except.pure,
      toStr, jsString]

/-- Claim C19, amended, on the record with an empty `file_id`. -/
theorem resolve_checks_requested_handle_only_witness :
    resolveGET (some "123:abc") servingRemote
        (.holds (.arr ([demoThumbRecord, thumbOnlyRecord].map JVal.obj))) "8"
      = ⟨.json 404 (.obj [("error", .str "Video file_id missing"), ("id", .str "8")]) [],
         []⟩ :=
  (resolve_checks_requested_handle_only (some "123:abc") servingRemote "http://localhost:3000"
    [demoThumbRecord, thumbOnlyRecord] "8" thumbOnlyRecord (by decide)).1 (Or.inl (by decide))

/-! ## The producer (C13, C14) -/

/-- A successful `updateLocalDB` leaves a catalog in the file. -/
theorem updateLocalDB_holds {js : Engine} {file written : FileState} {video : Obj}
    (h : updateLocalDB js file video = .ok written) : ∃ c, written = .holds c := by
  simp only [updateLocalDB, bind, Except.bind, pure, Except.pure] at h
  repeat' split at h
  all_goals first
    | (cases h; exact ⟨_, rfl⟩)
    | cases h

/-- The four ways the `try` block of the producer can end. -/
theorem uploadTry_shape (js : Engine) (args : Args) (disk : Disk) (tg : Telegram)
    (duration now1 now2 : Int) (file : FileState) :
    let run := uploadTry js args disk tg duration now1 now2 file
    let uploads : List Effect :=
      if usesThumbFile args disk then [.uploadVideo, .uploadPhoto] else [.uploadVideo]
    (run = ⟨file, [.uploadVideo], 1⟩) ∨
    ((∃ r, uploadFile tg.sendVideo = .ok r) ∧
      (run = ⟨file, uploads, 1⟩ ∨
       (∃ p, run = ⟨file, uploads ++ [.publish p], 1⟩) ∨
       (∃ p c r, uploadFile (tg.sendMessage p) = .ok r ∧
          run = ⟨.holds c, uploads ++ [.publish p, .save c], 0⟩))) := by
  intro run uploads
  simp only [run, uploads, uploadTry]
  cases hv : uploadFile tg.sendVideo with
  | error e => exact Or.inl rfl
  | ok videoResult =>
    simp only
    cases hids : (do
        let videoMsgId ← getProp videoResult "message_id"
        let fileId ← extractFileId videoResult
        pure (videoMsgId, fileId) : Except Thrown (Option JVal × Option JVal)) with
    | error e => exact Or.inl rfl
    | ok ids =>
      obtain ⟨videoMsgId, fileId⟩ := ids
      simp only
      refine Or.inr ⟨⟨_, rfl⟩, ?_⟩
      cases ht : thumbnailFileId js args disk tg videoResult with
      | error e => exact Or.inl rfl
      | ok thumbFileId =>
        simp only
        cases hm : uploadFile (tg.sendMessage
            (jsonOf (uploadMetadata args videoMsgId fileId thumbFileId duration now1))) with
        | error e => exact Or.inr (Or.inl ⟨_, rfl⟩)
        | ok r =>
          simp only
          cases hu : updateLocalDB js file
              (definedFields (localVideo args videoMsgId fileId thumbFileId duration now2)) with
          | error e => exact Or.inr (Or.inl ⟨_, rfl⟩)
          | ok written =>
            obtain ⟨c, rfl⟩ := updateLocalDB_holds hu
            refine Or.inr (Or.inr ⟨_, c, r, hm, ?_⟩)
            simp [saving]

/-- The upload requests are uploads. -/
theorem uploads_mem (args : Args) (disk : Disk) (e : Effect)
    (h : e ∈ (if usesThumbFile args disk then [Effect.uploadVideo, Effect.uploadPhoto]
        else [Effect.uploadVideo])) :
    e = .uploadVideo ∨ e = .uploadPhoto := by
  split at h <;> simp at h <;> tauto

/-- Claim C13 (remote durability before local mutation).  For every command line, local
files, remote service and catalog file: the metadata message is sent only if the video upload
succeeded; the catalog is written only after a metadata message that the remote accepted; the
catalog file changes only by that write; if the video upload fails nothing but the video
request happens and the catalog is unchanged; if the publication fails the catalog is neither
written nor changed. -/
theorem upload_remote_before_local (js : Engine) (env : Env) (args : Args) (disk : Disk) (tg : Telegram)
    (duration now1 now2 : Int) (file : FileState) :
    (∀ p, Effect.publish p ∈ (uploadMain js env args disk tg duration now1 now2 file).effects →
      ∃ r, uploadFile tg.sendVideo = .ok r) ∧
    (∀ c, Effect.save c ∈ (uploadMain js env args disk tg duration now1 now2 file).effects →
      ∃ p, List.Sublist [Effect.publish p, Effect.save c]
          (uploadMain js env args disk tg duration now1 now2 file).effects ∧
        ∃ r, uploadFile (tg.sendMessage p) = .ok r) ∧
    ((uploadMain js env args disk tg duration now1 now2 file).file = file ∨
      ∃ c, Effect.save c ∈ (uploadMain js env args disk tg duration now1 now2 file).effects ∧
        (uploadMain js env args disk tg duration now1 now2 file).file = .holds c) ∧
    ((∀ r, uploadFile tg.sendVideo ≠ .ok r) →
      (uploadMain js env args disk tg duration now1 now2 file).file = file ∧
      ∀ e ∈ (uploadMain js env args disk tg duration now1 now2 file).effects,
        e = Effect.uploadVideo) ∧
    ((∀ p r, uploadFile (tg.sendMessage p) ≠ .ok r) →
      (uploadMain js env args disk tg duration now1 now2 file).file = file ∧
      ∀ c, Effect.save c ∉
        (uploadMain js env args disk tg duration now1 now2 file).effects) := by
  have hnone : ∀ run : UploadRun, run = ⟨file, [], 1⟩ →
      (∀ p, Effect.publish p ∈ run.effects → ∃ r, uploadFile tg.sendVideo = .ok r) ∧
      (∀ c, Effect.save c ∈ run.effects →
        ∃ p, List.Sublist [Effect.publish p, Effect.save c] run.effects ∧
          ∃ r, uploadFile (tg.sendMessage p) = .ok r) ∧
      (run.file = file ∨ ∃ c, Effect.save c ∈ run.effects ∧ run.file = .holds c) ∧
      ((∀ r, uploadFile tg.sendVideo ≠ .ok r) →
        run.file = file ∧ ∀ e ∈ run.effects, e = Effect.uploadVideo) ∧
      ((∀ p r, uploadFile (tg.sendMessage p) ≠ .ok r) →
        run.file = file ∧ ∀ c, Effect.save c ∉ run.effects) := by
    rintro run rfl
    simp
  unfold uploadMain
  split
  · exact hnone _ rfl
  split
  · exact hnone _ rfl
  split
  · exact hnone _ rfl
  split
  · exact hnone _ rfl
  split
  · exact hnone _ rfl
  have hshape := uploadTry_shape js args disk tg duration now1 now2 file
  simp only at hshape
  rcases hshape with h | ⟨hvideo, h | ⟨p, h⟩ | ⟨p, c, r, hpub, h⟩⟩
  · rw [h]
    simp
  · rw [h]
    refine ⟨fun _ _ => hvideo, ?_, Or.inl rfl, ?_, ?_⟩
    · intro c hc
      rcases uploads_mem args disk _ hc with hc | hc <;> cases hc
    · intro hno
      obtain ⟨r, hr⟩ := hvideo
      exact absurd hr (hno r)
    · intro _
      refine ⟨rfl, ?_⟩
      intro c hc
      rcases uploads_mem args disk _ hc with hc | hc <;> cases hc
  · rw [h]
    refine ⟨fun _ _ => hvideo, ?_, Or.inl rfl, ?_, ?_⟩
    · intro c hc
      simp only [List.mem_append, List.mem_singleton] at hc
      rcases hc with hc | hc
      · rcases uploads_mem args disk _ hc with hc | hc <;> cases hc
      · cases hc
    · intro hno
      obtain ⟨r, hr⟩ := hvideo
      exact absurd hr (hno r)
    · intro _
      refine ⟨rfl, ?_⟩
      intro c hc
      simp only [List.mem_append, List.mem_singleton] at hc
      rcases hc with hc | hc
      · rcases uploads_mem args disk _ hc with hc | hc <;> cases hc
      · cases hc
  · rw [h]
    refine ⟨fun _ _ => hvideo, ?_, Or.inr ⟨c, by simp, rfl⟩, ?_, ?_⟩
    · intro c' hc
      simp only [List.mem_append, List.mem_cons, List.mem_singleton, List.not_mem_nil,
        or_false] at hc
      rcases hc with hc | hc | hc
      · rcases uploads_mem args disk _ hc with hc | hc <;> cases hc
      · cases hc
      · cases hc
        exact ⟨p, List.sublist_append_right _ _, r, hpub⟩
    · intro hno
      obtain ⟨r', hr⟩ := hvideo
      exact absurd hr (hno r')
    · intro hno
      exact absurd hpub (hno p r)

/-- Claim C13 on an unreachable remote and on a remote that rejects the metadata message. -/
theorem upload_remote_before_local_witness :
    (uploadMain sampleEngine sampleEnv sampleArgs sampleDisk unreachableTelegram 10
        1700000000 1700000001 (.holds (.arr [.obj oldRecord]))).file
      = .holds (.arr [.obj oldRecord]) ∧
    (uploadMain sampleEngine sampleEnv sampleArgs sampleDisk rejectingTelegram 10
        1700000000 1700000001 (.holds (.arr [.obj oldRecord]))).file
      = .holds (.arr [.obj oldRecord]) :=
  ⟨((upload_remote_before_local sampleEngine sampleEnv sampleArgs sampleDisk unreachableTelegram 10
      1700000000 1700000001 (.holds (.arr [.obj oldRecord]))).2.2.2.1
      (by intro r h; cases h)).1,
   ((upload_remote_before_local sampleEngine sampleEnv sampleArgs sampleDisk rejectingTelegram 10
      1700000000 1700000001 (.holds (.arr [.obj oldRecord]))).2.2.2.2
      (by intro p r h; cases h)).1⟩

/-- The filter of `updateLocalDB` agrees with `isVisibleRecord` on typed records. -/
theorem isValidEntry_typed (js : Engine) (r : Obj)
    (h : r.lookup "file_id" = none ∨ ∃ s, r.lookup "file_id" = some (.str s)) :
    isValidEntry js (.obj r) = .ok (isVisibleRecord r) := by
  simp only [isValidEntry, hasFileId_typed js r h, notDemo_obj, bind, Except.bind, pure,
    Except.pure, isVisibleRecord]
  cases (r.lookup "id" != some (.str "demo")) <;> simp

/-- On objects `replaceOrPush` is `upsertInto`. -/
theorem replaceOrPush_objs (i : String) (r : Obj) (l : List Obj) :
    replaceOrPush (some (.str i)) (.obj r) (l.map JVal.obj)
      = .ok ((upsertInto i r l).map JVal.obj) := by
  induction l with
  | nil => rfl
  | cons v rest ih =>
    simp only [List.map_cons, replaceOrPush, getProp, upsertInto]
    by_cases hv : v.lookup "id" = some (.str i)
    · simp [hv, strictEq]
    · have : strictEq (v.lookup "id") (some (.str i)) = false := by
        rw [Bool.eq_false_iff]; intro h; exact hv ((strictEq_str_iff _ _).1 h)
      simp [hv, this, ih]

/-- The function `updateLocalDB` on a catalog of typed records. -/
theorem updateLocalDB_typed (js : Engine) (recs : List Obj) (r : Obj) (i : String)
    (htyped : ∀ v ∈ recs, v.lookup "file_id" = none ∨ ∃ s, v.lookup "file_id" = some (.str s))
    (hid : r.lookup "id" = some (.str i)) :
    updateLocalDB js (.holds (.arr (recs.map JVal.obj))) r
      = .ok (.holds (.arr ((upsertInto i r (recs.filter isVisibleRecord)).map JVal.obj))) := by
  have hf : filterE (isValidEntry js) (recs.map JVal.obj)
      = .ok ((recs.filter isVisibleRecord).map JVal.obj) := by
    rw [filterE_ok (isValidEntry js)
      (fun v => match v with | .obj r => isVisibleRecord r | _ => false)]
    · rw [List.filter_map]; rfl
    · intro x hx
      obtain ⟨v, hv, rfl⟩ := List.mem_map.1 hx
      exact isValidEntry_typed js v (htyped v hv)
  simp [updateLocalDB, readJSON, asArray, hf, getProp, hid, replaceOrPush_objs, bind,
    Except.bind, pure, Except.pure]

/-- Without a record of the id the new record goes last. -/
theorem upsertInto_absent (i : String) (r : Obj) (l : List Obj)
    (h : ∀ v ∈ l, v.lookup "id" ≠ some (.str i)) : upsertInto i r l = l ++ [r] := by
  induction l with
  | nil => rfl
  | cons v rest ih =>
    simp [upsertInto, h v (List.mem_cons_self _ _),
      ih (fun w hw => h w (List.mem_cons_of_mem _ hw))]

/-- The first record of the id gives its place to the new record. -/
theorem upsertInto_present (i : String) (r : Obj) (pre post : List Obj) (old : Obj)
    (hpre : ∀ v ∈ pre, v.lookup "id" ≠ some (.str i))
    (hold : old.lookup "id" = some (.str i)) :
    upsertInto i r (pre ++ old :: post) = pre ++ r :: post := by
  induction pre with
  | nil => simp [upsertInto, hold]
  | cons v rest ih =>
    simp [upsertInto, hpre v (List.mem_cons_self _ _),
      ih (fun w hw => hpre w (List.mem_cons_of_mem _ hw))]

/-- Among distinct ids, the records around a record do not have its id. -/
theorem nodup_split {l pre post : List Obj} {old : Obj} {i : String}
    (hd : (l.map (fun v => v.lookup "id")).Nodup) (hl : l = pre ++ old :: post)
    (hold : old.lookup "id" = some (.str i)) :
    (∀ v ∈ pre, v.lookup "id" ≠ some (.str i)) ∧
      (∀ v ∈ post, v.lookup "id" ≠ some (.str i)) := by
  subst hl
  rw [List.map_append, List.map_cons, List.nodup_middle, List.nodup_cons] at hd
  have hnot := hd.1
  rw [hold, ← List.map_append] at hnot
  constructor
  · intro v hv hvi
    exact hnot (List.mem_map.2 ⟨v, List.mem_append_left _ hv, hvi⟩)
  · intro v hv hvi
    exact hnot (List.mem_map.2 ⟨v, List.mem_append_right _ hv, hvi⟩)

/-- Claim C14 fails where the record that carries the id is invisible: the catalog has
pairwise distinct ids and its first record has the id `7` and an empty `file_id`; upserting a
record with the id `7` puts it last, behind the record `42`, not at the first place. -/
theorem upsert_invisible_id_appended :
    updateLocalDB sampleEngine (.holds (.arr [.obj emptyHandleRecord, .obj oldRecord]))
        filledRecord
      = .ok (.holds (.arr [.obj oldRecord, .obj filledRecord])) ∧
    emptyHandleRecord.lookup "id" = filledRecord.lookup "id" ∧
    ([emptyHandleRecord, oldRecord].map (fun v => v.lookup "id")).Nodup := by
  refine ⟨by rfl, by decide, by decide⟩

/-- Claim C14, amended.  For every catalog with pairwise distinct ids (records with a string
or no `file_id`) and every record `r` with a string id `i`: after `updateLocalDB(r)` the
catalog has exactly one record with the id `i`, which is `r`; the other records are the
visible records of the old catalog in their order; if a visible record had the id `i` then
`r` stands in its place among the visible records, and otherwise (no record has the id, or
only an invisible one, which is dropped) `r` is appended last. -/
theorem upsert_replace_visible_or_append (js : Engine) (recs : List Obj) (r : Obj) (i : String)
    (htyped : ∀ v ∈ recs, v.lookup "file_id" = none ∨ ∃ s, v.lookup "file_id" = some (.str s))
    (hdistinct : (recs.map (fun v => v.lookup "id")).Nodup)
    (hid : r.lookup "id" = some (.str i)) :
    ∃ result : List Obj, updateLocalDB js (.holds (.arr (recs.map JVal.obj))) r
        = .ok (.holds (.arr (result.map JVal.obj))) ∧
      result.filter (fun v => decide (v.lookup "id" = some (.str i))) = [r] ∧
      result.filter (fun v => !decide (v.lookup "id" = some (.str i)))
        = (recs.filter isVisibleRecord).filter
            (fun v => !decide (v.lookup "id" = some (.str i))) ∧
      (∀ pre old post, recs.filter isVisibleRecord = pre ++ old :: post →
        old.lookup "id" = some (.str i) → result = pre ++ r :: post) ∧
      ((∀ v ∈ recs.filter isVisibleRecord, v.lookup "id" ≠ some (.str i)) →
        result = recs.filter isVisibleRecord ++ [r]) := by
  have hdv : ((recs.filter isVisibleRecord).map (fun v => v.lookup "id")).Nodup :=
    hdistinct.sublist ((List.filter_sublist recs).map _)
  have hpresent : ∀ pre old post, recs.filter isVisibleRecord = pre ++ old :: post →
      old.lookup "id" = some (.str i) →
      upsertInto i r (recs.filter isVisibleRecord) = pre ++ r :: post := by
    intro pre old post hl hold
    rw [hl]
    exact upsertInto_present i r pre post old (nodup_split hdv hl hold).1 hold
  refine ⟨upsertInto i r (recs.filter isVisibleRecord),
    updateLocalDB_typed js recs r i htyped hid, ?_, ?_, hpresent,
    upsertInto_absent i r _⟩
  · by_cases hex : ∃ old ∈ recs.filter isVisibleRecord, old.lookup "id" = some (.str i)
    · obtain ⟨old, hmem, hold⟩ := hex
      obtain ⟨pre, post, hl⟩ := List.append_of_mem hmem
      obtain ⟨hpre, hpost⟩ := nodup_split hdv hl hold
      rw [hpresent pre old post hl hold, List.filter_append, List.filter_cons]
      have h1 : pre.filter (fun v => decide (v.lookup "id" = some (.str i))) = [] :=
        List.filter_eq_nil_iff.2 (fun v hv => by simpa using hpre v hv)
      have h2 : post.filter (fun v => decide (v.lookup "id" = some (.str i))) = [] :=
        List.filter_eq_nil_iff.2 (fun v hv => by simpa using hpost v hv)
      simp [h1, h2, hid]
    · have hno : ∀ v ∈ recs.filter isVisibleRecord, v.lookup "id" ≠ some (.str i) :=
        fun v hv hvi => hex ⟨v, hv, hvi⟩
      rw [upsertInto_absent i r _ hno, List.filter_append]
      have h1 : (recs.filter isVisibleRecord).filter
          (fun v => decide (v.lookup "id" = some (.str i))) = [] :=
        List.filter_eq_nil_iff.2 (fun v hv => by simpa using hno v hv)
      simp [h1, hid]
  · by_cases hex : ∃ old ∈ recs.filter isVisibleRecord, old.lookup "id" = some (.str i)
    · obtain ⟨old, hmem, hold⟩ := hex
      obtain ⟨pre, post, hl⟩ := List.append_of_mem hmem
      rw [hpresent pre old post hl hold, hl]
      simp [List.filter_append, List.filter_cons, hid, hold]
    · have hno : ∀ v ∈ recs.filter isVisibleRecord, v.lookup "id" ≠ some (.str i) :=
        fun v hv hvi => hex ⟨v, hv, hvi⟩
      rw [upsertInto_absent i r _ hno]
      simp [List.filter_append, hid]

/-- Claim C14, amended, on a catalog with a visible record of the same id. -/
theorem upsert_replace_visible_or_append_witness :
    ∃ result : List Obj,
      updateLocalDB sampleEngine (.holds (.arr (sampleCatalog.map JVal.obj))) sampleEvent
        = .ok (.holds (.arr (result.map JVal.obj))) ∧
      result.filter (fun v => decide (v.lookup "id" = some (.str "42"))) = [sampleEvent] := by
  obtain ⟨result, h1, h2, _⟩ := upsert_replace_visible_or_append sampleEngine sampleCatalog sampleEvent "42"
    (by
      intro r hr
      simp only [sampleCatalog, List.mem_cons, List.mem_singleton, List.not_mem_nil,
        or_false] at hr
      rcases hr with rfl | rfl | rfl <;> exact Or.inr ⟨_, rfl⟩)
    (by decide) (by decide)
  exact ⟨result, h1, h2⟩

/-! ## The validator and the decoder defaults (C15, C16, C17) -/

/-- The `typeof` test of the `file_id` rule. -/
theorem string_rule (v : Option JVal) : (typeOf v != "string") = !isString v := by
  cases v with
  | none => rfl
  | some x => cases x <;> simp [typeOf, isString]

/-- The test of the `id` and `title` rules. -/
theorem nonEmptyString_rule (v : Option JVal) :
    (!isString v || !truthy v) = !isNonEmptyString v := by
  cases v with
  | none => rfl
  | some x => cases x <;> simp [isString, truthy, isNonEmptyString]

/-- The test of the `duration` rule. -/
theorem number_rule (js : Engine) (v : Option JVal) :
    (typeOf v != "number" || ltZero js v) = !isNonNegativeNumber v := by
  cases v with
  | none => rfl
  | some x =>
    cases x with
    | num n =>
      by_cases h : 0 ≤ n
      · have h' : ¬ n < 0 := by omega
        simp [typeOf, isNonNegativeNumber, ltZero, toNumber, h, h']
      · have h' : n < 0 := by omega
        simp [typeOf, isNonNegativeNumber, ltZero, toNumber, h, h']
    | null => simp [typeOf, isNonNegativeNumber]
    | bool b => simp [typeOf, isNonNegativeNumber]
    | str s => simp [typeOf, isNonNegativeNumber]
    | arr items => simp [typeOf, isNonNegativeNumber]
    | obj fields => simp [typeOf, isNonNegativeNumber]

/-- The validator on an object. -/
theorem validateMetadata_obj (js : Engine) (r : Obj) :
    validateMetadata js (some (.obj r))
      = .ok ⟨(ruleErrors r).length == 0, ruleErrors r⟩ := by
  have ht : truthy (some (JVal.obj r)) = true := rfl
  simp only [validateMetadata, ht, getProp, bind, Except.bind, pure, Except.pure,
    string_rule, nonEmptyString_rule, number_rule, ruleErrors]
  cases isNonEmptyString (r.lookup "id") <;> cases isNonEmptyString (r.lookup "title") <;>
    cases isString (r.lookup "file_id") <;> cases isNonNegativeNumber (r.lookup "duration") <;>
    rfl

/-- Claim C15.  For every candidate object `validateMetadata` returns, as `errors`, the
messages of the violated rules in the order id, title, file_id, duration, one message for
each violated rule, and `valid` is true if and only if `errors` is empty.  The rules are as
the messages state them: id and title are non-empty strings, file_id is a string, duration is
a number that is not negative. -/
theorem validate_accumulates_errors (js : Engine) (r : Obj) :
    ∃ v, validateMetadata js (some (.obj r)) = .ok v ∧
      v.errors =
        (if isNonEmptyString (r.lookup "id") then [] else ["id must be a non-empty string"])
        ++ (if isNonEmptyString (r.lookup "title") then []
            else ["title must be a non-empty string"])
        ++ (if isString (r.lookup "file_id") then [] else ["file_id must be a string"])
        ++ (if isNonNegativeNumber (r.lookup "duration") then []
            else ["duration must be a non-negative number"]) ∧
      (v.valid = true ↔ v.errors = []) := by
  refine ⟨_, validateMetadata_obj js r, rfl, ?_⟩
  simp [List.length_eq_zero]

/-- Claim C16 fails on a candidate with a valid id, title and duration and no `file_id`
field: the validator answers `valid = false` with the `file_id` message. -/
theorem validate_missing_file_id_rejected :
    validateMetadata sampleEngine
        (some (.obj [("id", .str "1"), ("title", .str "T"), ("duration", .num 0)]))
      = .ok ⟨false, ["file_id must be a string"]⟩ := by
  rfl

/-- Claim C16, amended.  For every candidate with a non-empty string id, a non-empty string
title and a duration that is a number not below 0: a `file_id` that is a string, the empty
string included, gives `valid = true` with no errors; a `file_id` that is missing or not a
string gives `valid = false` with the one error `file_id must be a string`. -/
theorem validate_file_id_must_be_string (js : Engine) (r : Obj) (id title : String)
    (duration : Int)
    (hid : r.lookup "id" = some (.str id)) (hidne : id ≠ "")
    (htitle : r.lookup "title" = some (.str title)) (htne : title ≠ "")
    (hdur : r.lookup "duration" = some (.num duration)) (hnn : 0 ≤ duration) :
    (∀ s, r.lookup "file_id" = some (.str s) →
      validateMetadata js (some (.obj r)) = .ok ⟨true, []⟩) ∧
    ((∀ s, r.lookup "file_id" ≠ some (.str s)) →
      validateMetadata js (some (.obj r)) = .ok ⟨false, ["file_id must be a string"]⟩) := by
  constructor
  · intro s hs
    rw [validateMetadata_obj]
    simp [ruleErrors, hid, htitle, hdur, hs, isNonEmptyString, isString, isNonNegativeNumber,
      hidne, htne, hnn]
  · intro hs
    have : isString (r.lookup "file_id") = false := by
      cases hf : r.lookup "file_id" with
      | none => rfl
      | some x =>
        cases x <;> try rfl
        exact absurd hf (hs _)
    rw [validateMetadata_obj]
    simp [ruleErrors, hid, htitle, hdur, this, isNonEmptyString, isNonNegativeNumber,
      hidne, htne, hnn]

/-- Claim C16, amended, on a record with a handle and on a candidate with a numeric `file_id`. -/
theorem validate_file_id_must_be_string_witness :
    validateMetadata sampleEngine (some (.obj sampleEvent)) = .ok ⟨true, []⟩ ∧
    validateMetadata sampleEngine
        (some (.obj [("id", .str "1"), ("title", .str "T"), ("file_id", .num 5),
                     ("duration", .num 0)]))
      = .ok ⟨false, ["file_id must be a string"]⟩ :=
  ⟨(validate_file_id_must_be_string sampleEngine sampleEvent "42" "T" 10 (by decide) (by decide) (by decide) (by decide)
      (by decide) (by decide)).1 "BAAC" (by decide),
   (validate_file_id_must_be_string sampleEngine [("id", .str "1"), ("title", .str "T"), ("file_id", .num 5),
      ("duration", .num 0)] "1" "T" 0 (by decide) (by decide) (by decide) (by decide)
      (by decide) (by decide)).2 (by intro s; simp [List.lookup])⟩

/-- Claim C17.  For every text that `JSON.parse` reads as an object whose `type` is
`video_meta`, `parseMetadataMessage` returns a record in which `id` is `String(video_msg_id)`
(`"42"` for the number 42), a missing `description` is `""`, a missing `thumb_file_id` is
`""`, a missing `duration` is `0`, a missing `uploaded_at` is `0`, every field that is present
and truthy (a non-empty string, a number other than 0, an array, an object, `true`) is carried
over unchanged, and so is every numeric `duration` and `uploaded_at`. -/
theorem parse_defaults (js : Engine) (text : String) (fields : Obj)
    (hparse : js.JSONparse text = some (.obj fields))
    (htype : fields.lookup "type" = some (.str MESSAGE_TYPE)) :
    ∃ r, parseMetadataMessage js text = some r ∧
      r.lookup "id" = some (.str (toStr (fields.lookup "video_msg_id"))) ∧
      (fields.lookup "video_msg_id" = some (.num 42) → r.lookup "id" = some (.str "42")) ∧
      (fields.lookup "description" = none → r.lookup "description" = some (.str "")) ∧
      (fields.lookup "thumb_file_id" = none → r.lookup "thumb_file_id" = some (.str "")) ∧
      (fields.lookup "duration" = none → r.lookup "duration" = some (.num 0)) ∧
      (fields.lookup "uploaded_at" = none → r.lookup "uploaded_at" = some (.num 0)) ∧
      (∀ key ∈ ["title", "description", "file_id", "thumb_file_id", "duration", "uploaded_at"],
        ∀ v, fields.lookup key = some v → truthy (some v) = true → r.lookup key = some v) ∧
      (∀ key ∈ ["duration", "uploaded_at"],
        ∀ n, fields.lookup key = some (.num n) → r.lookup key = some (.num n)) := by
  have hstrict : strictEq (some (JVal.str MESSAGE_TYPE)) (some (.str MESSAGE_TYPE)) = true := by
    simp [strictEq]
  refine ⟨[("id", .str (toStr (fields.lookup "video_msg_id"))),
      ("title", jsOr (fields.lookup "title") (.str "Untitled")),
      ("description", jsOr (fields.lookup "description") (.str "")),
      ("file_id", jsOr (fields.lookup "file_id") (.str "")),
      ("thumb_file_id", jsOr (fields.lookup "thumb_file_id") (.str "")),
      ("duration", jsOr (fields.lookup "duration") (.num 0)),
      ("uploaded_at", jsOr (fields.lookup "uploaded_at") (.num 0))],
    ?_, ?_, ?_, ?_, ?_, ?_, ?_, ?_, ?_⟩
  · simp only [parseMetadataMessage, parseMetadataMessageBody, hparse, getProp, htype, hstrict,
      bind, Except.bind, pure, Except.pure]
    rfl
  · simp [List.lookup]
  · intro h
    simp [List.lookup, h, toStr, jsString]
    decide
  · intro h
    simp [List.lookup, h, jsOr]
  · intro h
    simp [List.lookup, h, jsOr]
  · intro h
    simp [List.lookup, h, jsOr]
  · intro h
    simp [List.lookup, h, jsOr]
  · intro key hkey v hv ht
    simp only [List.mem_cons, List.mem_singleton, List.not_mem_nil, or_false] at hkey
    rcases hkey with rfl | rfl | rfl | rfl | rfl | rfl <;>
      simp [List.lookup, hv, jsOr, ht]
  · intro key hkey n hn
    simp only [List.mem_cons, List.mem_singleton, List.not_mem_nil, or_false] at hkey
    by_cases h0 : n = 0
    · subst h0
      rcases hkey with rfl | rfl <;> simp [List.lookup, hn, jsOr, truthy]
    · rcases hkey with rfl | rfl <;> simp [List.lookup, hn, jsOr, truthy, h0]

/-- Claim C17 on a message that carries only its type and the message id. -/
theorem parse_defaults_witness :
    ∃ r, parseMetadataMessage sparseEngine sparseText = some r ∧
      r.lookup "id" = some (.str "42") ∧
      r.lookup "description" = some (.str "") ∧
      r.lookup "thumb_file_id" = some (.str "") ∧
      r.lookup "duration" = some (.num 0) ∧
      r.lookup "uploaded_at" = some (.num 0) := by
  obtain ⟨r, h0, _, h1, h2, h3, h4, h5, _, _⟩ := parse_defaults sparseEngine sparseText
    [("type", .str "video_meta"), ("video_msg_id", .num 42)] (by decide) (by decide)
  exact ⟨r, h0, h1 (by decide), h2 (by decide), h3 (by decide), h4 (by decide),
    h5 (by decide)⟩

/-! ## The order of the reconciled catalog (C20) -/

/-- Insertion depends on the relation only through the elements at hand. -/
theorem orderedInsert_congr {α : Type} (r r' : α → α → Prop) [DecidableRel r] [DecidableRel r']
    (a : α) (l : List α) (h : ∀ b ∈ l, (r a b ↔ r' a b)) :
    List.orderedInsert r a l = List.orderedInsert r' a l := by
  induction l with
  | nil => rfl
  | cons b rest ih =>
    have hb := h b (List.mem_cons_self _ _)
    have ih' := ih (fun c hc => h c (List.mem_cons_of_mem _ hc))
    simp only [List.orderedInsert]
    by_cases hr : r a b
    · rw [if_pos hr, if_pos (hb.1 hr)]
    · rw [if_neg hr, if_neg (fun h' => hr (hb.2 h')), ih']

/-- The sort depends on the relation only through the elements of the list. -/
theorem insertionSort_congr {α : Type} (r r' : α → α → Prop) [DecidableRel r] [DecidableRel r']
    (l : List α) (h : ∀ a ∈ l, ∀ b ∈ l, (r a b ↔ r' a b)) :
    List.insertionSort r l = List.insertionSort r' l := by
  induction l with
  | nil => rfl
  | cons a rest ih =>
    have ih' := ih (fun x hx y hy => h x (List.mem_cons_of_mem _ hx) y (List.mem_cons_of_mem _ hy))
    simp only [List.insertionSort, ih']
    apply orderedInsert_congr
    intro b hb
    exact h a (List.mem_cons_self _ _) b
      (List.mem_cons_of_mem _ ((List.mem_insertionSort r').1 hb))

/-- On values with numeric `uploaded_at` the sort orders them, newest first. -/
theorem jsSort_sorted (js : Engine) (l : List JVal)
    (hnum : ∀ v ∈ l, ∃ n, uploadedAt js v = some n) :
    (jsSort (compareUploaded js) l).Pairwise
      (fun a b => ∃ x y, uploadedAt js a = some x ∧ uploadedAt js b = some y ∧ y ≤ x) := by
  let key : JVal → Int := fun v => (uploadedAt js v).getD 0
  let r' : JVal → JVal → Prop := fun a b => key b ≤ key a
  haveI : DecidableRel r' := fun a b => inferInstanceAs (Decidable (key b ≤ key a))
  haveI : IsTotal JVal r' := ⟨fun a b => le_total (key b) (key a)⟩
  haveI : IsTrans JVal r' := ⟨fun a b c h1 h2 => le_trans h2 h1⟩
  have hcongr : jsSort (compareUploaded js) l = List.insertionSort r' l := by
    unfold jsSort
    apply insertionSort_congr
    intro a ha b hb
    obtain ⟨x, hx⟩ := hnum a ha
    obtain ⟨y, hy⟩ := hnum b hb
    simp only [compareUploaded, hx, hy, r', key, Option.getD_some]
    constructor <;> intro h <;> omega
  rw [hcongr]
  have hs : List.Sorted r' (List.insertionSort r' l) := List.sorted_insertionSort r' l
  refine List.Pairwise.imp_of_mem ?_ hs
  intro a b ha hb hab
  obtain ⟨x, hx⟩ := hnum a ((List.mem_insertionSort r').1 ha)
  obtain ⟨y, hy⟩ := hnum b ((List.mem_insertionSort r').1 hb)
  refine ⟨x, y, hx, hy, ?_⟩
  simpa [r', key, hx, hy] using hab

/-- Every entry of the map after the loop was there before or comes from the list. -/
theorem setAll_values (l : List JVal) :
    ∀ m m' : VideoMap, setAll m l = .ok m' → ∀ e ∈ m', e ∈ m ∨ e.2 ∈ l := by
  induction l with
  | nil =>
    intro m m' h e he
    simp only [setAll, Except.ok.injEq] at h
    subst h
    exact Or.inl he
  | cons v rest ih =>
    intro m m' h e he
    simp only [setAll] at h
    cases hg : getProp (some v) "id" with
    | error err => rw [hg] at h; cases h
    | ok id =>
      rw [hg] at h
      rcases ih _ _ h e he with h1 | h1
      · rcases mem_mapSet h1 with h2 | h2
        · exact Or.inl h2
        · right
          rw [h2]
          exact List.mem_cons_self _ _
      · exact Or.inr (List.mem_cons_of_mem _ h1)

/-- Claim C20.  When every record of the existing catalog and every decoded record has an
integer `uploaded_at`, the catalog that the reconciler writes is a permutation of the merged
and filtered records (the values of the map that outlive the removal of `demo` and the
`file_id` filter), and it is ordered by `uploaded_at`, non-increasing. -/
theorem sync_sorted_permutation (js : Engine) (env : Env) (answer : Except Thrown JVal) (updates : Option JVal)
    (recs msgs : List Obj)
    (hbot : truthy (env.BOT_TOKEN.map JVal.str) = true)
    (hchan : truthy (env.CHANNEL_ID.map JVal.str) = true)
    (hfetch : fetchUpdates answer = .ok updates)
    (hdec : decodeUpdates js updates = .ok msgs) (hne : msgs ≠ [])
    (hrecs : ∀ r ∈ recs, ∃ n, r.lookup "uploaded_at" = some (.num n))
    (hmsgs : ∀ r ∈ msgs, ∃ n, r.lookup "uploaded_at" = some (.num n)) :
    ∃ final m1 m2, syncMain js env answer (.holds (.arr (recs.map JVal.obj)))
        = ⟨.holds (.arr final), 0⟩ ∧
      setAll [] (recs.map JVal.obj) = .ok m1 ∧ setAll m1 (msgs.map JVal.obj) = .ok m2 ∧
      final.Perm (survivors js m2) ∧
      final.Pairwise
        (fun a b => ∃ x y, uploadedAt js a = some x ∧ uploadedAt js b = some y ∧ y ≤ x) := by
  obtain ⟨m1, h1⟩ := setAll_objs recs []
  obtain ⟨m2, h2⟩ := setAll_objs msgs m1
  have hmerge := @mergeVideos_of js _ _ _ _ h1 h2
  have hlen : (msgs.length == 0) = false := by
    cases msgs with
    | nil => exact absurd rfl hne
    | cons a l => rfl
  refine ⟨jsSort (compareUploaded js) (survivors js m2), m1, m2, ?_, h1, h2,
    jsSort_perm js _, ?_⟩
  · simp [syncMain, hbot, hchan, syncBody_eq, hfetch, hdec, hlen, loadExisting, readJSON,
      getProp, bind, Except.bind, pure, Except.pure, hmerge]
  · apply jsSort_sorted
    intro v hv
    obtain ⟨k, hk, _, _⟩ := mem_survivors.1 hv
    have hsrc : v ∈ recs.map JVal.obj ∨ v ∈ msgs.map JVal.obj := by
      rcases setAll_values _ _ _ h2 _ hk with h | h
      · rcases setAll_values _ _ _ h1 _ h with h' | h'
        · cases h'
        · exact Or.inl h'
      · exact Or.inr h
    have hobj : ∃ r : Obj, v = .obj r ∧ ∃ n, r.lookup "uploaded_at" = some (.num n) := by
      rcases hsrc with h | h
      · obtain ⟨r, hr, rfl⟩ := List.mem_map.1 h
        exact ⟨r, rfl, hrecs r hr⟩
      · obtain ⟨r, hr, rfl⟩ := List.mem_map.1 h
        exact ⟨r, rfl, hmsgs r hr⟩
    obtain ⟨r, rfl, n, hn⟩ := hobj
    exact ⟨n, by simp [uploadedAt, getProp, hn, toNumber]⟩

/-- Claim C20 on the sample catalog and event. -/
theorem sync_sorted_permutation_witness :
    ∃ final m1 m2, syncMain sampleEngine sampleEnv (.ok sampleAnswer)
        (.holds (.arr (sampleCatalog.map JVal.obj))) = ⟨.holds (.arr final), 0⟩ ∧
      setAll [] (sampleCatalog.map JVal.obj) = .ok m1 ∧
      setAll m1 ([sampleEvent].map JVal.obj) = .ok m2 ∧
      final.Perm (survivors sampleEngine m2) ∧
      final.Pairwise (fun a b => ∃ x y, uploadedAt sampleEngine a = some x ∧
        uploadedAt sampleEngine b = some y ∧ y ≤ x) :=
  sync_sorted_permutation sampleEngine sampleEnv (.ok sampleAnswer) (some sampleUpdates) sampleCatalog
    [sampleEvent] (by decide) (by decide) rfl rfl (by simp)
    (by
      intro r hr
      simp only [sampleCatalog, List.mem_cons, List.mem_singleton, List.not_mem_nil,
        or_false] at hr
      rcases hr with rfl | rfl | rfl <;> exact ⟨_, rfl⟩)
    (by
      intro r hr
      simp only [List.mem_singleton] at hr
      subst hr
      exact ⟨_, rfl⟩)

/-! ## The invariants of the written catalog (C21, C22, C23) -/

/-- A value passes the `file_id` test only if it is an object with a `file_id` that is
neither missing nor empty. -/
theorem hasFileId_true {js : Engine} {v : JVal} (h : okTrue (hasFileId js v) = true) :
    ∃ r, v = .obj r ∧ r.lookup "file_id" ≠ none ∧ r.lookup "file_id" ≠ some (.str "") := by
  cases v with
  | obj r =>
    refine ⟨r, rfl, ?_, ?_⟩
    · intro hn
      simp [hasFileId, getProp, hn, truthy, okTrue, bind, Except.bind, pure, Except.pure] at h
    · intro hn
      simp [hasFileId, getProp, hn, truthy, okTrue, bind, Except.bind, pure, Except.pure] at h
  | null => simp [hasFileId, getProp, okTrue, bind, Except.bind] at h
  | bool b => simp [hasFileId, getProp, truthy, okTrue, bind, Except.bind, pure, Except.pure] at h
  | num n => simp [hasFileId, getProp, truthy, okTrue, bind, Except.bind, pure, Except.pure] at h
  | str s => simp [hasFileId, getProp, truthy, okTrue, bind, Except.bind, pure, Except.pure] at h
  | arr items =>
    simp [hasFileId, getProp, truthy, okTrue, bind, Except.bind, pure, Except.pure] at h

/-- A run of the reconciler that exits with code 0 ran its `try` block to the end. -/
theorem syncMain_ok {js : Engine} {env : Env} {answer : Except Thrown JVal}
    {file : FileState} (h : (syncMain js env answer file).exitCode = 0) :
    syncBody js answer file = .ok (syncMain js env answer file).file := by
  unfold syncMain at h ⊢
  split at h
  · cases h
  split at h
  · cases h
  rename_i h1 h2
  rw [if_neg h1, if_neg h2]
  cases hb : syncBody js answer file with
  | error e => rw [hb] at h; cases h
  | ok file' => rfl

/-- What the `try` block of the reconciler writes when it decoded at least one event. -/
theorem syncBody_events {js : Engine} {answer : Except Thrown JVal} {file file' : FileState}
    {updates : Option JVal} {msgs : List Obj}
    (hfetch : fetchUpdates answer = .ok updates) (hdec : decodeUpdates js updates = .ok msgs)
    (hne : msgs ≠ []) (h : syncBody js answer file = .ok file') :
    ∃ items m1 m2, loadExisting file = .ok (.arr items) ∧
      setAll [] items = .ok m1 ∧ setAll m1 (msgs.map JVal.obj) = .ok m2 ∧
      file' = .holds (.arr (jsSort (compareUploaded js) (survivors js m2))) := by
  have hlen : (msgs.length == 0) = false := by
    cases msgs with
    | nil => exact absurd rfl hne
    | cons a l => rfl
  rw [syncBody_eq, hfetch] at h
  simp only [hdec, hlen] at h
  cases hl : loadExisting file with
  | error e => rw [hl] at h; simp at h
  | ok existing =>
    rw [hl] at h
    simp only [Bool.false_eq_true, if_false] at h
    cases hm : mergeVideos js existing msgs with
    | error e => rw [hm] at h; cases h
    | ok F =>
      rw [hm] at h
      simp only [Except.ok.injEq] at h
      obtain ⟨items, rfl⟩ := mergeVideos_isArr hm
      obtain ⟨m1, m2, h1, h2, _, hF⟩ := mergeVideos_ok hm
      exact ⟨items, m1, m2, rfl, h1, h2, by rw [← h, hF]⟩

/-- Without a decoded event the `try` block leaves the file as it is. -/
theorem syncBody_quiet {js : Engine} {answer : Except Thrown JVal} {file file' : FileState}
    {updates : Option JVal}
    (hfetch : fetchUpdates answer = .ok updates) (hdec : decodeUpdates js updates = .ok [])
    (h : syncBody js answer file = .ok file') : file' = file := by
  rw [syncBody_eq, hfetch] at h
  simp only [hdec] at h
  cases hr : reportCurrent file with
  | error e => rw [hr] at h; simp at h
  | ok u =>
    rw [hr] at h
    simpa using h.symm

/-- Claim C21 fails on a stream with no catalog event: the reconciler completes with exit
code 0 and writes nothing, so a catalog with a record `demo` and a record with an empty
`file_id` is left as it was. -/
theorem sync_quiet_run_keeps_invisible :
    syncMain sampleEngine sampleEnv (.ok quietAnswer)
        (.holds (.arr [.obj demoRecord, .obj emptyHandleRecord]))
      = ⟨.holds (.arr [.obj demoRecord, .obj emptyHandleRecord]), 0⟩ ∧
    demoRecord.lookup "id" = some (.str "demo") ∧
    emptyHandleRecord.lookup "file_id" = some (.str "") := by
  refine ⟨by rfl, by decide, by decide⟩

/-- Claim C21, amended.  For every state of the catalog file and every fetched stream, after
a run of the reconciler that completes without error: when at least one catalog event was
decoded, the persisted catalog is a list of records none of which has the id `demo` and none
of which has a missing or empty `file_id`; when no catalog event was decoded, the catalog
file is left as it was. -/
theorem sync_written_catalog_visible (js : Engine) (env : Env) (answer : Except Thrown JVal) (file : FileState)
    (updates : Option JVal) (msgs : List Obj)
    (hfetch : fetchUpdates answer = .ok updates) (hdec : decodeUpdates js updates = .ok msgs)
    (hrun : (syncMain js env answer file).exitCode = 0) :
    (msgs ≠ [] →
      ∃ final, (syncMain js env answer file).file = .holds (.arr final) ∧
        ∀ v ∈ final, ∃ r, v = .obj r ∧ r.lookup "id" ≠ some (.str "demo") ∧
          r.lookup "file_id" ≠ none ∧ r.lookup "file_id" ≠ some (.str "")) ∧
    (msgs = [] → (syncMain js env answer file).file = file) := by
  have hbody := syncMain_ok hrun
  constructor
  · intro hne
    obtain ⟨items, m1, m2, _, h1, h2, hfile⟩ := syncBody_events hfetch hdec hne hbody
    refine ⟨_, hfile, ?_⟩
    intro v hv
    have hv' : v ∈ survivors js m2 := (jsSort_perm js _).mem_iff.1 hv
    obtain ⟨k, hk, hdemo, hgood⟩ := mem_survivors.1 hv'
    obtain ⟨r, rfl, hf1, hf2⟩ := hasFileId_true hgood
    obtain ⟨_, hk1⟩ := setAll_invariants _ _ _ h1 List.Pairwise.nil (by intro e he; cases he)
    have hd1 := (setAll_invariants _ _ _ h1 List.Pairwise.nil (by intro e he; cases he)).1
    obtain ⟨_, hk2⟩ := setAll_invariants _ _ _ h2 hd1 hk1
    have hkey := hk2 _ hk
    simp only [getProp, Except.ok.injEq] at hkey
    refine ⟨r, rfl, ?_, hf1, hf2⟩
    intro hid
    rw [← hkey, hid] at hdemo
    simp [strictEq] at hdemo
  · intro hnil
    subst hnil
    exact syncBody_quiet hfetch hdec hbody

/-- Claim C21, amended, on the sample catalog and event. -/
theorem sync_written_catalog_visible_witness :
    ∃ final, (syncMain sampleEngine sampleEnv (.ok sampleAnswer)
        (.holds (.arr (sampleCatalog.map JVal.obj)))).file = .holds (.arr final) ∧
      ∀ v ∈ final, ∃ r, v = .obj r ∧ r.lookup "id" ≠ some (.str "demo") ∧
        r.lookup "file_id" ≠ none ∧ r.lookup "file_id" ≠ some (.str "") :=
  (sync_written_catalog_visible sampleEngine sampleEnv (.ok sampleAnswer) (.holds (.arr (sampleCatalog.map JVal.obj)))
    (some sampleUpdates) [sampleEvent] rfl rfl (by rfl)).1 (by simp)

/-- A primitive is strictly equal to itself. -/
theorem strictEq_self {k : Option JVal} (h : isPrimitive k = true) : strictEq k k = true := by
  cases k with
  | none => rfl
  | some v => cases v <;> simp [strictEq, isPrimitive] at h ⊢

/-- The file that `loadExisting` read as an array. -/
theorem loadExisting_arr {file : FileState} {items : List JVal}
    (h : loadExisting file = .ok (.arr items)) :
    (file = .absent ∧ items = []) ∨ file = .holds (.arr items) := by
  cases file with
  | absent =>
    simp only [loadExisting, pure, Except.pure, Except.ok.injEq, JVal.arr.injEq] at h
    exact Or.inl ⟨rfl, h.symm⟩
  | corrupt => simp [loadExisting, readJSON, bind, Except.bind] at h
  | holds v =>
    right
    simp only [loadExisting, readJSON, bind, Except.bind, pure, Except.pure] at h
    cases hg : getProp (some v) "length" with
    | error e => rw [hg] at h; cases h
    | ok x =>
      rw [hg] at h
      simp only [Except.ok.injEq] at h
      rw [h]

/-- The values of a map with distinct keys have ids that are pairwise not `===`. -/
theorem distinct_values {m : VideoMap} (hd : DistinctKeys m) (hk : KeyVal m) :
    (m.map Prod.snd).Pairwise (fun a b => strictEq (keyOf a) (keyOf b) = false) := by
  rw [List.pairwise_map]
  refine List.Pairwise.imp_of_mem ?_ hd
  intro a b ha hb hab
  rw [keyOf_of_getProp (hk a ha), keyOf_of_getProp (hk b hb)]
  exact hab

/-- The surviving values are values of the map, in the order of the map. -/
theorem survivors_sublist (js : Engine) (m : VideoMap) :
    List.Sublist (survivors js m) (m.map Prod.snd) := by
  unfold survivors mapDelete
  exact (List.filter_sublist _).trans ((List.filter_sublist _).map _)

/-- The written catalog of a run that decoded events: its ids are pairwise not `===`. -/
theorem sorted_survivors_distinct (js : Engine) {m : VideoMap} (hd : DistinctKeys m)
    (hk : KeyVal m) :
    (jsSort (compareUploaded js) (survivors js m)).Pairwise
      (fun a b => strictEq (keyOf a) (keyOf b) = false) := by
  have h1 := (distinct_values hd hk).sublist (survivors_sublist js m)
  refine ((jsSort_perm js _).pairwise_iff ?_).2 h1
  intro a b hab
  rw [strictEq_comm]
  exact hab

/-- The filter of `updateLocalDB` does not throw on an object. -/
theorem isValidEntry_obj (js : Engine) (r : Obj) : ∃ b, isValidEntry js (.obj r) = .ok b := by
  obtain ⟨b, hb⟩ := hasFileId_ok js (.obj r) (r.lookup "id") rfl
  by_cases hdemo : (r.lookup "id" != some (.str "demo")) = true
  · exact ⟨b, by simp [isValidEntry, notDemo_obj, hdemo, hb, bind, Except.bind]⟩
  · refine ⟨false, ?_⟩
    have : (r.lookup "id" != some (.str "demo")) = false := by simpa using hdemo
    simp [isValidEntry, notDemo_obj, this, bind, Except.bind, pure, Except.pure]

/-- The function `updateLocalDB` on a catalog of objects. -/
theorem updateLocalDB_objs (js : Engine) (recs : List Obj) (r : Obj) (i : String)
    (hid : r.lookup "id" = some (.str i)) :
    updateLocalDB js (.holds (.arr (recs.map JVal.obj))) r
      = .ok (.holds (.arr ((upsertInto i r
          (recs.filter (fun v => okTrue (isValidEntry js (.obj v))))).map JVal.obj))) := by
  have hf : filterE (isValidEntry js) (recs.map JVal.obj)
      = .ok ((recs.filter (fun v => okTrue (isValidEntry js (.obj v)))).map JVal.obj) := by
    rw [filterE_total, List.filter_map]
    · rfl
    · intro x hx
      obtain ⟨v, _, rfl⟩ := List.mem_map.1 hx
      exact isValidEntry_obj js v
  simp [updateLocalDB, readJSON, asArray, hf, getProp, hid, replaceOrPush_objs, bind,
    Except.bind, pure, Except.pure]

/-- The ids after an upsert are the ids before it and the id of the new record. -/
theorem upsertInto_ids (i : String) (r : Obj) (hid : r.lookup "id" = some (.str i))
    (l : List Obj) :
    ∀ k ∈ (upsertInto i r l).map (fun v => v.lookup "id"),
      k = some (.str i) ∨ k ∈ l.map (fun v => v.lookup "id") := by
  induction l with
  | nil =>
    intro k hk
    simp only [upsertInto, List.map_cons, List.map_nil, List.mem_singleton] at hk
    exact Or.inl (hk.trans hid)
  | cons v rest ih =>
    intro k hk
    simp only [upsertInto] at hk
    split at hk
    · rename_i hv
      simp only [List.map_cons, List.mem_cons] at hk ⊢
      rcases hk with hk | hk
      · exact Or.inl (hk.trans hid)
      · exact Or.inr (Or.inr hk)
    · simp only [List.map_cons, List.mem_cons] at hk ⊢
      rcases hk with hk | hk
      · exact Or.inr (Or.inl hk)
      · rcases ih k hk with h | h
        · exact Or.inl h
        · exact Or.inr (Or.inr h)

/-- An upsert into records with distinct ids leaves distinct ids. -/
theorem upsertInto_nodup (i : String) (r : Obj) (hid : r.lookup "id" = some (.str i))
    (l : List Obj) (hd : (l.map (fun v => v.lookup "id")).Nodup) :
    ((upsertInto i r l).map (fun v => v.lookup "id")).Nodup := by
  induction l with
  | nil => simp [upsertInto]
  | cons v rest ih =>
    simp only [List.map_cons, List.nodup_cons] at hd
    simp only [upsertInto]
    split
    · rename_i hv
      simp only [List.map_cons, List.nodup_cons]
      rw [hid, ← hv]
      exact hd
    · rename_i hv
      simp only [List.map_cons, List.nodup_cons]
      refine ⟨?_, ih hd.2⟩
      intro hmem
      rcases upsertInto_ids i r hid rest _ hmem with h | h
      · exact hv h
      · exact hd.1 h

/-- Claim C22.  Every catalog written by the reconciler has ids that are pairwise not `===`,
whatever the state of the catalog file and the events, and pairwise distinct as values when
no loaded record has an array or an object as id; every catalog written by `updateLocalDB`
has pairwise distinct ids provided the loaded catalog had pairwise distinct ids (the new
record has a string id, as `main` builds it), and on a missing file it holds the new record
alone. -/
theorem catalog_ids_distinct (js : Engine) :
    (∀ (env : Env) (answer : Except Thrown JVal) (file : FileState) (updates : Option JVal)
        (msgs : List Obj),
      fetchUpdates answer = .ok updates → decodeUpdates js updates = .ok msgs → msgs ≠ [] →
      (syncMain js env answer file).exitCode = 0 →
      ∃ final, (syncMain js env answer file).file = .holds (.arr final) ∧
        final.Pairwise (fun a b => strictEq (keyOf a) (keyOf b) = false) ∧
        ((∀ items, file = .holds (.arr items) → ∀ v ∈ items, isPrimitive (keyOf v) = true) →
          (final.map keyOf).Nodup)) ∧
    (∀ (recs : List Obj) (r : Obj) (i : String),
      (recs.map (fun v => v.lookup "id")).Nodup → r.lookup "id" = some (.str i) →
      ∃ result : List Obj,
        updateLocalDB js (.holds (.arr (recs.map JVal.obj))) r
          = .ok (.holds (.arr (result.map JVal.obj))) ∧
        (result.map (fun v => v.lookup "id")).Nodup) ∧
    (∀ r : Obj, updateLocalDB js .absent r = .ok (.holds (.arr [.obj r]))) := by
  refine ⟨?_, ?_, ?_⟩
  · intro env answer file updates msgs hfetch hdec hne hrun
    obtain ⟨items, m1, m2, hload, h1, h2, hfile⟩ :=
      syncBody_events hfetch hdec hne (syncMain_ok hrun)
    obtain ⟨hd1, hk1⟩ := setAll_invariants _ _ _ h1 List.Pairwise.nil (by intro e he; cases he)
    obtain ⟨hd2, hk2⟩ := setAll_invariants _ _ _ h2 hd1 hk1
    have hpair := sorted_survivors_distinct js hd2 hk2
    refine ⟨_, hfile, hpair, ?_⟩
    intro hprim
    rw [List.Nodup, List.pairwise_map]
    refine List.Pairwise.imp_of_mem ?_ hpair
    intro a b ha _ hab heq
    have ha' : a ∈ survivors js m2 := (jsSort_perm js _).mem_iff.1 ha
    obtain ⟨k, hk, _, _⟩ := mem_survivors.1 ha'
    have hsrc : a ∈ items ∨ a ∈ msgs.map JVal.obj := by
      rcases setAll_values _ _ _ h2 _ hk with h | h
      · rcases setAll_values _ _ _ h1 _ h with h' | h'
        · cases h'
        · exact Or.inl h'
      · exact Or.inr h
    have hpa : isPrimitive (keyOf a) = true := by
      rcases hsrc with h | h
      · rcases loadExisting_arr hload with ⟨_, hnil⟩ | hf
        · rw [hnil] at h; cases h
        · exact hprim items hf a h
      · obtain ⟨r, hr, rfl⟩ := List.mem_map.1 h
        obtain ⟨s, hs⟩ := decodeUpdates_id hdec r hr
        simp [keyOf, getProp, hs, isPrimitive]
    rw [← heq, strictEq_self hpa] at hab
    cases hab
  · intro recs r i hd hid
    refine ⟨_, updateLocalDB_objs js recs r i hid, upsertInto_nodup i r hid _ ?_⟩
    exact hd.sublist ((List.filter_sublist _).map _)
  · intro r
    cases hr : r.lookup "id" <;>
      simp [updateLocalDB, asArray, filterE, getProp, hr, replaceOrPush, bind, Except.bind,
        pure, Except.pure]

/-- Claim C22 on the sample catalog, for the reconciler and for the producer. -/
theorem catalog_ids_distinct_witness :
    (∃ final, (syncMain sampleEngine sampleEnv (.ok sampleAnswer)
        (.holds (.arr (sampleCatalog.map JVal.obj)))).file = .holds (.arr final) ∧
      (final.map keyOf).Nodup) ∧
    ∃ result : List Obj,
      updateLocalDB sampleEngine (.holds (.arr (sampleCatalog.map JVal.obj))) newRecord
        = .ok (.holds (.arr (result.map JVal.obj))) ∧
      (result.map (fun v => v.lookup "id")).Nodup := by
  obtain ⟨final, h1, _, h3⟩ := (catalog_ids_distinct sampleEngine).1 sampleEnv (.ok sampleAnswer)
    (.holds (.arr (sampleCatalog.map JVal.obj))) (some sampleUpdates) [sampleEvent] rfl rfl
    (by simp) (by rfl)
  refine ⟨⟨final, h1, h3 ?_⟩, (catalog_ids_distinct sampleEngine).2.1 sampleCatalog newRecord "43" (by decide)
    (by decide)⟩
  intro items hitems v hv
  simp only [FileState.holds.injEq, JVal.arr.injEq] at hitems
  subst hitems
  simp only [sampleCatalog, List.map_cons, List.map_nil, List.mem_cons, List.mem_singleton,
    List.not_mem_nil, or_false] at hv
  rcases hv with rfl | rfl | rfl <;> decide

/-- The loop over a concatenation. -/
theorem setAll_append (a b : List JVal) :
    ∀ m : VideoMap, setAll m (a ++ b) =
      match setAll m a with
      | .error e => .error e
      | .ok m1 => setAll m1 b := by
  induction a with
  | nil => intro m; rfl
  | cons v rest ih =>
    intro m
    simp only [List.cons_append, setAll]
    cases getProp (some v) "id" with
    | error e => rfl
    | ok id => exact ih _

/-- A record of the list with the key `k` gives the list a last record with that key. -/
theorem lastWith_of_mem {k : Option JVal} {E : List Obj} {r : Obj} (hr : r ∈ E)
    (hk : strictEq (r.lookup "id") k = true) : ∃ y, lastWith k E = some (.obj y) := by
  induction E with
  | nil => cases hr
  | cons r0 rest ih =>
    simp only [lastWith]
    cases hl : lastWith k rest with
    | some x =>
      obtain ⟨y, _, hy, _⟩ := lastWith_some hl
      exact ⟨y, by simp [hy]⟩
    | none =>
      rcases List.mem_cons.1 hr with rfl | hr'
      · exact ⟨r, by simp [hk]⟩
      · obtain ⟨y, hy⟩ := ih hr'
        rw [hl] at hy
        cases hy

/-- Every record after an upsert is the new record or was there before. -/
theorem upsertInto_mem (i : String) (r : Obj) (l : List Obj) :
    ∀ w ∈ upsertInto i r l, w = r ∨ w ∈ l := by
  induction l with
  | nil =>
    intro w hw
    simp only [upsertInto, List.mem_singleton] at hw
    exact Or.inl hw
  | cons v rest ih =>
    intro w hw
    simp only [upsertInto] at hw
    split at hw
    · rcases List.mem_cons.1 hw with h | h
      · exact Or.inl h
      · exact Or.inr (List.mem_cons_of_mem _ h)
    · rcases List.mem_cons.1 hw with h | h
      · exact Or.inr (h ▸ List.mem_cons_self _ _)
      · rcases ih w h with h' | h'
        · exact Or.inl h'
        · exact Or.inr (List.mem_cons_of_mem _ h')

/-- An upsert keeps every record with another id. -/
theorem upsertInto_keeps (i : String) (r : Obj) (l : List Obj) :
    ∀ v ∈ l, v.lookup "id" ≠ some (.str i) → v ∈ upsertInto i r l := by
  induction l with
  | nil => intro v hv; cases hv
  | cons v0 rest ih =>
    intro v hv hne
    simp only [upsertInto]
    rcases List.mem_cons.1 hv with rfl | hv'
    · rw [if_neg hne]
      exact List.mem_cons_self _ _
    · split
      · exact List.mem_cons_of_mem _ hv'
      · exact List.mem_cons_of_mem _ (ih v hv' hne)

/-- The new record is in the list after the upsert. -/
theorem upsertInto_new (i : String) (r : Obj) (l : List Obj) : r ∈ upsertInto i r l := by
  induction l with
  | nil => simp [upsertInto]
  | cons v rest ih =>
    simp only [upsertInto]
    split
    · exact List.mem_cons_self _ _
    · exact List.mem_cons_of_mem _ ih

/-- The reconciler on a catalog of records with string ids: the map it builds holds, for
every id, the last record observed with that id. -/
theorem sync_last_records (js : Engine) (env : Env) (answer : Except Thrown JVal)
    (updates : Option JVal) (recs msgs : List Obj)
    (hbot : truthy (env.BOT_TOKEN.map JVal.str) = true)
    (hchan : truthy (env.CHANNEL_ID.map JVal.str) = true)
    (hfetch : fetchUpdates answer = .ok updates)
    (hdec : decodeUpdates js updates = .ok msgs) (hne : msgs ≠ [])
    (hrecs : ∀ v ∈ recs, ∃ s, v.lookup "id" = some (.str s)) :
    ∃ m : VideoMap, syncMain js env answer (.holds (.arr (recs.map JVal.obj)))
        = ⟨.holds (.arr (jsSort (compareUploaded js) (survivors js m))), 0⟩ ∧
      DistinctKeys m ∧ KeyVal m ∧
      (∀ x ∈ m, lastWith x.1 (recs ++ msgs) = some x.2) ∧
      (∀ k y, lastWith k (recs ++ msgs) = some y → (k, y) ∈ m) := by
  have hE : ∀ r ∈ recs ++ msgs, ∃ s, r.lookup "id" = some (.str s) := by
    intro r hr
    rcases List.mem_append.1 hr with h | h
    · exact hrecs r h
    · exact decodeUpdates_id hdec r h
  obtain ⟨X, hX, hval, hcov⟩ := setAll_events (recs ++ msgs) hE [] List.Pairwise.nil
  simp only [List.map_nil, List.nil_append] at hX
  obtain ⟨hd, hk⟩ := setAll_invariants _ _ _ hX List.Pairwise.nil (by intro e he; cases he)
  rw [List.map_append, setAll_append] at hX
  cases h1 : setAll [] (recs.map JVal.obj) with
  | error e => rw [h1] at hX; cases hX
  | ok m1 =>
    rw [h1] at hX
    simp only at hX
    have hmerge := @mergeVideos_of js _ _ _ _ h1 hX
    have hlen : (msgs.length == 0) = false := by
      cases msgs with
      | nil => exact absurd rfl hne
      | cons a l => rfl
    refine ⟨X, ?_, hd, hk, fun x hx => (hval x hx).2, ?_⟩
    · simp [syncMain, hbot, hchan, syncBody_eq, hfetch, hdec, hlen, loadExisting, readJSON,
        getProp, bind, Except.bind, pure, Except.pure, hmerge]
    · intro k y hl
      rcases hcov k y hl with h | h
      · simp [hasKey] at h
      · exact h

/-- Claim C23, the code at the failing input.  The loaded catalog holds the visible record
`42` and the only event is a metadata message for the id `42` without a `file_id`.  The
reconciler exits with code 0 and writes the empty catalog: the id `42` of a visible record is
gone.  The producer, given the decoded record of that event for the same catalog, writes a
catalog that still has a record with the id `42`. -/
theorem sync_drops_overwritten_id :
    syncMain sparseEngine sampleEnv (.ok sparseAnswer) (.holds (.arr [.obj oldRecord]))
      = ⟨.holds (.arr []), 0⟩ ∧
    isVisibleRecord oldRecord = true ∧ oldRecord.lookup "id" = some (.str "42") ∧
    parseMetadata sparseEngine sparseText = some
      [("id", .str "42"), ("title", .str "Untitled"), ("description", .str ""),
       ("file_id", .str ""), ("thumb_file_id", .str ""), ("duration", .num 0),
       ("uploaded_at", .num 0)] ∧
    updateLocalDB sparseEngine (.holds (.arr [.obj oldRecord]))
        [("id", .str "42"), ("title", .str "Untitled"), ("description", .str ""),
         ("file_id", .str ""), ("thumb_file_id", .str ""), ("duration", .num 0),
         ("uploaded_at", .num 0)]
      = .ok (.holds (.arr [.obj [("id", .str "42"), ("title", .str "Untitled"),
          ("description", .str ""), ("file_id", .str ""), ("thumb_file_id", .str ""),
          ("duration", .num 0), ("uploaded_at", .num 0)]])) := by
  refine ⟨by rfl, by decide, by decide, by rfl, by rfl⟩

/-- What the two write paths do with the visible records.  Producer: for every catalog of
records with a string or no
`file_id` and every new record with a string id, each id of a visible record of the loaded
catalog is the id of a record of the written catalog, every visible record with another id
than the new record is itself in the written catalog, and every written record is the new
record or a visible record of the loaded catalog.  Reconciler: for every catalog of records
with string ids and every non-empty list of decoded events, every written record is a loaded
record or an event, and for each visible record of the loaded catalog the last record
observed with its id (a loaded record or an event) is in the written catalog when it has a
non-empty `file_id`, while no written record has that id when it has a missing or empty
`file_id`. -/
theorem write_paths_keep_visible_ids (js : Engine) :
    (∀ (recs : List Obj) (r : Obj) (i : String),
      (∀ v ∈ recs, v.lookup "file_id" = none ∨ ∃ s, v.lookup "file_id" = some (.str s)) →
      r.lookup "id" = some (.str i) →
      ∃ result : List Obj,
        updateLocalDB js (.holds (.arr (recs.map JVal.obj))) r
          = .ok (.holds (.arr (result.map JVal.obj))) ∧
        (∀ v ∈ recs, isVisibleRecord v = true →
          ∃ w ∈ result, w.lookup "id" = v.lookup "id") ∧
        (∀ v ∈ recs, isVisibleRecord v = true → v.lookup "id" ≠ some (.str i) → v ∈ result) ∧
        (∀ w ∈ result, w = r ∨ (w ∈ recs ∧ isVisibleRecord w = true))) ∧
    (∀ (env : Env) (answer : Except Thrown JVal) (updates : Option JVal)
        (recs msgs : List Obj),
      truthy (env.BOT_TOKEN.map JVal.str) = true → truthy (env.CHANNEL_ID.map JVal.str) = true →
      fetchUpdates answer = .ok updates → decodeUpdates js updates = .ok msgs → msgs ≠ [] →
      (∀ v ∈ recs, ∃ s, v.lookup "id" = some (.str s)) →
      ∃ final, syncMain js env answer (.holds (.arr (recs.map JVal.obj)))
          = ⟨.holds (.arr final), 0⟩ ∧
        (∀ w ∈ final, ∃ y ∈ recs ++ msgs, w = .obj y) ∧
        (∀ v ∈ recs, isVisibleRecord v = true →
          ∃ y, lastWith (v.lookup "id") (recs ++ msgs) = some (.obj y) ∧
            y.lookup "id" = v.lookup "id" ∧
            ((∃ h, y.lookup "file_id" = some (.str h) ∧ h ≠ "") → .obj y ∈ final) ∧
            ((y.lookup "file_id" = none ∨ y.lookup "file_id" = some (.str "")) →
              ∀ w ∈ final, keyOf w ≠ v.lookup "id"))) := by
  constructor
  · intro recs r i htyped hid
    refine ⟨_, updateLocalDB_typed js recs r i htyped hid, ?_, ?_, ?_⟩
    · intro v hv hvis
      by_cases hvi : v.lookup "id" = some (.str i)
      · exact ⟨r, upsertInto_new i r _, hid.trans hvi.symm⟩
      · exact ⟨v, upsertInto_keeps i r _ v (List.mem_filter.2 ⟨hv, hvis⟩) hvi, rfl⟩
    · intro v hv hvis hvi
      exact upsertInto_keeps i r _ v (List.mem_filter.2 ⟨hv, hvis⟩) hvi
    · intro w hw
      rcases upsertInto_mem i r _ w hw with h | h
      · exact Or.inl h
      · exact Or.inr (List.mem_filter.1 h)
  · intro env answer updates recs msgs hbot hchan hfetch hdec hne hrecs
    obtain ⟨m, hrun, hd, hk, hval, hcov⟩ :=
      sync_last_records js env answer updates recs msgs hbot hchan hfetch hdec hne hrecs
    refine ⟨_, hrun, ?_, ?_⟩
    · intro w hw
      have hw' : w ∈ survivors js m := (jsSort_perm js _).mem_iff.1 hw
      obtain ⟨k, hin, _, _⟩ := mem_survivors.1 hw'
      obtain ⟨y, hy, hwy, _⟩ := lastWith_some (hval _ hin)
      exact ⟨y, hy, hwy⟩
    · intro v hv hvis
      obtain ⟨s, hs⟩ := hrecs v hv
      have hself : strictEq (some (JVal.str s)) (some (JVal.str s)) = true := by
        simp [strictEq]
      obtain ⟨y, hy⟩ := @lastWith_of_mem (some (.str s)) (recs ++ msgs) v
        (List.mem_append_left _ hv) (by rw [hs]; exact hself)
      have hyid : y.lookup "id" = some (.str s) := by
        obtain ⟨y', _, hy', hyk⟩ := lastWith_some hy
        cases hy'
        exact (strictEq_str_iff _ _).1 hyk
      have hin := hcov _ _ hy
      have hdemo : strictEq (some (JVal.str s)) (some (JVal.str "demo")) = false := by
        have : s ≠ "demo" := by
          intro h
          rw [h] at hs
          simp [isVisibleRecord, hs] at hvis
        simp [strictEq, this]
      rw [hs]
      refine ⟨y, hy, hyid, ?_, ?_⟩
      · rintro ⟨h, hf, hne'⟩
        apply (jsSort_perm js _).mem_iff.2
        refine mem_survivors.2 ⟨_, hin, hdemo, ?_⟩
        have hb : ((some (JVal.str h) : Option JVal) != none
            && (some (JVal.str h) : Option JVal) != some (JVal.str "")) = true := by
          simp [hne']
        rw [hasFileId_typed js y (Or.inr ⟨h, hf⟩), hf, hb]
        rfl
      · intro hbad w hw hkw
        have hw' : w ∈ survivors js m := (jsSort_perm js _).mem_iff.1 hw
        obtain ⟨k, hkin, _, hgood⟩ := mem_survivors.1 hw'
        have hkk : k = some (.str s) := by
          have := keyOf_of_getProp (hk _ hkin)
          simp only at this
          rw [← this]
          exact hkw
        subst hkk
        have huniq := filter_key_unique m hd _ hin hself
        have hmem : ((some (JVal.str s) : Option JVal), w) ∈
            m.filter (fun e' => strictEq e'.1 (some (JVal.str s))) :=
          List.mem_filter.2 ⟨hkin, hself⟩
        rw [huniq] at hmem
        simp only [List.mem_singleton, Prod.mk.injEq, true_and] at hmem
        subst hmem
        obtain ⟨r', hr', h1, h2⟩ := hasFileId_true hgood
        cases hr'
        rcases hbad with hb | hb
        · exact h1 hb
        · exact h2 hb

/-- The two write paths on the sample catalog. -/
theorem write_paths_keep_visible_ids_witness :
    (∃ result : List Obj,
      updateLocalDB sampleEngine (.holds (.arr (sampleCatalog.map JVal.obj))) newRecord
        = .ok (.holds (.arr (result.map JVal.obj))) ∧
      oldRecord ∈ result) ∧
    ∃ final, syncMain sampleEngine sampleEnv (.ok sampleAnswer)
        (.holds (.arr (sampleCatalog.map JVal.obj))) = ⟨.holds (.arr final), 0⟩ ∧
      JVal.obj sampleEvent ∈ final := by
  constructor
  · obtain ⟨result, h1, _, h3, _⟩ := (write_paths_keep_visible_ids sampleEngine).1 sampleCatalog newRecord "43"
      (by
        intro v hv
        simp only [sampleCatalog, List.mem_cons, List.mem_singleton, List.not_mem_nil,
          or_false] at hv
        rcases hv with rfl | rfl | rfl <;> exact Or.inr ⟨_, rfl⟩)
      (by decide)
    exact ⟨result, h1, h3 oldRecord (by simp [sampleCatalog]) (by decide) (by decide)⟩
  · obtain ⟨final, hrun, _, hvis⟩ := (write_paths_keep_visible_ids sampleEngine).2 sampleEnv (.ok sampleAnswer)
      (some sampleUpdates) sampleCatalog [sampleEvent] (by decide) (by decide) rfl rfl
      (by simp)
      (by
        intro v hv
        simp only [sampleCatalog, List.mem_cons, List.mem_singleton, List.not_mem_nil,
          or_false] at hv
        rcases hv with rfl | rfl | rfl <;> exact ⟨_, rfl⟩)
    obtain ⟨y, hy, _, hgood, _⟩ := hvis oldRecord (by simp [sampleCatalog]) (by decide)
    have hlast : lastWith (oldRecord.lookup "id") (sampleCatalog ++ [sampleEvent])
        = some (.obj sampleEvent) := by decide
    rw [hlast] at hy
    simp only [Option.some.injEq, JVal.obj.injEq] at hy
    subst hy
    exact ⟨final, hrun, hgood ⟨"BAAC", by decide, by decide⟩⟩

/-! ## Noise in the fetched stream and the two decoders (C26, C29) -/

/-- The decoder returns `null` on a foreign text. -/
theorem parseMetadata_foreign {js : Engine} {text : String} (h : isForeignText js text = true) :
    parseMetadata js text = none := by
  unfold isForeignText at h
  unfold parseMetadata
  cases hp : js.JSONparse text with
  | none => rfl
  | some data =>
    rw [hp] at h
    cases data with
    | obj fields =>
      simp only [bne_iff_ne, ne_eq] at h
      have hs : strictEq (fields.lookup "type") (some (.str "video_meta")) = false := by
        rw [Bool.eq_false_iff]
        intro hh
        exact h ((strictEq_str_iff _ _).1 hh)
      simp [getProp, hs, bind, Except.bind, pure, Except.pure]
    | null => simp [getProp, bind, Except.bind]
    | bool b => simp [getProp, strictEq, bind, Except.bind, pure, Except.pure]
    | num n => simp [getProp, strictEq, bind, Except.bind, pure, Except.pure]
    | str s => simp [getProp, strictEq, bind, Except.bind, pure, Except.pure]
    | arr items => simp [getProp, strictEq, bind, Except.bind, pure, Except.pure]

/-- A noise entry is dropped by the first filter, or passes it and is decoded to `null`. -/
theorem noise_dropped {js : Engine} {u : JVal} (h : isNoise js u = true) :
    hasChannelText u = .ok false ∨
      (hasChannelText u = .ok true ∧ decodeUpdate js u = .ok none) := by
  cases u with
  | null => simp [isNoise] at h
  | bool b => left; simp [hasChannelText, getProp, truthy, bind, Except.bind, pure, Except.pure]
  | num n => left; simp [hasChannelText, getProp, truthy, bind, Except.bind, pure, Except.pure]
  | str s => left; simp [hasChannelText, getProp, truthy, bind, Except.bind, pure, Except.pure]
  | arr items =>
    left; simp [hasChannelText, getProp, truthy, bind, Except.bind, pure, Except.pure]
  | obj fields =>
    simp only [isNoise] at h
    cases hc : fields.lookup "channel_post" with
    | none =>
      left; simp [hasChannelText, getProp, hc, truthy, bind, Except.bind, pure, Except.pure]
    | some cp =>
      rw [hc] at h
      cases cp with
      | null =>
        left; simp [hasChannelText, getProp, hc, truthy, bind, Except.bind, pure, Except.pure]
      | bool b =>
        left
        cases b <;>
          simp [hasChannelText, getProp, hc, truthy, bind, Except.bind, pure, Except.pure]
      | num n =>
        left
        by_cases hn : n = 0 <;>
          simp [hasChannelText, getProp, hc, truthy, hn, bind, Except.bind, pure, Except.pure]
      | str s =>
        left
        by_cases hs : s = "" <;>
          simp [hasChannelText, getProp, hc, truthy, hs, bind, Except.bind, pure, Except.pure]
      | arr items =>
        left; simp [hasChannelText, getProp, hc, truthy, bind, Except.bind, pure, Except.pure]
      | obj post =>
        simp only [Bool.or_eq_true, Bool.not_eq_true'] at h
        by_cases ht : truthy (post.lookup "text") = true
        · right
          have hf : isForeignText js (toStr (post.lookup "text")) = true := by
            rcases h with h | h
            · rw [ht] at h; cases h
            · exact h
          have hto : truthy (some (JVal.obj post)) = true := rfl
          constructor
          · simp [hasChannelText, getProp, hc, hto, ht, bind, Except.bind, pure, Except.pure]
          · simp [decodeUpdate, getProp, hc, parseMetadata_foreign hf, bind, Except.bind, pure,
              Except.pure]
        · left
          have hto : truthy (some (JVal.obj post)) = true := rfl
          have : truthy (post.lookup "text") = false := by simpa using ht
          simp [hasChannelText, getProp, hc, hto, this, bind, Except.bind, pure, Except.pure]

/-- An entry that passed the first filter is decoded without an exception. -/
theorem decodeUpdate_ok {js : Engine} {u : JVal} (h : hasChannelText u = .ok true) :
    ∃ y, decodeUpdate js u = .ok y := by
  simp only [hasChannelText, bind, Except.bind, pure, Except.pure] at h
  cases hc : getProp (some u) "channel_post" with
  | error e => rw [hc] at h; cases h
  | ok cp =>
    rw [hc] at h
    simp only at h
    by_cases ht : truthy cp = true
    · obtain ⟨x, hx⟩ := getProp_of_truthy cp "text" ht
      exact ⟨parseMetadata js (toStr x),
        by simp [decodeUpdate, hc, hx, bind, Except.bind, pure, Except.pure]⟩
    · simp [ht] at h

/-- The events that an entry contributes to the decoded list. -/
theorem decodeUpdates_cons (js : Engine) (u : JVal) (l : List JVal) :
    decodeUpdates js (some (.arr (u :: l))) =
      match hasChannelText u with
      | .error e => .error e
      | .ok keep =>
        match decodeUpdates js (some (.arr l)) with
        | .error e => .error e
        | .ok ds =>
          .ok ((if keep then
                  (match decodeUpdate js u with
                   | .ok (some y) => [y]
                   | _ => [])
                else []) ++ ds) := by
  simp only [decodeUpdates, getProp, asArray, filterE, bind, Except.bind, pure, Except.pure]
  cases hk : hasChannelText u with
  | error e => rfl
  | ok keep =>
    simp only
    cases hf : filterE hasChannelText l with
    | error e => rfl
    | ok posts =>
      simp only
      cases keep with
      | false =>
        simp only [Bool.false_eq_true, if_false, List.nil_append]
        cases mapE (decodeUpdate js) posts <;> rfl
      | true =>
        obtain ⟨y, hy⟩ := @decodeUpdate_ok js u hk
        simp only [if_true, mapE, hy]
        cases mapE (decodeUpdate js) posts with
        | error e => rfl
        | ok ds => cases y <;> rfl

/-- A noise entry at the head does not change what is decoded. -/
theorem decodeUpdates_noise {js : Engine} {u : JVal} (h : isNoise js u = true)
    (l : List JVal) :
    decodeUpdates js (some (.arr (u :: l))) = decodeUpdates js (some (.arr l)) := by
  rw [decodeUpdates_cons]
  rcases noise_dropped h with hk | ⟨hk, hd⟩
  · rw [hk]
    simp only [Bool.false_eq_true, if_false, List.nil_append]
    cases decodeUpdates js (some (.arr l)) <;> rfl
  · rw [hk, hd]
    simp only [if_true, List.nil_append]
    cases decodeUpdates js (some (.arr l)) <;> rfl

/-- What is decoded depends only on the entries that are not noise. -/
theorem decodeUpdates_filter (js : Engine) (l : List JVal) :
    decodeUpdates js (some (.arr l))
      = decodeUpdates js (some (.arr (l.filter (fun u => !isNoise js u)))) := by
  induction l with
  | nil => rfl
  | cons u rest ih =>
    by_cases hu : isNoise js u = true
    · rw [decodeUpdates_noise hu, List.filter_cons, hu]
      simpa using ih
    · have hu' : isNoise js u = false := by simpa using hu
      rw [List.filter_cons, hu']
      simp only [Bool.not_false, if_true]
      rw [decodeUpdates_cons, decodeUpdates_cons js u, ih]

/-- Claim C26.  Two fetched streams that differ only in noise entries (entries that are not
channel posts with text, or whose text is not valid JSON or has a type other than
`video_meta`), inserted or removed at any positions, are decoded to the same list of
records with the same outcome, so the reconciler leaves the same catalog file and exit code
for every state of the catalog file; one noise entry inserted anywhere changes nothing, and a
stream of noise alone is decoded to the empty list without an exception. -/
theorem sync_ignores_noise (js : Engine) (env : Env) (file : FileState) (answer answer' : Except Thrown JVal)
    (stream stream' : List JVal)
    (hfetch : fetchUpdates answer = .ok (some (.arr stream)))
    (hfetch' : fetchUpdates answer' = .ok (some (.arr stream')))
    (hsame : stream.filter (fun u => !isNoise js u) = stream'.filter (fun u => !isNoise js u)) :
    decodeUpdates js (some (.arr stream)) = decodeUpdates js (some (.arr stream')) ∧
    syncMain js env answer file = syncMain js env answer' file ∧
    (∀ pre post u, isNoise js u = true →
      decodeUpdates js (some (.arr (pre ++ u :: post)))
        = decodeUpdates js (some (.arr (pre ++ post)))) ∧
    (∀ l, (∀ u ∈ l, isNoise js u = true) → decodeUpdates js (some (.arr l)) = .ok []) := by
  have hdec : decodeUpdates js (some (.arr stream)) = decodeUpdates js (some (.arr stream')) := by
    rw [decodeUpdates_filter js stream, decodeUpdates_filter js stream', hsame]
  refine ⟨hdec, ?_, ?_, ?_⟩
  · simp only [syncMain, syncBody_eq, hfetch, hfetch', hdec]
  · intro pre post u hu
    rw [decodeUpdates_filter js (pre ++ u :: post), decodeUpdates_filter js (pre ++ post)]
    simp [List.filter_append, List.filter_cons, hu]
  · intro l hl
    rw [decodeUpdates_filter]
    have : l.filter (fun u => !isNoise js u) = [] := by
      rw [List.filter_eq_nil_iff]
      intro u hu
      simp [hl u hu]
    rw [this]
    rfl

/-- Claim C26 on the sample stream with and without its chat message. -/
theorem sync_ignores_noise_witness :
    syncMain sampleEngine sampleEnv (.ok sampleAnswer) (.holds (.arr (sampleCatalog.map JVal.obj)))
      = syncMain sampleEngine sampleEnv
          (.ok (.obj [("ok", .bool true), ("result", .arr [eventUpdate])]))
          (.holds (.arr (sampleCatalog.map JVal.obj))) :=
  (sync_ignores_noise sampleEngine sampleEnv (.holds (.arr (sampleCatalog.map JVal.obj))) (.ok sampleAnswer)
    (.ok (.obj [("ok", .bool true), ("result", .arr [eventUpdate])]))
    [chatUpdate, eventUpdate] [eventUpdate] rfl rfl (by decide)).2.1

/-- Claim C29.  For every engine and every input text, `parseMetadata` of `sync.js` and
`parseMetadataMessage` of `schema.js` return the same result: both `null`, or the same
record. -/
theorem decoders_agree (js : Engine) (text : String) :
    parseMetadata js text = parseMetadataMessage js text := by
  unfold parseMetadata parseMetadataMessage parseMetadataMessageBody MESSAGE_TYPE
  rfl

/-! ## The publish pipeline (C24, C27, C28, C30) -/

/-- A run of `main` that exits with code 0 went through every step of the `try` block. -/
theorem uploadMain_success (js : Engine) (env : Env) (args : Args) (disk : Disk) (tg : Telegram)
    (duration now1 now2 : Int) (file : FileState)
    (h : (uploadMain js env args disk tg duration now1 now2 file).exitCode = 0) :
    ∃ videoResult videoMsgId fileId thumbFileId catalog title,
      args.title = some title ∧ title ≠ "" ∧
      disk.videoSize ≤ SIZE_LIMIT ∧
      uploadFile tg.sendVideo = .ok videoResult ∧
      getProp videoResult "message_id" = .ok videoMsgId ∧
      extractFileId videoResult = .ok fileId ∧
      thumbnailFileId js args disk tg videoResult = .ok thumbFileId ∧
      updateLocalDB js file
          (definedFields (localVideo args videoMsgId fileId thumbFileId duration now2))
        = .ok (.holds catalog) ∧
      uploadMain js env args disk tg duration now1 now2 file
        = ⟨.holds catalog,
           (if usesThumbFile args disk then [Effect.uploadVideo, Effect.uploadPhoto]
            else [Effect.uploadVideo])
           ++ [.publish (jsonOf (uploadMetadata args videoMsgId fileId thumbFileId duration now1)),
               .save catalog], 0⟩ := by
  unfold uploadMain at h ⊢
  split at h
  · cases h
  split at h
  · cases h
  split at h
  · cases h
  split at h
  · cases h
  split at h
  · cases h
  rename_i h1 h2 h3 h4 h5
  rw [if_neg h1, if_neg h2, if_neg h3, if_neg h4, if_neg h5]
  have htitle : ∃ title, args.title = some title ∧ title ≠ "" := by
    cases ht : args.title with
    | none => simp [ht, truthy] at h3
    | some t =>
      refine ⟨t, rfl, ?_⟩
      intro he
      simp [ht, truthy, he] at h3
  obtain ⟨title, htitle, hne⟩ := htitle
  have hsize : disk.videoSize ≤ SIZE_LIMIT := by omega
  unfold uploadTry at h ⊢
  cases hv : uploadFile tg.sendVideo with
  | error e => rw [hv] at h; cases h
  | ok videoResult =>
    rw [hv] at h
    simp only at h ⊢
    cases hm : getProp videoResult "message_id" with
    | error e => simp [hm, bind, Except.bind] at h
    | ok videoMsgId =>
      cases hf : extractFileId videoResult with
      | error e => simp [hm, hf, bind, Except.bind] at h
      | ok fileId =>
        simp only [hm, hf, bind, Except.bind, pure, Except.pure] at h ⊢
        cases ht : thumbnailFileId js args disk tg videoResult with
        | error e => rw [ht] at h; cases h
        | ok thumbFileId =>
          rw [ht] at h
          simp only at h ⊢
          cases hp : uploadFile (tg.sendMessage
              (jsonOf (uploadMetadata args videoMsgId fileId thumbFileId duration now1))) with
          | error e => rw [hp] at h; cases h
          | ok r =>
            rw [hp] at h
            simp only at h ⊢
            cases hu : updateLocalDB js file
                (definedFields (localVideo args videoMsgId fileId thumbFileId duration now2)) with
            | error e => rw [hu] at h; cases h
            | ok written =>
              obtain ⟨c, rfl⟩ := updateLocalDB_holds hu
              exact ⟨videoResult, videoMsgId, fileId, thumbFileId, c, title, htitle, hne, hsize,
                rfl, hm, hf, ht, hu, by simp [saving]⟩

/-- The first effect of the `try` block is the upload of the video. -/
theorem uploadTry_starts (js : Engine) (args : Args) (disk : Disk) (tg : Telegram)
    (duration now1 now2 : Int) (file : FileState) :
    ∃ rest, (uploadTry js args disk tg duration now1 now2 file).effects
      = Effect.uploadVideo :: rest := by
  have hshape := uploadTry_shape js args disk tg duration now1 now2 file
  simp only at hshape
  have hup : ∃ rest, (if usesThumbFile args disk then [Effect.uploadVideo, Effect.uploadPhoto]
      else [Effect.uploadVideo]) = Effect.uploadVideo :: rest := by
    split
    · exact ⟨_, rfl⟩
    · exact ⟨_, rfl⟩
  obtain ⟨rest, hrest⟩ := hup
  rcases hshape with h | ⟨_, h | ⟨p, h⟩ | ⟨p, c, r, _, h⟩⟩
  · exact ⟨[], by rw [h]⟩
  · exact ⟨rest, by rw [h]; exact hrest⟩
  · exact ⟨rest ++ [.publish p], by rw [h]; simp [hrest]⟩
  · exact ⟨rest ++ [.publish p, .save c], by rw [h]; simp [hrest]⟩

/-- Claim C24.  The limit is 50 * 1024 * 1024 bytes.  For every video file whose size
exceeds it, `main` exits with code 1 without an upload, a publication or a write of the
catalog; for a file of at most that size, when the credentials, the arguments and the file
are there, `main` enters its `try` block, whose first effect is the upload of the video. -/
theorem upload_rejects_oversized (js : Engine) (env : Env) (args : Args) (disk : Disk) (tg : Telegram)
    (duration now1 now2 : Int) (file : FileState) :
    SIZE_LIMIT = 52428800 ∧
    (SIZE_LIMIT < disk.videoSize →
      uploadMain js env args disk tg duration now1 now2 file = ⟨file, [], 1⟩) ∧
    (disk.videoSize ≤ SIZE_LIMIT →
      truthy (env.BOT_TOKEN.map JVal.str) = true → truthy (env.CHANNEL_ID.map JVal.str) = true →
      truthy (args.video.map JVal.str) = true → truthy (args.title.map JVal.str) = true →
      disk.videoExists = true →
      uploadMain js env args disk tg duration now1 now2 file
          = uploadTry js args disk tg duration now1 now2 file ∧
        ∃ rest, (uploadMain js env args disk tg duration now1 now2 file).effects
          = Effect.uploadVideo :: rest) := by
  refine ⟨by decide, ?_, ?_⟩
  · intro hbig
    unfold uploadMain
    repeat' split
    all_goals rfl
  · intro hsmall hbot hchan hvideo htitle hexists
    have hnot : ¬ disk.videoSize > SIZE_LIMIT := by omega
    have heq : uploadMain js env args disk tg duration now1 now2 file
        = uploadTry js args disk tg duration now1 now2 file := by
      simp [uploadMain, hbot, hchan, hvideo, htitle, hexists, hnot]
    exact ⟨heq, by rw [heq]; exact uploadTry_starts js args disk tg duration now1 now2 file⟩

/-- Claim C24 on a file of one byte more than the limit and on a file of exactly the limit. -/
theorem upload_rejects_oversized_witness :
    uploadMain sampleEngine sampleEnv sampleArgs ⟨true, 52428801, false⟩ acceptingTelegram 10
        1700000000 1700000001 (.holds (.arr [.obj oldRecord]))
      = ⟨.holds (.arr [.obj oldRecord]), [], 1⟩ ∧
    ∃ rest, (uploadMain sampleEngine sampleEnv sampleArgs ⟨true, 52428800, false⟩
        acceptingTelegram 10 1700000000 1700000001 (.holds (.arr [.obj oldRecord]))).effects
      = Effect.uploadVideo :: rest :=
  ⟨(upload_rejects_oversized sampleEngine sampleEnv sampleArgs ⟨true, 52428801, false⟩ acceptingTelegram 10
      1700000000 1700000001 (.holds (.arr [.obj oldRecord]))).2.1 (by decide),
   ((upload_rejects_oversized sampleEngine sampleEnv sampleArgs ⟨true, 52428800, false⟩ acceptingTelegram 10
      1700000000 1700000001 (.holds (.arr [.obj oldRecord]))).2.2 (by decide) (by decide)
      (by decide) (by decide) (by decide) (by decide)).2⟩

/-- The merge keeps, for the id of an event that no later event has, that event alone. -/
theorem merge_event_wins (js : Engine) (recs pre post : List Obj) (R2 : Obj)
    (i handle : String)
    (hE : ∀ r ∈ pre ++ R2 :: post, ∃ s, r.lookup "id" = some (.str s))
    (hid : R2.lookup "id" = some (.str i))
    (hlast : ∀ r ∈ post, r.lookup "id" ≠ some (.str i))
    (hdemo : i ≠ "demo")
    (hfile : R2.lookup "file_id" = some (.str handle)) (hne : handle ≠ "") :
    ∃ final, mergeVideos js (.arr (recs.map JVal.obj)) (pre ++ R2 :: post) = .ok final ∧
      final.filter (fun v => strictEq (keyOf v) (some (.str i))) = [.obj R2] := by
  obtain ⟨m1, h1⟩ := setAll_objs recs []
  obtain ⟨hd1, hk1⟩ := setAll_invariants _ _ _ h1 List.Pairwise.nil (by intro e he; cases he)
  obtain ⟨X1, hT1, hX1, hcov1⟩ := setAll_events _ hE m1 hd1
  obtain ⟨hd2, hk2⟩ := setAll_invariants _ _ _ hT1 hd1 hk1
  refine ⟨_, @mergeVideos_of js _ _ _ _ h1 hT1, ?_⟩
  have hself : strictEq (some (JVal.str i)) (some (JVal.str i)) = true := by simp [strictEq]
  have hl : lastWith (some (.str i)) (pre ++ R2 :: post) = some (.obj R2) := by
    apply lastWith_split
    · rw [hid]; exact hself
    · intro r hr
      rw [Bool.eq_false_iff]
      intro h
      exact hlast r hr ((strictEq_str_iff _ _).1 h)
  have hin : ((some (.str i) : Option JVal), JVal.obj R2) ∈
      m1.map (eventual (pre ++ R2 :: post)) ++ X1 := by
    rw [List.mem_append]
    rcases hcov1 _ _ hl with hh | hh
    · left
      simp only [hasKey, List.any_eq_true] at hh
      obtain ⟨e0, he0, hse⟩ := hh
      refine List.mem_map.2 ⟨e0, he0, ?_⟩
      simp [eventual, strictEq_eq hse, hl]
    · exact Or.inr hh
  have hgood : okTrue (hasFileId js (.obj R2)) = true := by
    have hb : ((some (JVal.str handle) : Option JVal) != none
        && (some (JVal.str handle) : Option JVal) != some (JVal.str "")) = true := by
      simp [hne]
    rw [hasFileId_typed js R2 (Or.inr ⟨handle, hfile⟩), hfile, hb]
    rfl
  have hnd : strictEq (some (JVal.str i)) (some (JVal.str "demo")) = false := by
    simp [strictEq, hdemo]
  have hmem : JVal.obj R2 ∈ jsSort (compareUploaded js)
      (survivors js (m1.map (eventual (pre ++ R2 :: post)) ++ X1)) :=
    (jsSort_perm js _).mem_iff.2 (mem_survivors.2 ⟨_, hin, hnd, hgood⟩)
  have hpair := sorted_survivors_distinct js hd2 hk2
  have hkey : keyOf (JVal.obj R2) = some (.str i) := by simp [keyOf, getProp, hid]
  have hone : ∀ l : List JVal, l.Pairwise (fun a b => strictEq (keyOf a) (keyOf b) = false) →
      JVal.obj R2 ∈ l →
      l.filter (fun v => strictEq (keyOf v) (some (.str i))) = [.obj R2] := by
    intro l
    induction l with
    | nil => intro _ h; cases h
    | cons a rest ih =>
      intro hp hm
      obtain ⟨hp1, hp2⟩ := List.pairwise_cons.1 hp
      rcases List.mem_cons.1 hm with h | h
      · subst h
        rw [List.filter_cons, hkey, hself, if_pos rfl]
        congr 1
        rw [List.filter_eq_nil_iff]
        intro b hb
        have := hp1 b hb
        rw [hkey, strictEq_comm] at this
        simp [this]
      · have ha : strictEq (keyOf a) (some (.str i)) = false := by
          have := hp1 _ h
          rw [hkey] at this
          exact this
        rw [List.filter_cons, ha]
        simpa using ih hp2 h
  exact hone _ hpair hmem

/-- A value passes the filter of `updateLocalDB` only if it is an object. -/
theorem isValidEntry_true {js : Engine} {v : JVal} (h : okTrue (isValidEntry js v) = true) :
    ∃ r, v = .obj r := by
  simp only [isValidEntry, bind, Except.bind, pure, Except.pure] at h
  cases hn : notDemo v with
  | error e => rw [hn] at h; cases h
  | ok b =>
    rw [hn] at h
    cases b with
    | false => simp [okTrue] at h
    | true =>
      simp only [if_true] at h
      obtain ⟨r, hr, _⟩ := hasFileId_true h
      exact ⟨r, hr⟩

/-- A list of objects is the image of a list of records. -/
theorem objs_of_all (l : List JVal) (h : ∀ v ∈ l, ∃ r, v = JVal.obj r) :
    ∃ recs : List Obj, l = recs.map JVal.obj := by
  induction l with
  | nil => exact ⟨[], rfl⟩
  | cons v rest ih =>
    obtain ⟨r, hr⟩ := h v (List.mem_cons_self _ _)
    obtain ⟨recs, hrecs⟩ := ih (fun w hw => h w (List.mem_cons_of_mem _ hw))
    exact ⟨r :: recs, by rw [hr, hrecs]; rfl⟩

/-- The catalog that `updateLocalDB` writes is a list of records that has the new record. -/
theorem updateLocalDB_result {js : Engine} {file : FileState} {video : Obj} {c : JVal}
    {i : String} (hid : video.lookup "id" = some (.str i))
    (h : updateLocalDB js file video = .ok (.holds c)) :
    ∃ recs : List Obj, c = .arr (recs.map JVal.obj) ∧ video ∈ recs := by
  have key : ∀ items : List JVal, ∀ c : JVal,
      (Except.bind (filterE (isValidEntry js) items) fun valid =>
        Except.bind (replaceOrPush (some (.str i)) (.obj video) valid) fun updated =>
          Except.ok (FileState.holds (.arr updated))) = .ok (.holds c) →
      ∃ recs : List Obj, c = .arr (recs.map JVal.obj) ∧ video ∈ recs := by
    intro items c hc
    cases hf : filterE (isValidEntry js) items with
    | error e => rw [hf] at hc; cases hc
    | ok valid =>
      rw [hf] at hc
      simp only [Except.bind] at hc
      obtain ⟨hv, _⟩ := filterE_eq _ _ _ hf
      obtain ⟨recs0, hrecs0⟩ := objs_of_all valid (by
        intro v hv'
        rw [hv] at hv'
        exact isValidEntry_true (List.mem_filter.1 hv').2)
      rw [hrecs0, replaceOrPush_objs] at hc
      simp only [Except.bind, Except.ok.injEq, FileState.holds.injEq] at hc
      exact ⟨_, hc.symm, upsertInto_new i video recs0⟩
  cases file with
  | absent =>
    apply key [] c
    simp only [updateLocalDB, asArray, getProp, hid, bind, pure, Except.pure] at h
    exact h
  | corrupt => simp [updateLocalDB, readJSON, bind, Except.bind] at h
  | holds v =>
    cases v with
    | arr items =>
      apply key items c
      simp only [updateLocalDB, readJSON, asArray, getProp, hid, bind, pure, Except.pure] at h
      exact h
    | null => simp [updateLocalDB, readJSON, asArray, bind, Except.bind, pure, Except.pure] at h
    | bool b => simp [updateLocalDB, readJSON, asArray, bind, Except.bind, pure, Except.pure] at h
    | num n => simp [updateLocalDB, readJSON, asArray, bind, Except.bind, pure, Except.pure] at h
    | str s => simp [updateLocalDB, readJSON, asArray, bind, Except.bind, pure, Except.pure] at h
    | obj f => simp [updateLocalDB, readJSON, asArray, bind, Except.bind, pure, Except.pure] at h

/-- The fields of the local record. -/
theorem localVideo_fields (args : Args) (videoMsgId fileId thumbFileId : Option JVal)
    (duration now : Int) :
    let loc := definedFields (localVideo args videoMsgId fileId thumbFileId duration now)
    loc.lookup "id" = some (.str (toStr videoMsgId)) ∧
    loc.lookup "title" = args.title.map JVal.str ∧
    loc.lookup "description" = some (jsOr (args.desc.map JVal.str) (.str "")) ∧
    loc.lookup "file_id" = fileId ∧
    loc.lookup "thumb_file_id" = thumbFileId ∧
    loc.lookup "duration" = some (.num duration) ∧
    loc.lookup "uploaded_at" = some (.num now) := by
  rcases args with ⟨_, _, _ | title, _⟩ <;> cases fileId <;> cases thumbFileId <;>
    exact ⟨rfl, rfl, rfl, rfl, rfl, rfl, rfl⟩

/-- The fields of the published payload. -/
theorem uploadMetadata_fields (args : Args) (videoMsgId fileId thumbFileId : Option JVal)
    (duration now : Int) :
    let payload := some (jsonOf (uploadMetadata args videoMsgId fileId thumbFileId duration now))
    getProp payload "type" = .ok (some (.str "video_meta")) ∧
    getProp payload "video_msg_id" = .ok videoMsgId ∧
    getProp payload "file_id" = .ok fileId ∧
    getProp payload "thumb_file_id" = .ok thumbFileId ∧
    getProp payload "title" = .ok (args.title.map JVal.str) ∧
    getProp payload "description" = .ok (some (jsOr (args.desc.map JVal.str) (.str ""))) ∧
    getProp payload "duration" = .ok (some (.num duration)) ∧
    getProp payload "uploaded_at" = .ok (some (.num now)) := by
  rcases args with ⟨_, _, _ | title, _⟩ <;> cases videoMsgId <;> cases fileId <;>
    cases thumbFileId <;> exact ⟨rfl, rfl, rfl, rfl, rfl, rfl, rfl, rfl⟩

/-- The expression `photo[photo.length - 1].file_id` on an array is the handle of its last
element. -/
theorem lastFileId_arr {js : Engine} {items : List JVal} {t : Option JVal}
    (h : lastFileId js (some (.arr items)) = .ok t) :
    ∃ last, items.getLast? = some last ∧ getProp (some last) "file_id" = .ok t := by
  simp only [lastFileId, getProp, toNumber, Option.map, bind, Except.bind, pure,
    Except.pure, if_true] at h
  cases items with
  | nil => simp [getProp] at h
  | cons a rest =>
    have hpos : (0 : Int) ≤ ((a :: rest).length : Int) - 1 := by
      simp only [List.length_cons]; omega
    rw [if_pos hpos] at h
    have hidx : (((a :: rest).length : Int) - 1).toNat = (a :: rest).length - 1 := by
      simp only [List.length_cons]; omega
    rw [hidx, ← List.getLast?_eq_getElem?] at h
    cases hl : (a :: rest).getLast? with
    | none => rw [hl] at h; simp [getProp] at h
    | some last => exact ⟨last, rfl, by rw [hl] at h; exact h⟩

/-- With a thumbnail file the handle is read from the answer to the photo upload. -/
theorem thumbnail_uploaded {js : Engine} {args : Args} {disk : Disk} {tg : Telegram}
    {videoResult t : Option JVal} (hu : usesThumbFile args disk = true)
    (h : thumbnailFileId js args disk tg videoResult = .ok t) :
    ∃ thumbResult photo, uploadFile tg.sendPhoto = .ok thumbResult ∧
      getProp thumbResult "photo" = .ok photo ∧ lastFileId js photo = .ok t := by
  simp only [thumbnailFileId, hu, if_true, bind, Except.bind] at h
  cases h1 : uploadFile tg.sendPhoto with
  | error e => rw [h1] at h; cases h
  | ok thumbResult =>
    rw [h1] at h
    simp only at h
    cases h2 : getProp thumbResult "photo" with
    | error e => rw [h2] at h; cases h
    | ok photo =>
      rw [h2] at h
      exact ⟨thumbResult, photo, rfl, h2, h⟩

/-- Without a thumbnail file the handle is the one of `videoResult.video.thumb`, or `''`. -/
theorem thumbnail_derived {js : Engine} {args : Args} {disk : Disk} {tg : Telegram}
    {videoResult t : Option JVal} (hu : usesThumbFile args disk = false)
    (h : thumbnailFileId js args disk tg videoResult = .ok t) :
    ∃ video, getProp videoResult "video" = .ok video ∧
      ((video = none ∨ video = some .null) → t = some (.str "")) ∧
      (∀ v, video = some v → v ≠ .null →
        ∃ thumb, getProp (some v) "thumb" = .ok thumb ∧
          (truthy thumb = true → getProp thumb "file_id" = .ok t) ∧
          (truthy thumb = false → t = some (.str ""))) := by
  simp only [thumbnailFileId, hu, Bool.false_eq_true, if_false, bind, Except.bind, pure,
    Except.pure] at h
  cases h1 : getProp videoResult "video" with
  | error e => rw [h1] at h; cases h
  | ok video =>
    rw [h1] at h
    simp only at h
    refine ⟨video, rfl, ?_, ?_⟩
    · rintro (rfl | rfl)
      · simp only [truthy, Bool.false_eq_true, if_false, Except.ok.injEq] at h
        exact h.symm
      · simp only [truthy, Bool.false_eq_true, if_false, Except.ok.injEq] at h
        exact h.symm
    · intro v hv hnull
      subst hv
      have hm : (match getProp (some v) "thumb" with
          | .error err => Except.error err
          | .ok x =>
            if truthy x = true then getProp x "file_id"
            else Except.ok (some (JVal.str ""))) = .ok t := by
        cases v with
        | null => exact absurd rfl hnull
        | _ => exact h
      cases h2 : getProp (some v) "thumb" with
      | error e => rw [h2] at hm; cases hm
      | ok thumb =>
        rw [h2] at hm
        simp only at hm
        refine ⟨thumb, rfl, ?_, ?_⟩
        · intro ht
          rw [ht] at hm
          simpa using hm
        · intro ht
          rw [ht] at hm
          simp only [Bool.false_eq_true, if_false, Except.ok.injEq] at hm
          exact hm.symm

/-- Claim C27.  For every run of `main` that exits with code 0, the published payload and
the record upserted into the catalog carry the same `thumb_file_id`, and it is: with a
thumbnail file (the `--thumb` argument names an existing file), the `file_id` of the last
element of the `photo` array in the answer to the photo upload; without one, the `file_id`
of `videoResult.video.thumb` when the remote service provided it; otherwise the empty
string. -/
theorem upload_thumbnail_selection (js : Engine) (env : Env) (args : Args) (disk : Disk) (tg : Telegram)
    (duration now1 now2 : Int) (file : FileState)
    (hrun : (uploadMain js env args disk tg duration now1 now2 file).exitCode = 0) :
    ∃ (videoResult thumbFileId : Option JVal) (payload : JVal) (loc : Obj) (recs : List Obj),
      uploadFile tg.sendVideo = .ok videoResult ∧
      (uploadMain js env args disk tg duration now1 now2 file).effects
        = (if usesThumbFile args disk then [Effect.uploadVideo, Effect.uploadPhoto]
           else [Effect.uploadVideo])
          ++ [.publish payload, .save (.arr (recs.map JVal.obj))] ∧
      loc ∈ recs ∧
      getProp (some payload) "thumb_file_id" = .ok thumbFileId ∧
      loc.lookup "thumb_file_id" = thumbFileId ∧
      (usesThumbFile args disk = true →
        ∃ thumbResult photo, uploadFile tg.sendPhoto = .ok thumbResult ∧
          getProp thumbResult "photo" = .ok photo ∧
          ∀ items, photo = some (.arr items) →
            ∃ last, items.getLast? = some last ∧
              getProp (some last) "file_id" = .ok thumbFileId) ∧
      (usesThumbFile args disk = false →
        ∃ video, getProp videoResult "video" = .ok video ∧
          ((video = none ∨ video = some .null) → thumbFileId = some (.str "")) ∧
          (∀ v, video = some v → v ≠ .null →
            ∃ thumb, getProp (some v) "thumb" = .ok thumb ∧
              (truthy thumb = true → getProp thumb "file_id" = .ok thumbFileId) ∧
              (truthy thumb = false → thumbFileId = some (.str "")))) := by
  obtain ⟨videoResult, videoMsgId, fileId, thumbFileId, catalog, title, _, _, _, hv, _, _,
    ht, hu, heff⟩ := uploadMain_success js env args disk tg duration now1 now2 file hrun
  have hfields := localVideo_fields args videoMsgId fileId thumbFileId duration now2
  have hpay := uploadMetadata_fields args videoMsgId fileId thumbFileId duration now1
  simp only at hfields hpay
  obtain ⟨recs, hrecs, hloc⟩ := updateLocalDB_result hfields.1 hu
  refine ⟨videoResult, thumbFileId, _, _, recs, hv, ?_, hloc, hpay.2.2.2.1,
    hfields.2.2.2.2.1, ?_, ?_⟩
  · rw [heff, hrecs]
  · intro huse
    obtain ⟨thumbResult, photo, h1, h2, h3⟩ := thumbnail_uploaded huse ht
    refine ⟨thumbResult, photo, h1, h2, ?_⟩
    intro items hitems
    subst hitems
    exact lastFileId_arr h3
  · intro huse
    exact thumbnail_derived huse ht

/-- Claim C27 on a run with a thumbnail file. -/
theorem upload_thumbnail_selection_witness :
    ∃ (payload : JVal) (loc : Obj),
      getProp (some payload) "thumb_file_id" = .ok (some (.str "LARGE")) ∧
      loc.lookup "thumb_file_id" = some (.str "LARGE") := by
  obtain ⟨videoResult, thumbFileId, payload, loc, recs, _, _, _, h4, h5, h6, _⟩ :=
    upload_thumbnail_selection sampleEngine sampleEnv ⟨some "./video.mp4", some "./t.jpg", some "New", none⟩
      ⟨true, 1048576, true⟩ acceptingTelegram 10 1700000000 1700000001 .absent (by rfl)
  obtain ⟨thumbResult, photo, h7, h8, h9⟩ := h6 (by rfl)
  have hphoto : photo = some (.arr [.obj [("file_id", .str "SMALL")],
      .obj [("file_id", .str "LARGE")]]) := by
    have e1 : uploadFile acceptingTelegram.sendPhoto = .ok (some (.obj [("message_id", .num 44),
        ("photo", .arr [.obj [("file_id", .str "SMALL")], .obj [("file_id", .str "LARGE")]])])) :=
      rfl
    rw [e1] at h7
    cases h7
    cases h8
    rfl
  obtain ⟨last, hl1, hl2⟩ := h9 _ hphoto
  cases hl1
  cases hl2
  exact ⟨payload, loc, h4, h5⟩

/-- Claim C28 at a concrete run: the payload that `main` publishes has the fields of the
message that `createMetadataMessage` builds from the same input, except `schema_version`,
which the codec stamps and the payload lacks; no payload of `main` has a `schema_version`. -/
theorem upload_payload_without_schema_version :
    (uploadMain sampleEngine sampleEnv sampleArgs sampleDisk acceptingTelegram 10
        1700000000 1700000001 (.holds (.arr [.obj oldRecord]))).effects
      = [.uploadVideo,
         .publish (.obj [("type", .str "video_meta"), ("video_msg_id", .num 43),
           ("file_id", .str "NEW"), ("thumb_file_id", .str "AUTO"), ("title", .str "New"),
           ("description", .str ""), ("duration", .num 10), ("uploaded_at", .num 1700000000)]),
         .save (.arr [.obj oldRecord, .obj [("id", .str "43"), ("title", .str "New"),
           ("description", .str ""), ("file_id", .str "NEW"), ("thumb_file_id", .str "AUTO"),
           ("duration", .num 10), ("uploaded_at", .num 1700000001)]])] ∧
    jsonOf (createMetadataMessage 1700000000
        ⟨some (.num 43), some (.str "NEW"), some (.str "AUTO"), some (.str "New"),
         some (.str ""), some (.num 10)⟩)
      = .obj [("type", .str "video_meta"), ("schema_version", .num 1),
           ("video_msg_id", .num 43),
           ("file_id", .str "NEW"), ("thumb_file_id", .str "AUTO"), ("title", .str "New"),
           ("description", .str ""), ("duration", .num 10), ("uploaded_at", .num 1700000000)] ∧
    (∀ (args : Args) (videoMsgId fileId thumbFileId : Option JVal) (duration now : Int),
      getProp (some (jsonOf (uploadMetadata args videoMsgId fileId thumbFileId duration now)))
        "schema_version" = .ok none) := by
  refine ⟨by decide, by decide, ?_⟩
  intro args videoMsgId fileId thumbFileId duration now
  rcases args with ⟨_, _, _ | title, _⟩ <;> cases videoMsgId <;> cases fileId <;>
    cases thumbFileId <;> rfl

/-- A string with the default `''` is itself. -/
theorem jsOr_str (s : String) : jsOr (some (.str s)) (.str "") = .str s := by
  by_cases h : s = ""
  · subst h; rfl
  · simp [jsOr, truthy, h]

/-- A number with the default `0` is itself. -/
theorem jsOr_num (n : Int) : jsOr (some (.num n)) (.num 0) = .num n := by
  by_cases h : n = 0
  · subst h; rfl
  · simp [jsOr, truthy, h]

/-- A non-empty string is kept, whatever the default. -/
theorem jsOr_nonempty (s : String) (d : JVal) (h : s ≠ "") : jsOr (some (.str s)) d = .str s := by
  simp [jsOr, truthy, h]

/-- The description of the producer is a string. -/
theorem description_str (desc : Option String) :
    ∃ d, jsOr (desc.map JVal.str) (.str "") = .str d := by
  cases desc with
  | none => exact ⟨"", rfl⟩
  | some s => exact ⟨s, jsOr_str s⟩

/-- Decoding the payload of the producer. -/
theorem parse_uploadMetadata (js : Engine) (args : Args) (videoMsgId : Option JVal)
    (title handle thumb : String) (duration now : Int) (text : String)
    (htitle : args.title = some title) (htne : title ≠ "") (hne : handle ≠ "")
    (hser : js.JSONparse text = some (jsonOf (uploadMetadata args videoMsgId
      (some (.str handle)) (some (.str thumb)) duration now))) :
    parseMetadata js text = some
      [("id", .str (toStr videoMsgId)), ("title", .str title),
       ("description", jsOr (args.desc.map JVal.str) (.str "")),
       ("file_id", .str handle), ("thumb_file_id", .str thumb), ("duration", .num duration),
       ("uploaded_at", .num now)] := by
  have hf := uploadMetadata_fields args videoMsgId (some (.str handle)) (some (.str thumb))
    duration now
  simp only at hf
  obtain ⟨h1, h2, h3, h4, h5, h6, h7, h8⟩ := hf
  obtain ⟨d, hd⟩ := description_str args.desc
  have hs : strictEq (some (JVal.str "video_meta")) (some (JVal.str "video_meta")) = true := rfl
  rw [hd] at h6 ⊢
  rw [htitle, Option.map_some'] at h5
  simp only [parseMetadata, hser, h1, h2, h3, h4, h5, h6, h7, h8, hs,
    bind, Except.bind, pure, Except.pure, Bool.not_true, Bool.false_eq_true, if_false,
    jsOr_nonempty title _ htne, jsOr_nonempty handle _ hne, jsOr_str, jsOr_num]

/-- Claim C30.  For every run of `main` that exits with code 0 (so with a non-empty title),
with a non-empty string as file handle and a string as thumbnail handle, and every integer
duration: the record upserted into the catalog is in the written catalog, and decoding any
text that `JSON.parse` reads as the published payload yields a record that agrees with it in
`id`, `title`, `description`, `file_id`, `thumb_file_id` and `duration`; their `uploaded_at`
are the two readings of the clock.  So a later run of the reconciler on the written catalog,
in which that event is the last one of its id, leaves under that id the decoded record
alone. -/
theorem upload_local_matches_decoded (js : Engine) (env : Env) (args : Args) (disk : Disk) (tg : Telegram)
    (duration now1 now2 : Int) (file : FileState) (videoResult : Option JVal)
    (handle thumb : String)
    (hrun : (uploadMain js env args disk tg duration now1 now2 file).exitCode = 0)
    (hvideo : uploadFile tg.sendVideo = .ok videoResult)
    (hhandle : extractFileId videoResult = .ok (some (.str handle))) (hne : handle ≠ "")
    (hthumb : thumbnailFileId js args disk tg videoResult = .ok (some (.str thumb))) :
    ∃ (payload : JVal) (loc : Obj) (recs : List Obj),
      (uploadMain js env args disk tg duration now1 now2 file).effects
        = (if usesThumbFile args disk then [Effect.uploadVideo, Effect.uploadPhoto]
           else [Effect.uploadVideo])
          ++ [.publish payload, .save (.arr (recs.map JVal.obj))] ∧
      (uploadMain js env args disk tg duration now1 now2 file).file
        = .holds (.arr (recs.map JVal.obj)) ∧
      loc ∈ recs ∧
      ∀ text, js.JSONparse text = some payload →
        ∃ dec, parseMetadata js text = some dec ∧
          (∀ key ∈ ["id", "title", "description", "file_id", "thumb_file_id", "duration"],
            dec.lookup key = loc.lookup key) ∧
          dec.lookup "uploaded_at" = some (.num now1) ∧
          loc.lookup "uploaded_at" = some (.num now2) ∧
          (∀ (env' : Env) (answer : Except Thrown JVal) (updates : Option JVal)
              (pre post : List Obj) (i : String),
            truthy (env'.BOT_TOKEN.map JVal.str) = true →
            truthy (env'.CHANNEL_ID.map JVal.str) = true →
            fetchUpdates answer = .ok updates →
            decodeUpdates js updates = .ok (pre ++ dec :: post) →
            loc.lookup "id" = some (.str i) → i ≠ "demo" →
            (∀ r ∈ post, r.lookup "id" ≠ some (.str i)) →
            ∃ final,
              syncMain js env' answer (uploadMain js env args disk tg duration now1 now2 file).file
                = ⟨.holds (.arr final), 0⟩ ∧
              final.filter (fun v => strictEq (keyOf v) (some (.str i))) = [.obj dec]) := by
  obtain ⟨videoResult', videoMsgId, fileId, thumbFileId, catalog, title, htitle, htne, _, hv, _,
    hf, ht, hu, heff⟩ := uploadMain_success js env args disk tg duration now1 now2 file hrun
  rw [hvideo] at hv
  cases hv
  rw [hhandle] at hf
  cases hf
  rw [hthumb] at ht
  cases ht
  have hfields := localVideo_fields args videoMsgId (some (.str handle)) (some (.str thumb))
    duration now2
  simp only at hfields
  obtain ⟨l1, l2, l3, l4, l5, l6, l7⟩ := hfields
  obtain ⟨recs, hrecs, hloc⟩ := updateLocalDB_result l1 hu
  subst hrecs
  refine ⟨_, _, recs, by rw [heff], by rw [heff], hloc, ?_⟩
  intro text hser
  have hdec := parse_uploadMetadata js args videoMsgId title handle thumb duration now1 text
    htitle htne hne hser
  refine ⟨_, hdec, ?_, rfl, l7, ?_⟩
  · intro key hkey
    simp only [List.mem_cons, List.mem_singleton, List.not_mem_nil, or_false] at hkey
    rcases hkey with rfl | rfl | rfl | rfl | rfl | rfl
    · rw [l1]; rfl
    · rw [l2, htitle]; rfl
    · rw [l3]; rfl
    · rw [l4]; rfl
    · rw [l5]; rfl
    · rw [l6]; rfl
  · intro env' answer updates pre post i hbot hchan hfetch hdecode hid hdemo hlast
    rw [l1] at hid
    have hid' : (toStr videoMsgId) = i := by
      simpa using hid
    obtain ⟨final, hmerge, hfinal⟩ := merge_event_wins js recs pre post _ i handle
      (decodeUpdates_id hdecode) (by rw [← hid']; rfl) hlast hdemo rfl hne
    refine ⟨final, ?_, hfinal⟩
    have hlen : ((pre ++ [("id", JVal.str (toStr videoMsgId)), ("title", JVal.str title),
        ("description", jsOr (args.desc.map JVal.str) (.str "")),
        ("file_id", JVal.str handle), ("thumb_file_id", JVal.str thumb),
        ("duration", JVal.num duration), ("uploaded_at", JVal.num now1)] :: post).length == 0)
        = false := by simp
    rw [heff]
    simp [syncMain, hbot, hchan, syncBody_eq, hfetch, hdecode, hlen, loadExisting, readJSON,
      getProp, bind, Except.bind, pure, Except.pure, hmerge]

/-- Claim C30 on the sample upload. -/
theorem upload_local_matches_decoded_witness :
    ∃ (loc : Obj) (recs : List Obj),
      (uploadMain uploadEngine sampleEnv sampleArgs sampleDisk acceptingTelegram 10
          1700000000 1700000001 (.holds (.arr [.obj oldRecord]))).file
        = .holds (.arr (recs.map JVal.obj)) ∧
      loc ∈ recs ∧
      ∃ dec, parseMetadata uploadEngine uploadText = some dec ∧
        ∀ key ∈ ["id", "title", "description", "file_id", "thumb_file_id", "duration"],
          dec.lookup key = loc.lookup key := by
  obtain ⟨payload, loc, recs, h1, h2, h3, h4⟩ :=
    upload_local_matches_decoded uploadEngine sampleEnv sampleArgs sampleDisk acceptingTelegram 10
      1700000000 1700000001 (.holds (.arr [.obj oldRecord]))
      (some (.obj [("message_id", .num 43),
        ("video", .obj [("file_id", .str "NEW"), ("thumb", .obj [("file_id", .str "AUTO")])])]))
      "NEW" "AUTO" (by rfl) rfl rfl (by decide) rfl
  have hpay : payload = .obj [("type", .str "video_meta"), ("video_msg_id", .num 43),
      ("file_id", .str "NEW"), ("thumb_file_id", .str "AUTO"), ("title", .str "New"),
      ("description", .str ""), ("duration", .num 10), ("uploaded_at", .num 1700000000)] := by
    have e : (uploadMain uploadEngine sampleEnv sampleArgs sampleDisk acceptingTelegram 10
        1700000000 1700000001 (.holds (.arr [.obj oldRecord]))).effects
        = [.uploadVideo,
          .publish (.obj [("type", .str "video_meta"), ("video_msg_id", .num 43),
            ("file_id", .str "NEW"), ("thumb_file_id", .str "AUTO"), ("title", .str "New"),
            ("description", .str ""), ("duration", .num 10), ("uploaded_at", .num 1700000000)]),
          .save (.arr [.obj oldRecord, .obj [("id", .str "43"), ("title", .str "New"),
            ("description", .str ""), ("file_id", .str "NEW"), ("thumb_file_id", .str "AUTO"),
            ("duration", .num 10), ("uploaded_at", .num 1700000001)]])] := by rfl
    rw [e] at h1
    have hu : usesThumbFile sampleArgs sampleDisk = false := rfl
    simp only [hu, Bool.false_eq_true, if_false, List.cons_append, List.nil_append,
      List.cons.injEq, Effect.publish.injEq, true_and] at h1
    exact h1.1.symm
  subst hpay
  obtain ⟨dec, hd, hk, _⟩ := h4 uploadText rfl
  exact ⟨loc, recs, h2, h3, dec, hd, hk⟩

end MeowVideos
